import Mathlib

/-!
# Tempus: the multimodal graph, plugin options and request parsing

A shallow embedding of `src/core/multimodal_graph.cc` (with the data model of
`src/core/road_graph.hh`): the composite vertex and edge, the three iterators
(`VertexIterator`, `OutEdgeIterator`, `EdgeIterator`), the index map, the counting
functions, the edge lookup and the string rendering; of the option accessors of
`src/core/plugin.hh`; and of the vertex lookup and the completion of the allowed modes of
`src/wps/tempus_services.cc`; followed by the properties proved about them.

Conventions of the embedding.

* Descriptors of `vecS` graphs are natural numbers (positions); a `vecS` iterator is the
  position it stands at and its end is the size of the container.
* A pointer to an element of a `std::map` is the key of that element: a map holds one element
  per key and never moves it.  The address of the road graph of a multimodal graph is the
  field `addr` of the road graph.
* Reading through an end iterator (undefined behaviour in C++) is `none`.
* `multimodal_graph.hh` and `public_transport_graph.hh` are not among the sources: the types
  they declare are modelled from the specification and from the way the code uses them.
* A composite vertex is a `Vertex` (the tag and the fields of the tagged variant) wherever the
  code reads only those, and a `VertexObject` (the tag and all the fields) for `get_index`,
  which reads `pt_graph` and `pt_vertex` whatever the tag; the member `vertex_` that
  `VertexIterator::dereference` rewrites is followed by `VertexIterator.dereference_into`.
-/

namespace Tempus

/-! ## Data model -/

namespace PublicTransport

/-- What the code reads through a `PublicTransport::Stop*` kept on a road section
    (`Road::Section::stops`): `stop->graph`, the sub-graph that owns the stop, and
    `stop->vertex`, its descriptor in that sub-graph. -/
structure StopPtr where
  graph : Nat
  vertex : Nat
deriving DecidableEq, Repr

end PublicTransport

namespace Road

/-- `Road::Edge`, the BGL edge descriptor of the undirected road graph: the two end points as
    seen from the vertex the descriptor was obtained from, and the address of the section
    (here its position in the edge list of the graph). -/
structure Edge where
  m_source : Nat
  m_target : Nat
  m_eproperty : Nat
deriving DecidableEq, Repr

/-- `Road::Section`, the bundled edge property.  Only the two lists the multimodal graph reads
    are kept: the PT stops and the POIs attached to the section. -/
structure Section where
  stops : List PublicTransport.StopPtr
  pois : List Nat
deriving DecidableEq, Repr

/-- One element of the edge list of the BGL `adjacency_list`: the end points given to
    `add_edge` and the bundled section. -/
structure StoredEdge where
  m_source : Nat
  m_target : Nat
  m_property : Section
deriving DecidableEq, Repr

/-- `Road::Graph`: `adjacency_list<vecS, vecS, undirectedS, Node, Section>`.
    `m_vertices` is the number of vertices (descriptors `0 .. m_vertices - 1`),
    `m_vertex_db_id` the `db_id` of the bundle (`Road::Node`) of every vertex, in descriptor
    order (the only field of the bundle the multimodal graph reads), `m_edges` the edge list
    in insertion order. -/
structure Graph where
  addr : Nat
  m_vertices : Nat
  m_vertex_db_id : List Nat
  m_edges : List StoredEdge
deriving DecidableEq, Repr

/-- `boost::num_vertices` on the road graph. -/
def num_vertices (g : Graph) : Nat := g.m_vertices

/-- `boost::num_edges` on the road graph. -/
def num_edges (g : Graph) : Nat := g.m_edges.length

/-- The out-edge list of `v` built by successive `add_edge` calls: an undirected edge is
    pushed on the list of its source and on the list of its target (twice on the same list
    for a loop).  `i` is the position of the head of `es` in the edge list. -/
def out_edges_aux (v : Nat) : List StoredEdge → Nat → List Edge
  | [], _ => []
  | e :: es, i =>
    (if e.m_source = v then [Edge.mk v e.m_target i] else []) ++
    ((if e.m_target = v then [Edge.mk v e.m_source i] else []) ++
      out_edges_aux v es (i + 1))

/-- `boost::out_edges(v, road)`, as the list the iterator pair runs over. -/
def out_edges (v : Nat) (g : Graph) : List Edge := out_edges_aux v g.m_edges 0

/-- `road[e]`: the section an edge descriptor designates. -/
def Graph.bundle (g : Graph) (e : Edge) : Section :=
  match g.m_edges[e.m_eproperty]? with
  | some s => s.m_property
  | none => Section.mk [] []

end Road

/-- `POI` (road_graph.hh): the database id and the road section the POI is attached to. -/
structure POI where
  db_id : Nat
  road_section : Road.Edge
deriving DecidableEq, Repr

namespace PublicTransport

/-- Modelled from the spec: `PublicTransport::Stop`, the bundled vertex property, whose
    declaration (public_transport_graph.hh) is missing: "identity; a reference to the road
    section it lies on".  The code reads `db_id` and `road_section`. -/
structure Stop where
  db_id : Nat
  road_section : Road.Edge
deriving DecidableEq, Repr

/-- One vertex of the directed BGL graph of a PT network: its out-edge list (the targets) and
    its bundle. -/
structure StoredVertex where
  m_out_edges : List Nat
  m_property : Stop
deriving DecidableEq, Repr

/-- Modelled from the spec: `PublicTransport::Graph`, whose declaration
    (public_transport_graph.hh) is missing: a "directed labeled graph of PT stops and
    sections", here a BGL `adjacency_list` with `vecS` vertex storage like the road graph. -/
structure Graph where
  m_vertices : List StoredVertex
deriving DecidableEq, Repr

/-- `boost::num_vertices` on a PT graph. -/
def num_vertices (g : Graph) : Nat := g.m_vertices.length

/-- `boost::out_edges(v, pt_graph)`: the targets of the out-edges of `v`, in order. -/
def out_edges (v : Nat) (g : Graph) : List Nat :=
  match g.m_vertices[v]? with
  | some sv => sv.m_out_edges
  | none => []

/-- `boost::out_degree(v, pt_graph)`. -/
def out_degree (v : Nat) (g : Graph) : Nat := (out_edges v g).length

/-- `boost::num_edges` on a directed graph: the out-degrees of all vertices added up. -/
def num_edges (g : Graph) : Nat := (g.m_vertices.map (fun sv => sv.m_out_edges.length)).sum

/-- `pt_graph[v].road_section`. -/
def Graph.road_section (g : Graph) (v : Nat) : Road.Edge :=
  match g.m_vertices[v]? with
  | some sv => sv.m_property.road_section
  | none => Road.Edge.mk 0 0 0

end PublicTransport

namespace Multimodal

/-- Modelled from the spec: `Multimodal::Graph::PublicTransportGraphList`, whose declaration
    (multimodal_graph.hh) is missing: "a mapping network-id → PublicTransportGraph (the
    collection)" (`m_map`, in key order) with "an owned set of selected network-ids". -/
structure PublicTransportGraphList where
  m_map : List (Nat × PublicTransport.Graph)
  selection_ : List Nat
deriving DecidableEq, Repr

/-- Modelled from the spec: the iteration `begin() .. end()` of the PT collection, whose
    declaration (multimodal_graph.hh) is missing.  "Only PT sub-graphs whose keys are in the
    selection participate in iteration, counting, and indexing"; "iteration must skip
    unselected sub-graphs".  The test on PT sub maps in tests.cc relies on it: after a copy of
    the first network is added and the first network is unselected, the counts are unchanged. -/
def PublicTransportGraphList.iter (m : PublicTransportGraphList) :
    List (Nat × PublicTransport.Graph) :=
  m.m_map.filter (fun p => m.selection_.contains p.1)

/-- `*pt_graph` for a pointer to a sub-graph of the collection (selected or not). -/
def PublicTransportGraphList.deref (m : PublicTransportGraphList) (pt_graph : Nat) :
    PublicTransport.Graph :=
  match m.m_map.find? (fun p => p.1 == pt_graph) with
  | some p => p.2
  | none => PublicTransport.Graph.mk []

/-- Modelled from the spec: `Multimodal::Graph`, whose declaration (multimodal_graph.hh) is
    missing: "exactly one RoadGraph", the PT collection and "a mapping poi-id → POI" (in key
    order); the code reads them as `road`, `public_transports` and `pois`. -/
structure Graph where
  addr : Nat
  road : Road.Graph
  public_transports : PublicTransportGraphList
  pois : List (Nat × POI)
deriving DecidableEq, Repr

/-- `*poi` for a pointer to a POI of the graph. -/
def Graph.poi_deref (g : Graph) (poi : Nat) : POI :=
  match g.pois.find? (fun p => p.1 == poi) with
  | some p => p.2
  | none => POI.mk 0 (Road.Edge.mk 0 0 0)

/-- Modelled from the spec: `Multimodal::Vertex::VertexType`, whose declaration
    (multimodal_graph.hh) is missing: the three variants Road, PublicTransport and Poi, in
    this order. -/
inductive VertexType where
  | Road
  | PublicTransport
  | Poi
deriving DecidableEq, Repr

/-- The integer value of a tag, `(int)type`. -/
def VertexType.toInt : VertexType → Int
  | .Road => 0
  | .PublicTransport => 1
  | .Poi => 2

/-- Modelled from the spec: `Multimodal::Vertex`, whose declaration (multimodal_graph.hh) is
    missing: "a tagged union of three variants".  Each variant holds what its constructor in
    multimodal_graph.cc stores: `Vertex(road_graph, road_vertex)`,
    `Vertex(pt_graph, pt_vertex)` and `Vertex(poi)`.  This is the vertex as `operator==`,
    `operator<`, `connection_type`, `out_edges` and `out_degree` see it: the tag and the fields
    of the tagged variant.  `get_index` also reads `pt_graph` and `pt_vertex` of a vertex of
    another variant, and takes the whole object, a `VertexObject`. -/
inductive Vertex where
  | Road (road_graph : Nat) (road_vertex : Nat)
  | PublicTransport (pt_graph : Nat) (pt_vertex : Nat)
  | Poi (poi : Nat)
deriving DecidableEq, Repr

/-- The field `type`. -/
def Vertex.type : Vertex → VertexType
  | .Road _ _ => VertexType.Road
  | .PublicTransport _ _ => VertexType.PublicTransport
  | .Poi _ => VertexType.Poi

/-- Modelled from the spec: a `Multimodal::Vertex` object as it lies in memory.  The
    declaration (multimodal_graph.hh) is missing; the constructors,
    `VertexIterator::dereference` and `VertexIndexProperty::get_index` of multimodal_graph.cc
    assign and read the tag `type` and the fields `road_graph`, `road_vertex`, `pt_graph`,
    `pt_vertex` and `poi` one by one, so the fields of the variants other than the tagged one
    keep what was last stored in them.  A pointer that was never assigned is `none`: it is the
    address of no sub-graph and of no POI.  A descriptor that was never assigned is 0; it is
    read only next to a pointer that was assigned with it. -/
structure VertexObject where
  type : VertexType
  road_graph : Option Nat
  road_vertex : Nat
  pt_graph : Option Nat
  pt_vertex : Nat
  poi : Option Nat
deriving DecidableEq, Repr

/-- The three constructors `Vertex::Vertex( graph, vertex )` (road), `Vertex::Vertex( graph,
    vertex )` (public transport) and `Vertex::Vertex( poi )`: each assigns the tag and the
    fields of its own variant and nothing else. -/
def Vertex.constructed : Vertex → VertexObject
  | .Road graph vertex => VertexObject.mk VertexType.Road (some graph) vertex none 0 none
  | .PublicTransport graph vertex =>
    VertexObject.mk VertexType.PublicTransport none 0 (some graph) vertex none
  | .Poi poi => VertexObject.mk VertexType.Poi none 0 none 0 (some poi)

/-- The vertex an object stands for: its tag with the fields of the tagged variant, which is
    all that `Vertex::operator==` and `Vertex::operator<` read.  `none` when the pointer of
    the tagged variant was never assigned. -/
def VertexObject.vertex (v : VertexObject) : Option Vertex :=
  match v.type with
  | .Road => v.road_graph.map (fun graph => Vertex.Road graph v.road_vertex)
  | .PublicTransport => v.pt_graph.map (fun graph => Vertex.PublicTransport graph v.pt_vertex)
  | .Poi => v.poi.map (fun poi => Vertex.Poi poi)

/-- `Vertex::operator==`: different tags give false; otherwise the pair (graph, vertex), or
    the POI pointer, is compared (the last case of the match is never reached). -/
def Vertex.operator_eq (u v : Vertex) : Bool :=
  if u.type ≠ v.type then false
  else
    match u, v with
    | .Road g x, .Road g2 x2 => g == g2 && x == x2
    | .PublicTransport g x, .PublicTransport g2 x2 => g == g2 && x == x2
    | .Poi p, .Poi p2 => p == p2
    | _, _ => false

/-- `Vertex::operator!=`. -/
def Vertex.operator_ne (u v : Vertex) : Bool := !(u.operator_eq v)

/-- `Vertex::operator<`: different tags are compared as integers; otherwise the graph
    pointers, then the descriptors (the last case of the match is never reached). -/
def Vertex.operator_lt (u v : Vertex) : Bool :=
  if u.type ≠ v.type then decide (u.type.toInt < v.type.toInt)
  else
    match u, v with
    | .Road g x, .Road g2 x2 => if g ≠ g2 then decide (g < g2) else decide (x < x2)
    | .PublicTransport g x, .PublicTransport g2 x2 =>
      if g ≠ g2 then decide (g < g2) else decide (x < x2)
    | .Poi p, .Poi p2 => decide (p < p2)
    | _, _ => false

/-- The key the order is claimed to compare lexicographically: (variant tag, graph handle,
    local descriptor); a POI has no graph handle and its pointer is the descriptor. -/
def Vertex.order_key : Vertex → Nat × Nat × Nat
  | .Road g x => (0, g, x)
  | .PublicTransport g x => (1, g, x)
  | .Poi p => (2, 0, p)

/-- Modelled from the spec: `Multimodal::Edge`, whose declaration (multimodal_graph.hh) is
    missing: "a record of (source MultimodalVertex, target MultimodalVertex)". -/
structure Edge where
  source : Vertex
  target : Vertex
deriving DecidableEq, Repr

/-- Modelled from the spec: `Edge::ConnectionType`, whose declaration (multimodal_graph.hh) is
    missing: the six connection types and `UnknownConnection`. -/
inductive ConnectionType where
  | UnknownConnection
  | Road2Road
  | Road2Transport
  | Transport2Road
  | Transport2Transport
  | Road2Poi
  | Poi2Road
deriving DecidableEq, Repr

/-- `Edge::connection_type`. -/
def Edge.connection_type (e : Edge) : ConnectionType :=
  if e.source.type = VertexType.Road then
    if e.target.type = VertexType.Road then ConnectionType.Road2Road
    else if e.target.type = VertexType.PublicTransport then ConnectionType.Road2Transport
    else ConnectionType.Road2Poi
  else if e.source.type = VertexType.PublicTransport then
    if e.target.type = VertexType.Road then ConnectionType.Transport2Road
    else if e.target.type = VertexType.PublicTransport then ConnectionType.Transport2Transport
    else ConnectionType.UnknownConnection
  else
    if e.target.type = VertexType.Road then ConnectionType.Poi2Road
    else ConnectionType.UnknownConnection

/-! ## Loops over an iterator pair -/

/-- The loop `for ( ; it != end; it++ ) n++` of the tests: the number of steps from `it` until
    it compares equal to `last`.  `none` when the fuel runs out or an increment fails. -/
def count_steps {α : Type} (equal : α → α → Bool) (increment : α → Option α) :
    Nat → α → α → Option Nat
  | 0, _, _ => none
  | fuel + 1, it, last =>
    if equal it last then some 0
    else
      match increment it with
      | none => none
      | some next => (count_steps equal increment fuel next last).map (fun n => n + 1)

/-- The loop `for ( ; it != end; it++ ) use( *it )`: the values met from `it` until it
    compares equal to `last`.  `none` when the fuel runs out or a step fails. -/
def collect {α β : Type} (equal : α → α → Bool) (increment : α → Option α)
    (dereference : α → Option β) : Nat → α → α → Option (List β)
  | 0, _, _ => none
  | fuel + 1, it, last =>
    if equal it last then some []
    else
      match dereference it, increment it with
      | some x, some next =>
        (collect equal increment dereference fuel next last).map (fun xs => x :: xs)
      | _, _ => none

/-! ## VertexIterator -/

/-- The state of a `Multimodal::VertexIterator`: the four cursors and their ends.
    `pt_graph_it_` is a position in the iteration of the PT collection.  The mutable member
    `vertex_` is kept apart from the cursors: `dereference` alone writes it and neither
    `increment` nor `equal` reads it (see `VertexIterator.dereference_into`). -/
structure VertexIterator where
  graph_ : Nat
  road_it_ : Nat
  road_it_end_ : Nat
  pt_graph_it_ : Nat
  pt_graph_it_end_ : Nat
  pt_it_ : Nat
  pt_it_end_ : Nat
  poi_it_ : Nat
  poi_it_end_ : Nat
deriving DecidableEq, Repr

/-- `VertexIterator::VertexIterator( graph )`.  The last statement reads
    `pt_graph_it_->second` without a test: on a collection whose iteration is empty this is
    a read through `end()`. -/
def VertexIterator.construct (graph : Graph) : Option VertexIterator :=
  match graph.public_transports.iter[0]? with
  | none => none
  | some p =>
    some (VertexIterator.mk graph.addr
      0 (Road.num_vertices graph.road)
      0 graph.public_transports.iter.length
      0 (PublicTransport.num_vertices p.2)
      0 graph.pois.length)

/-- `VertexIterator::to_end`. -/
def VertexIterator.to_end (it : VertexIterator) : VertexIterator :=
  { it with
    road_it_ := it.road_it_end_
    pt_graph_it_ := it.pt_graph_it_end_
    pt_it_ := it.pt_it_end_
    poi_it_ := it.poi_it_end_ }

/-- `VertexIterator::dereference`: the vertex the returned reference stands for, that is the
    tag and the fields of the tagged variant (the whole member `vertex_` is followed by
    `VertexIterator.dereference_into`). -/
def VertexIterator.dereference (graph : Graph) (it : VertexIterator) : Option Vertex :=
  if it.road_it_ ≠ it.road_it_end_ then
    some (Vertex.Road graph.road.addr it.road_it_)
  else if it.pt_it_ ≠ it.pt_it_end_ then
    match graph.public_transports.iter[it.pt_graph_it_]? with
    | some p => some (Vertex.PublicTransport p.1 it.pt_it_)
    | none => none
  else
    match graph.pois[it.poi_it_]? with
    | some p => some (Vertex.Poi p.1)
    | none => none

/-- The member `vertex_` of a `VertexIterator` before any `dereference`: the constructor of
    the iterator does not assign it, so no pointer of it is set (the tag is written by
    `dereference` before anything reads it). -/
def VertexObject.unassigned : VertexObject :=
  VertexObject.mk VertexType.Road none 0 none 0 none

/-- `VertexIterator::dereference` as it acts on the mutable member `vertex_`, whose content
    before the call is the argument `vertex_` and whose content after the call, which the
    returned reference names, is the result: the tag is assigned, then the fields of the
    tagged variant; the fields of the other variants stay as an earlier call left them. -/
def VertexIterator.dereference_into (graph : Graph) (it : VertexIterator)
    (vertex_ : VertexObject) : Option VertexObject :=
  let vertex_ :=
    if it.road_it_ ≠ it.road_it_end_ then { vertex_ with type := VertexType.Road }
    else if it.pt_it_ ≠ it.pt_it_end_ then { vertex_ with type := VertexType.PublicTransport }
    else { vertex_ with type := VertexType.Poi }
  if vertex_.type = VertexType.Road then
    some { vertex_ with road_vertex := it.road_it_, road_graph := some graph.road.addr }
  else if vertex_.type = VertexType.PublicTransport then
    match graph.public_transports.iter[it.pt_graph_it_]? with
    | some p => some { vertex_ with pt_graph := some p.1, pt_vertex := it.pt_it_ }
    | none => none
  else
    match graph.pois[it.poi_it_]? with
    | some p => some { vertex_ with poi := some p.1 }
    | none => none

/-- The `while` loop that ends `VertexIterator::increment`; every turn moves `pt_graph_it_`
    one step, so `fuel` turns are enough when `fuel` is the distance to the end. -/
def VertexIterator.next_pt_graph (graph : Graph) : Nat → VertexIterator → VertexIterator
  | 0, it => it
  | fuel + 1, it =>
    if it.pt_it_ = it.pt_it_end_ ∧ it.pt_graph_it_ ≠ it.pt_graph_it_end_ then
      let it1 := { it with pt_graph_it_ := it.pt_graph_it_ + 1 }
      if it1.pt_graph_it_ ≠ it1.pt_graph_it_end_ then
        match graph.public_transports.iter[it1.pt_graph_it_]? with
        | some p =>
          VertexIterator.next_pt_graph graph fuel
            { it1 with pt_it_ := 0, pt_it_end_ := PublicTransport.num_vertices p.2 }
        | none => VertexIterator.next_pt_graph graph fuel it1
      else VertexIterator.next_pt_graph graph fuel it1
    else it

/-- `VertexIterator::increment`. -/
def VertexIterator.increment (graph : Graph) (it : VertexIterator) : VertexIterator :=
  if it.road_it_ ≠ it.road_it_end_ then
    { it with road_it_ := it.road_it_ + 1 }
  else
    let it1 := if it.pt_it_ ≠ it.pt_it_end_ then { it with pt_it_ := it.pt_it_ + 1 } else it
    let it2 :=
      if it1.pt_graph_it_ = it1.pt_graph_it_end_ then
        (if it1.poi_it_ ≠ it1.poi_it_end_ then { it1 with poi_it_ := it1.poi_it_ + 1 } else it1)
      else it1
    VertexIterator.next_pt_graph graph (it2.pt_graph_it_end_ - it2.pt_graph_it_) it2

/-- `VertexIterator::equal`. -/
def VertexIterator.equal (it v : VertexIterator) : Bool :=
  if it.graph_ ≠ v.graph_ then false
  else if it.road_it_ ≠ it.road_it_end_ then it.road_it_ == v.road_it_
  else if it.pt_graph_it_ ≠ v.pt_graph_it_ then false
  else if it.pt_graph_it_ ≠ it.pt_graph_it_end_ then it.pt_it_ == v.pt_it_
  else it.poi_it_ == v.poi_it_

/-- `vertices( graph )`: the begin iterator and a second iterator moved to the end. -/
def vertices (graph : Graph) : Option (VertexIterator × VertexIterator) :=
  match VertexIterator.construct graph with
  | some v => some (v, v.to_end)
  | none => none

/-- The number of steps of `for ( tie(vi, vi_end) = vertices( graph ); vi != vi_end; vi++ )`. -/
def count_vertices (graph : Graph) (fuel : Nat) : Option Nat :=
  match vertices graph with
  | some (vi, vi_end) =>
    count_steps VertexIterator.equal (fun it => some (it.increment graph)) fuel vi vi_end
  | none => none

/-- The vertices met by `for ( tie(vi, vi_end) = vertices( graph ); vi != vi_end; vi++ )`. -/
def vertex_list (graph : Graph) (fuel : Nat) : Option (List Vertex) :=
  match vertices graph with
  | some (vi, vi_end) =>
    collect VertexIterator.equal (fun it => some (it.increment graph))
      (VertexIterator.dereference graph) fuel vi vi_end
  | none => none

/-- The loop `for ( ; vi != vi_end; vi++ ) use( *vi )` followed on the member `vertex_` of
    `vi`, which every `*vi` rewrites and which `vi++` leaves alone: the successive contents of
    `vertex_`, one per turn.  `none` when the fuel runs out or a dereference fails. -/
def vertex_object_loop (graph : Graph) :
    Nat → VertexIterator → VertexIterator → VertexObject → Option (List VertexObject)
  | 0, _, _, _ => none
  | fuel + 1, vi, vi_end, vertex_ =>
    if vi.equal vi_end then some []
    else
      match vi.dereference_into graph vertex_ with
      | some v =>
        (vertex_object_loop graph fuel (vi.increment graph) vi_end v).map (fun vs => v :: vs)
      | none => none

/-- The objects `*vi` met by
    `for ( tie(vi, vi_end) = vertices( graph ); vi != vi_end; vi++ )`, each as `vertex_` stands
    when it is taken. -/
def vertex_object_list (graph : Graph) (fuel : Nat) : Option (List VertexObject) :=
  match vertices graph with
  | some (vi, vi_end) => vertex_object_loop graph fuel vi vi_end VertexObject.unassigned
  | none => none

/-! ## OutEdgeIterator -/

/-- The state of a `Multimodal::OutEdgeIterator`.  `road_it_` is a position in the out-edge
    list of the source road vertex, `pt_it_` a position in the out-edge list of the source PT
    stop; the four connection counters are `int`s. -/
structure OutEdgeIterator where
  graph_ : Nat
  source_ : Vertex
  road_it_ : Nat
  road_it_end_ : Nat
  pt_it_ : Nat
  pt_it_end_ : Nat
  stop2road_connection_ : Int
  road2stop_connection_ : Int
  road2poi_connection_ : Int
  poi2road_connection_ : Int
deriving DecidableEq, Repr

/-- `OutEdgeIterator::OutEdgeIterator( graph, source )`.  The pair of cursors that the variant
    of the source does not use is left as it is default-constructed (here 0, 0). -/
def OutEdgeIterator.construct (graph : Graph) (source : Vertex) : OutEdgeIterator :=
  match source with
  | .Road _ road_vertex =>
    OutEdgeIterator.mk graph.addr source
      0 (Road.out_edges road_vertex graph.road).length 0 0 0 0 0 0
  | .PublicTransport pt_graph pt_vertex =>
    OutEdgeIterator.mk graph.addr source 0 0
      0 (PublicTransport.out_edges pt_vertex (graph.public_transports.deref pt_graph)).length
      0 0 0 0
  | .Poi _ => OutEdgeIterator.mk graph.addr source 0 0 0 0 0 0 0 0

/-- `OutEdgeIterator::to_end`. -/
def OutEdgeIterator.to_end (it : OutEdgeIterator) : OutEdgeIterator :=
  { it with
    pt_it_ := it.pt_it_end_
    road_it_ := it.road_it_end_
    stop2road_connection_ := 2
    road2stop_connection_ := -1
    road2poi_connection_ := -1
    poi2road_connection_ := 2 }

/-- `OutEdgeIterator::dereference`.  `none` where the C++ code fails an assertion, reads
    through an end cursor or returns the default-constructed target. -/
def OutEdgeIterator.dereference (graph : Graph) (it : OutEdgeIterator) : Option Edge :=
  match it.source_ with
  | .Road _ road_vertex =>
    match (Road.out_edges road_vertex graph.road)[it.road_it_]? with
    | none => none
    | some e =>
      let stops := (graph.road.bundle e).stops
      let pois := (graph.road.bundle e).pois
      if 0 ≤ it.road2stop_connection_ ∧ it.road2stop_connection_ < (stops.length : Int) then
        match stops[it.road2stop_connection_.toNat]? with
        | some stop => some (Edge.mk it.source_ (Vertex.PublicTransport stop.graph stop.vertex))
        | none => none
      else if 0 ≤ it.road2poi_connection_ ∧ it.road2poi_connection_ < (pois.length : Int) then
        match pois[it.road2poi_connection_.toNat]? with
        | some poi => some (Edge.mk it.source_ (Vertex.Poi poi))
        | none => none
      else some (Edge.mk it.source_ (Vertex.Road graph.road.addr e.m_target))
  | .PublicTransport pt_graph r_source =>
    let g := graph.public_transports.deref pt_graph
    if it.stop2road_connection_ = 0 then
      some (Edge.mk it.source_ (Vertex.Road graph.road.addr (g.road_section r_source).m_source))
    else if it.stop2road_connection_ = 1 then
      some (Edge.mk it.source_ (Vertex.Road graph.road.addr (g.road_section r_source).m_target))
    else
      match (PublicTransport.out_edges r_source g)[it.pt_it_]? with
      | some r_target => some (Edge.mk it.source_ (Vertex.PublicTransport pt_graph r_target))
      | none => none
  | .Poi poi =>
    if it.poi2road_connection_ = 0 then
      some (Edge.mk it.source_
        (Vertex.Road graph.road.addr (graph.poi_deref poi).road_section.m_source))
    else if it.poi2road_connection_ = 1 then
      some (Edge.mk it.source_
        (Vertex.Road graph.road.addr (graph.poi_deref poi).road_section.m_target))
    else none

/-- `OutEdgeIterator::increment`.  For a road source the code reads `*road_it_`: `none` when
    the cursor is at its end. -/
def OutEdgeIterator.increment (graph : Graph) (it : OutEdgeIterator) : Option OutEdgeIterator :=
  match it.source_ with
  | .Road _ road_vertex =>
    match (Road.out_edges road_vertex graph.road)[it.road_it_]? with
    | none => none
    | some e =>
      let stops := (graph.road.bundle e).stops
      let pois := (graph.road.bundle e).pois
      if 0 ≤ it.road2stop_connection_ ∧ it.road2stop_connection_ < (stops.length : Int) then
        some { it with road2stop_connection_ := it.road2stop_connection_ + 1 }
      else if 0 ≤ it.road2poi_connection_ ∧ it.road2poi_connection_ < (pois.length : Int) then
        some { it with road2poi_connection_ := it.road2poi_connection_ + 1 }
      else
        some { it with
          road2stop_connection_ := 0
          road2poi_connection_ := 0
          road_it_ := it.road_it_ + 1 }
  | .PublicTransport _ _ =>
    if it.stop2road_connection_ < 2 then
      some { it with stop2road_connection_ := it.stop2road_connection_ + 1 }
    else if it.pt_it_ ≠ it.pt_it_end_ then some { it with pt_it_ := it.pt_it_ + 1 }
    else some it
  | .Poi _ =>
    if it.poi2road_connection_ < 2 then
      some { it with poi2road_connection_ := it.poi2road_connection_ + 1 }
    else some it

/-- `OutEdgeIterator::equal`. -/
def OutEdgeIterator.equal (it v : OutEdgeIterator) : Bool :=
  if it.graph_ ≠ v.graph_ then false
  else if it.source_.operator_ne v.source_ then false
  else if it.source_.type = VertexType.Road then
    if it.road_it_ = it.road_it_end_ then v.road_it_ == v.road_it_end_
    else
      it.road_it_ == v.road_it_ && it.road2stop_connection_ == v.road2stop_connection_ &&
        it.road2poi_connection_ == v.road2poi_connection_
  else if it.source_.type = VertexType.PublicTransport then
    if it.stop2road_connection_ ≠ v.stop2road_connection_ then false
    else it.pt_it_ == v.pt_it_
  else it.poi2road_connection_ == v.poi2road_connection_

/-- `out_edges( v, graph )`. -/
def out_edges (v : Vertex) (graph : Graph) : OutEdgeIterator × OutEdgeIterator :=
  (OutEdgeIterator.construct graph v, (OutEdgeIterator.construct graph v).to_end)

/-- The number of steps of
    `for ( tie(oei, oei_end) = out_edges( v, graph ); oei != oei_end; oei++ )`. -/
def count_out_edges (v : Vertex) (graph : Graph) (fuel : Nat) : Option Nat :=
  count_steps OutEdgeIterator.equal (OutEdgeIterator.increment graph) fuel
    (out_edges v graph).1 (out_edges v graph).2

/-- The edges met by
    `for ( tie(oei, oei_end) = out_edges( v, graph ); oei != oei_end; oei++ )`. -/
def out_edge_list (v : Vertex) (graph : Graph) (fuel : Nat) : Option (List Edge) :=
  collect OutEdgeIterator.equal (OutEdgeIterator.increment graph)
    (OutEdgeIterator.dereference graph) fuel (out_edges v graph).1 (out_edges v graph).2

/-! ## Index map and counts -/

/-- The loop over the PT collection in `VertexIndexProperty::get_index`: a sub-graph that is
    not `v.pt_graph` adds its number of vertices, the one that is adds `v.pt_vertex` and breaks
    the loop. -/
def get_index_pt_loop (pt_graph : Option Nat) (pt_vertex : Nat) :
    Nat → List (Nat × PublicTransport.Graph) → Nat
  | n, [] => n
  | n, it :: rest =>
    if some it.1 ≠ pt_graph then
      get_index_pt_loop pt_graph pt_vertex (n + PublicTransport.num_vertices it.2) rest
    else n + pt_vertex

/-- The loop over the POI map in `VertexIndexProperty::get_index`: `n++`, then the test that
    breaks the loop. -/
def get_index_poi_loop (poi : Option Nat) : Nat → List (Nat × POI) → Nat
  | n, [] => n
  | n, it :: rest => if some it.1 = poi then n + 1 else get_index_poi_loop poi (n + 1) rest

/-- `VertexIndexProperty::get_index`.  The loop over the PT collection comes before the test
    of the tag: it reads `v.pt_graph` and `v.pt_vertex` of a POI as well. -/
def get_index (graph_ : Graph) (v : VertexObject) : Nat :=
  if v.type = VertexType.Road then v.road_vertex
  else
    let n := get_index_pt_loop v.pt_graph v.pt_vertex (Road.num_vertices graph_.road)
      graph_.public_transports.iter
    if v.type = VertexType.Poi then get_index_poi_loop v.poi n graph_.pois
    else n

/-- The values `idx = get( index, *vi )` of the loop
    `for ( tie(vi, vi_end) = vertices( graph ); vi != vi_end; vi++ )` of tests.cc, in the order
    of the loop. -/
def index_list (graph : Graph) (fuel : Nat) : Option (List Nat) :=
  (vertex_object_list graph fuel).map (fun vs => vs.map (fun v => get_index graph v))

/-- `num_vertices( graph )`. -/
def num_vertices (graph : Graph) : Nat :=
  (graph.public_transports.iter.map (fun it => PublicTransport.num_vertices it.2)).sum +
    Road.num_vertices graph.road + graph.pois.length

/-- `num_edges( graph )`. -/
def num_edges (graph : Graph) : Nat :=
  (graph.public_transports.iter.map
    (fun it => PublicTransport.num_edges it.2 + PublicTransport.num_vertices it.2 * 4)).sum +
    Road.num_edges graph.road * 2 + graph.pois.length * 4

/-- `out_degree( v, graph )`. -/
def out_degree (v : Vertex) (graph : Graph) : Nat :=
  match v with
  | .Road _ road_vertex =>
    ((Road.out_edges road_vertex graph.road).map
      (fun ei => (graph.road.bundle ei).stops.length + (graph.road.bundle ei).pois.length + 1)).sum
  | .PublicTransport pt_graph pt_vertex =>
    PublicTransport.out_degree pt_vertex (graph.public_transports.deref pt_graph) + 2
  | .Poi _ => 2

/-! ## EdgeIterator -/

/-- The state of a `Multimodal::EdgeIterator`. -/
structure EdgeIterator where
  graph_ : Nat
  vi_ : VertexIterator
  vi_end_ : VertexIterator
  ei_ : OutEdgeIterator
  ei_end_ : OutEdgeIterator
deriving DecidableEq, Repr

/-- `EdgeIterator::EdgeIterator( graph )`: `*vi_` is read without a test. -/
def EdgeIterator.construct (graph : Graph) : Option EdgeIterator :=
  match vertices graph with
  | none => none
  | some (vi, vi_end) =>
    match vi.dereference graph with
    | none => none
    | some v =>
      some (EdgeIterator.mk graph.addr vi vi_end (out_edges v graph).1 (out_edges v graph).2)

/-- `EdgeIterator::to_end`. -/
def EdgeIterator.to_end (it : EdgeIterator) : EdgeIterator :=
  { it with vi_ := it.vi_end_, ei_ := it.ei_end_ }

/-- `EdgeIterator::dereference`. -/
def EdgeIterator.dereference (graph : Graph) (it : EdgeIterator) : Option Edge :=
  if it.ei_.equal it.ei_end_ then none else it.ei_.dereference graph

/-- The `while` loop of `EdgeIterator::increment`: as long as the out-edge cursor is at its
    end and the vertex cursor is not, move to the next vertex and take its out-edges.
    `none` when the fuel runs out or `*vi_` fails. -/
def EdgeIterator.next_vertex (graph : Graph) : Nat → EdgeIterator → Option EdgeIterator
  | 0, _ => none
  | fuel + 1, it =>
    if it.ei_.equal it.ei_end_ ∧ ¬ it.vi_.equal it.vi_end_ then
      let vi := it.vi_.increment graph
      if ¬ vi.equal it.vi_end_ then
        match vi.dereference graph with
        | none => none
        | some v =>
          EdgeIterator.next_vertex graph fuel
            { it with vi_ := vi, ei_ := (out_edges v graph).1, ei_end_ := (out_edges v graph).2 }
      else EdgeIterator.next_vertex graph fuel { it with vi_ := vi }
    else some it

/-- `EdgeIterator::increment`; `fuel` bounds the turns of its `while` loop. -/
def EdgeIterator.increment (graph : Graph) (fuel : Nat) (it : EdgeIterator) :
    Option EdgeIterator :=
  if ¬ it.ei_.equal it.ei_end_ then
    match it.ei_.increment graph with
    | none => none
    | some ei => EdgeIterator.next_vertex graph fuel { it with ei_ := ei }
  else EdgeIterator.next_vertex graph fuel it

/-- `EdgeIterator::equal`. -/
def EdgeIterator.equal (it v : EdgeIterator) : Bool :=
  if it.graph_ ≠ v.graph_ then false
  else if ¬ it.vi_.equal it.vi_end_ then it.vi_.equal v.vi_ && it.ei_.equal v.ei_
  else v.vi_.equal v.vi_end_

/-- `edges( graph )`. -/
def edges (graph : Graph) : Option (EdgeIterator × EdgeIterator) :=
  match EdgeIterator.construct graph with
  | some e => some (e, e.to_end)
  | none => none

/-- The number of steps of `for ( tie(ei, ei_end) = edges( graph ); ei != ei_end; ei++ )`. -/
def count_edges (graph : Graph) (fuel : Nat) : Option Nat :=
  match edges graph with
  | some (ei, ei_end) =>
    count_steps EdgeIterator.equal (EdgeIterator.increment graph fuel) fuel ei ei_end
  | none => none

/-! ## Statements of the data-model invariants and of the sums the properties speak of -/

/-- The PT stops of the sub-graphs `l`, as the pointers a road section may hold: one per
    sub-graph and vertex descriptor. -/
def pt_stop_ptrs (l : List (Nat × PublicTransport.Graph)) : List PublicTransport.StopPtr :=
  (l.map (fun p =>
    (List.range (PublicTransport.num_vertices p.2)).map
      (fun i => PublicTransport.StopPtr.mk p.1 i))).flatten

/-- The stops lists of all road sections put end to end. -/
def Graph.listed_stops (g : Graph) : List PublicTransport.StopPtr :=
  (g.road.m_edges.map (fun e => e.m_property.stops)).flatten

/-- The pois lists of all road sections put end to end. -/
def Graph.listed_pois (g : Graph) : List Nat :=
  (g.road.m_edges.map (fun e => e.m_property.pois)).flatten

/-- The invariant on PT stops, for the stops of the sub-graphs `l`: every stop is listed
    exactly once, on the stops list of the road section it references, and the stops lists
    hold nothing but these stops. -/
def Graph.stops_consistent (g : Graph) (l : List (Nat × PublicTransport.Graph)) : Prop :=
  (∀ p ∈ l, ∀ i, i < PublicTransport.num_vertices p.2 →
    g.listed_stops.count (PublicTransport.StopPtr.mk p.1 i) = 1 ∧
    PublicTransport.StopPtr.mk p.1 i ∈ (g.road.bundle (p.2.road_section i)).stops) ∧
  (∀ s ∈ g.listed_stops, s ∈ pt_stop_ptrs l)

/-- The invariant on POIs: every POI is listed exactly once, on the pois list of the road
    section it references, and the pois lists hold nothing but the POIs of the graph. -/
def Graph.pois_consistent (g : Graph) : Prop :=
  (∀ p ∈ g.pois, g.listed_pois.count p.1 = 1 ∧ p.1 ∈ (g.road.bundle p.2.road_section).pois) ∧
  (∀ x ∈ g.listed_pois, x ∈ g.pois.map Prod.fst)

/-- The containers are well formed: the end points of every road section are vertices of the
    road graph, and the two maps hold one element per key. -/
def Graph.well_formed (g : Graph) : Prop :=
  (∀ e ∈ g.road.m_edges, e.m_source < g.road.m_vertices ∧ e.m_target < g.road.m_vertices) ∧
  (g.public_transports.m_map.map Prod.fst).Nodup ∧
  (g.pois.map Prod.fst).Nodup

instance (g : Graph) (l : List (Nat × PublicTransport.Graph)) :
    Decidable (g.stops_consistent l) := by
  unfold Graph.stops_consistent; infer_instance

instance (g : Graph) : Decidable g.pois_consistent := by
  unfold Graph.pois_consistent; infer_instance

instance (g : Graph) : Decidable g.well_formed := by
  unfold Graph.well_formed; infer_instance

/-- The sum of `out_degree( v, graph )` over every road vertex, every PT stop of every
    selected PT sub-graph and every POI. -/
def sum_out_degree (graph : Graph) : Nat :=
  ((List.range (Road.num_vertices graph.road)).map
    (fun i => out_degree (Vertex.Road graph.road.addr i) graph)).sum +
  (graph.public_transports.iter.map (fun p =>
    ((List.range (PublicTransport.num_vertices p.2)).map
      (fun i => out_degree (Vertex.PublicTransport p.1 i) graph)).sum)).sum +
  (graph.pois.map (fun p => out_degree (Vertex.Poi p.1) graph)).sum

/-! ## Sample graphs -/

/-- Scenario S3 of the specification: road nodes A, B, C (0, 1, 2, with database ids 10, 11,
    12), road sections A-B and B-C, one PT network (key 1) with stop 0 (database id 100) on
    A-B, stop 1 on B-C and one PT section 0 → 1. -/
def graph_s3 : Graph :=
  Graph.mk 1
    (Road.Graph.mk 2 3 [10, 11, 12]
      [Road.StoredEdge.mk 0 1 (Road.Section.mk [PublicTransport.StopPtr.mk 1 0] []),
       Road.StoredEdge.mk 1 2 (Road.Section.mk [PublicTransport.StopPtr.mk 1 1] [])])
    (PublicTransportGraphList.mk
      [(1, PublicTransport.Graph.mk
        [PublicTransport.StoredVertex.mk [1] (PublicTransport.Stop.mk 100 (Road.Edge.mk 0 1 0)),
         PublicTransport.StoredVertex.mk [] (PublicTransport.Stop.mk 101 (Road.Edge.mk 1 2 1))])]
      [1])
    []

/-- Road nodes 0, 1, 2 with sections 0-1 and 1-2, one PT network (key 1) with a single stop
    on 0-1, and one POI (key 7) on 0-1. -/
def graph_poi : Graph :=
  Graph.mk 1
    (Road.Graph.mk 2 3 [10, 11, 12]
      [Road.StoredEdge.mk 0 1 (Road.Section.mk [PublicTransport.StopPtr.mk 1 0] [7]),
       Road.StoredEdge.mk 1 2 (Road.Section.mk [] [])])
    (PublicTransportGraphList.mk
      [(1, PublicTransport.Graph.mk
        [PublicTransport.StoredVertex.mk [] (PublicTransport.Stop.mk 100 (Road.Edge.mk 0 1 0))])]
      [1])
    [(7, POI.mk 70 (Road.Edge.mk 0 1 0))]

/-- One road node, no road section, one PT network (key 1) without any stop, no POI. -/
def graph_empty_network : Graph :=
  Graph.mk 1 (Road.Graph.mk 2 1 [10] [])
    (PublicTransportGraphList.mk [(1, PublicTransport.Graph.mk [])] [1])
    []

/-- Road nodes 0, 1, 2 with the single section 1-2 (node 0 has no section), one PT network
    (key 1) with a single stop on 1-2, no POI. -/
def graph_isolated_node : Graph :=
  Graph.mk 1
    (Road.Graph.mk 2 3 [10, 11, 12]
      [Road.StoredEdge.mk 1 2 (Road.Section.mk [PublicTransport.StopPtr.mk 1 0] [])])
    (PublicTransportGraphList.mk
      [(1, PublicTransport.Graph.mk
        [PublicTransport.StoredVertex.mk [] (PublicTransport.Stop.mk 100 (Road.Edge.mk 1 2 0))])]
      [1])
    []

/-- Road nodes 0, 1 with the section 0-1 and two PT networks: key 1 with two stops, key 2 with
    one stop, all on 0-1; `selection` is the selection of the PT collection. -/
def graph_two_networks (selection : List Nat) : Graph :=
  Graph.mk 1
    (Road.Graph.mk 2 2 [10, 11]
      [Road.StoredEdge.mk 0 1
        (Road.Section.mk
          [PublicTransport.StopPtr.mk 1 0, PublicTransport.StopPtr.mk 1 1,
           PublicTransport.StopPtr.mk 2 0] [])])
    (PublicTransportGraphList.mk
      [(1, PublicTransport.Graph.mk
        [PublicTransport.StoredVertex.mk [] (PublicTransport.Stop.mk 100 (Road.Edge.mk 0 1 0)),
         PublicTransport.StoredVertex.mk [] (PublicTransport.Stop.mk 101 (Road.Edge.mk 0 1 0))]),
       (2, PublicTransport.Graph.mk
        [PublicTransport.StoredVertex.mk [] (PublicTransport.Stop.mk 200 (Road.Edge.mk 0 1 0))])]
      selection)
    []

/-! ## Measures and invariants used in the proofs -/

/-- The number of multimodal edges one road out-edge gives rise to: one per stop, one per POI
    and the road edge itself. -/
def Graph.section_weight (graph : Graph) (ei : Road.Edge) : Nat :=
  (graph.road.bundle ei).stops.length + (graph.road.bundle ei).pois.length + 1

/-- The number of increments that separate a state of an `OutEdgeIterator` from its end (a
    measure used in the proofs). -/
def OutEdgeIterator.remaining (graph : Graph) (it : OutEdgeIterator) : Nat :=
  match it.source_ with
  | .Road _ road_vertex =>
    match (Road.out_edges road_vertex graph.road)[it.road_it_]? with
    | none => 0
    | some e =>
      ((graph.road.bundle e).stops.length - it.road2stop_connection_.toNat) +
      ((graph.road.bundle e).pois.length - it.road2poi_connection_.toNat) + 1 +
      (((Road.out_edges road_vertex graph.road).drop (it.road_it_ + 1)).map
        graph.section_weight).sum
  | .PublicTransport _ _ => (2 - it.stop2road_connection_).toNat + (it.pt_it_end_ - it.pt_it_)
  | .Poi _ => (2 - it.poi2road_connection_).toNat

/-- The states an `OutEdgeIterator` of source `v` goes through (an invariant used in the
    proofs). -/
def OutEdgeIterator.valid (graph : Graph) (v : Vertex) (it : OutEdgeIterator) : Prop :=
  it.source_ = v ∧ it.graph_ = graph.addr ∧
  match v with
  | .Road _ road_vertex =>
    it.road_it_end_ = (Road.out_edges road_vertex graph.road).length ∧
    it.road_it_ ≤ it.road_it_end_ ∧
    0 ≤ it.road2stop_connection_ ∧ 0 ≤ it.road2poi_connection_ ∧
    ∀ e, (Road.out_edges road_vertex graph.road)[it.road_it_]? = some e →
      it.road2stop_connection_ ≤ ((graph.road.bundle e).stops.length : Int) ∧
      it.road2poi_connection_ ≤ ((graph.road.bundle e).pois.length : Int) ∧
      (it.road2stop_connection_ < ((graph.road.bundle e).stops.length : Int) →
        it.road2poi_connection_ = 0)
  | .PublicTransport pt_graph pt_vertex =>
    it.pt_it_end_ =
      (PublicTransport.out_edges pt_vertex (graph.public_transports.deref pt_graph)).length ∧
    it.pt_it_ ≤ it.pt_it_end_ ∧
    0 ≤ it.stop2road_connection_ ∧ it.stop2road_connection_ ≤ 2 ∧
    (it.stop2road_connection_ < 2 → it.pt_it_ = 0)
  | .Poi _ => 0 ≤ it.poi2road_connection_ ∧ it.poi2road_connection_ ≤ 2

/-- The vertices `vertices( g )` can produce: a road vertex of the road graph of `g`, a PT
    stop of a sub-graph the PT collection iterates over, or a POI of `g`. -/
def Graph.iterated_vertex (g : Graph) (v : Vertex) : Prop :=
  match v with
  | .Road road_graph road_vertex => road_graph = g.road.addr ∧ road_vertex < g.road.m_vertices
  | .PublicTransport pt_graph pt_vertex =>
    ∃ (j : Nat) (G : PublicTransport.Graph), g.public_transports.iter[j]? = some (pt_graph, G) ∧
      pt_vertex < PublicTransport.num_vertices G
  | .Poi poi => ∃ (q : Nat) (x : POI), g.pois[q]? = some (poi, x)

/-- The states a `VertexIterator` over `g` goes through (an invariant used in the proofs):
    the road cursor and the PT vertex cursor are not past their ends, and a PT vertex cursor
    that is not at its end runs over the sub-graph the PT graph cursor stands at. -/
def VertexIterator.valid (g : Graph) (it : VertexIterator) : Prop :=
  it.road_it_ ≤ it.road_it_end_ ∧ it.road_it_end_ = g.road.m_vertices ∧
  it.pt_it_ ≤ it.pt_it_end_ ∧
  (it.pt_it_ ≠ it.pt_it_end_ →
    ∃ p, g.public_transports.iter[it.pt_graph_it_]? = some p ∧
      it.pt_it_end_ = PublicTransport.num_vertices p.2)

/-- The number of increments that separate a state of a `VertexIterator` from the end (a
    measure used in the proofs): the road vertices, the vertices of the current PT sub-graph,
    the vertices of the PT sub-graphs after it and the POIs still to come. -/
def VertexIterator.remaining (g : Graph) (it : VertexIterator) : Nat :=
  (g.road.m_vertices - it.road_it_) + (it.pt_it_end_ - it.pt_it_) +
    ((g.public_transports.iter.drop (it.pt_graph_it_ + 1)).map
      (fun p => PublicTransport.num_vertices p.2)).sum +
    (g.pois.length - it.poi_it_)

/-- The cursors of a `VertexIterator` over `g` are within their ranges and the PT vertex cursor
    runs over the sub-graph the PT graph cursor stands at (an invariant used in the proofs). -/
def VertexIterator.regular (g : Graph) (it : VertexIterator) : Prop :=
  it.graph_ = g.addr ∧ it.road_it_end_ = g.road.m_vertices ∧
  it.pt_graph_it_end_ = g.public_transports.iter.length ∧ it.poi_it_end_ = g.pois.length ∧
  it.road_it_ ≤ g.road.m_vertices ∧ it.pt_graph_it_ ≤ g.public_transports.iter.length ∧
  it.pt_it_ ≤ it.pt_it_end_ ∧ it.poi_it_ ≤ g.pois.length ∧
  (∀ p, g.public_transports.iter[it.pt_graph_it_]? = some p →
    it.pt_it_end_ = PublicTransport.num_vertices p.2) ∧
  (it.pt_graph_it_ = g.public_transports.iter.length → it.pt_it_ = it.pt_it_end_)

/-- A regular state on which the `while` loop of `VertexIterator::increment` has nothing to
    do: the PT vertex cursor is at its end only when the PT graph cursor is. -/
def VertexIterator.settled (g : Graph) (it : VertexIterator) : Prop :=
  it.regular g ∧ (it.pt_graph_it_ < g.public_transports.iter.length → it.pt_it_ < it.pt_it_end_)

/-! ## Sequences of edges -/

/-- The edges met by `for ( tie(ei, ei_end) = edges( graph ); ei != ei_end; ei++ )`. -/
def edge_list (graph : Graph) (fuel : Nat) : Option (List Edge) :=
  match edges graph with
  | some (ei, ei_end) =>
    collect EdgeIterator.equal (EdgeIterator.increment graph fuel)
      (EdgeIterator.dereference graph) fuel ei ei_end
  | none => none

/-- What the specification lets one road edge `e`, incident to the source, contribute to the
    out-edges of a road vertex: an edge to every PT stop of the stops list of `e`, in list
    order, then an edge to every POI of its pois list, in list order, then the road edge to
    the target of `e`. -/
def road_section_edges (graph : Graph) (source : Vertex) (e : Road.Edge) : List Edge :=
  (graph.road.bundle e).stops.map
      (fun s => Edge.mk source (Vertex.PublicTransport s.graph s.vertex)) ++
    ((graph.road.bundle e).pois.map (fun p => Edge.mk source (Vertex.Poi p)) ++
      [Edge.mk source (Vertex.Road graph.road.addr e.m_target)])

/-- What the specification says `out_edges( v, graph )` yields (section 4.1): for a road
    vertex the contributions of its incident road edges in out-edge order; for a PT stop the
    edges to the source and to the target of its road section, then an edge for every
    outgoing PT edge of its sub-graph; for a POI the edges to the source and to the target of
    its road section. -/
def expected_out_edges (v : Vertex) (graph : Graph) : List Edge :=
  match v with
  | .Road _ road_vertex =>
    (Road.out_edges road_vertex graph.road).flatMap (road_section_edges graph v)
  | .PublicTransport pt_graph pt_vertex =>
    [Edge.mk v (Vertex.Road graph.road.addr
        ((graph.public_transports.deref pt_graph).road_section pt_vertex).m_source),
     Edge.mk v (Vertex.Road graph.road.addr
        ((graph.public_transports.deref pt_graph).road_section pt_vertex).m_target)] ++
    (PublicTransport.out_edges pt_vertex (graph.public_transports.deref pt_graph)).map
      (fun t => Edge.mk v (Vertex.PublicTransport pt_graph t))
  | .Poi poi =>
    [Edge.mk v (Vertex.Road graph.road.addr (graph.poi_deref poi).road_section.m_source),
     Edge.mk v (Vertex.Road graph.road.addr (graph.poi_deref poi).road_section.m_target)]

/-- What the specification says `vertices( graph )` yields (section 4.1): every road vertex,
    then every PT vertex of every selected PT sub-graph in the order of the collection, then
    every POI in the order of the POI collection. -/
def expected_vertices (graph : Graph) : List Vertex :=
  (List.range (Road.num_vertices graph.road)).map (fun i => Vertex.Road graph.road.addr i) ++
  (graph.public_transports.iter.flatMap (fun p =>
    (List.range (PublicTransport.num_vertices p.2)).map
      (fun i => Vertex.PublicTransport p.1 i)) ++
   graph.pois.map (fun p => Vertex.Poi p.1))

/-- What the specification says `edges( graph )` yields: the out-edges of every vertex of
    `vertices( graph )`, in order, put end to end. -/
def expected_edges (graph : Graph) : List Edge :=
  (expected_vertices graph).flatMap (fun v => expected_out_edges v graph)

/-- Scenario S1 of the specification: road nodes A, B, C (0, 1, 2), road sections A-B and
    B-C, no PT network, no POI. -/
def graph_s1 : Graph :=
  Graph.mk 1
    (Road.Graph.mk 2 3 [10, 11, 12]
      [Road.StoredEdge.mk 0 1 (Road.Section.mk [] []),
       Road.StoredEdge.mk 1 2 (Road.Section.mk [] [])])
    (PublicTransportGraphList.mk [] [])
    []

/-- Road nodes 0, 1 with the section 0-1, two selected PT networks, key 1 without any stop
    and key 2 with one stop on 0-1, and one POI (key 7) on 0-1. -/
def graph_empty_first_network : Graph :=
  Graph.mk 1
    (Road.Graph.mk 2 2 [10, 11]
      [Road.StoredEdge.mk 0 1 (Road.Section.mk [PublicTransport.StopPtr.mk 2 0] [7])])
    (PublicTransportGraphList.mk
      [(1, PublicTransport.Graph.mk []),
       (2, PublicTransport.Graph.mk
        [PublicTransport.StoredVertex.mk [] (PublicTransport.Stop.mk 200 (Road.Edge.mk 0 1 0))])]
      [1, 2])
    [(7, POI.mk 70 (Road.Edge.mk 0 1 0))]

/-- The edges a state of an `OutEdgeIterator` is still to yield according to section 4.1 of
    the specification (used in the proofs): for a road source what is left of the current
    road edge, then the contributions of the road edges after it; for a PT stop what is left
    of the two edges to the road, then the PT edges from the cursor on; for a POI what is
    left of the two edges to the road. -/
def OutEdgeIterator.rest (graph : Graph) (it : OutEdgeIterator) : List Edge :=
  match it.source_ with
  | .Road _ road_vertex =>
    match (Road.out_edges road_vertex graph.road)[it.road_it_]? with
    | none => []
    | some e =>
      ((graph.road.bundle e).stops.drop it.road2stop_connection_.toNat).map
          (fun s => Edge.mk it.source_ (Vertex.PublicTransport s.graph s.vertex)) ++
        (((graph.road.bundle e).pois.drop it.road2poi_connection_.toNat).map
            (fun p => Edge.mk it.source_ (Vertex.Poi p)) ++
          [Edge.mk it.source_ (Vertex.Road graph.road.addr e.m_target)]) ++
        ((Road.out_edges road_vertex graph.road).drop (it.road_it_ + 1)).flatMap
          (road_section_edges graph it.source_)
  | .PublicTransport pt_graph pt_vertex =>
    [Edge.mk it.source_ (Vertex.Road graph.road.addr
        ((graph.public_transports.deref pt_graph).road_section pt_vertex).m_source),
     Edge.mk it.source_ (Vertex.Road graph.road.addr
        ((graph.public_transports.deref pt_graph).road_section pt_vertex).m_target)].drop
      it.stop2road_connection_.toNat ++
    ((PublicTransport.out_edges pt_vertex (graph.public_transports.deref pt_graph)).drop
      it.pt_it_).map (fun t => Edge.mk it.source_ (Vertex.PublicTransport pt_graph t))
  | .Poi poi =>
    [Edge.mk it.source_
        (Vertex.Road graph.road.addr (graph.poi_deref poi).road_section.m_source),
     Edge.mk it.source_
        (Vertex.Road graph.road.addr (graph.poi_deref poi).road_section.m_target)].drop
      it.poi2road_connection_.toNat

/-- The vertices a state of a `VertexIterator` is still to yield according to section 4.1 of
    the specification (used in the proofs): the road vertices from the road cursor on, the
    stops of the current PT sub-graph from the PT vertex cursor on, the stops of the PT
    sub-graphs after it, and the POIs from the POI cursor on. -/
def VertexIterator.rest (g : Graph) (it : VertexIterator) : List Vertex :=
  (List.range' it.road_it_ (g.road.m_vertices - it.road_it_)).map
      (fun i => Vertex.Road g.road.addr i) ++
    ((match g.public_transports.iter[it.pt_graph_it_]? with
      | some p =>
        (List.range' it.pt_it_ (it.pt_it_end_ - it.pt_it_)).map
          (fun i => Vertex.PublicTransport p.1 i)
      | none => []) ++
     ((g.public_transports.iter.drop (it.pt_graph_it_ + 1)).flatMap (fun p =>
        (List.range (PublicTransport.num_vertices p.2)).map
          (fun i => Vertex.PublicTransport p.1 i)) ++
      (g.pois.drop it.poi_it_).map (fun p => Vertex.Poi p.1)))

/-- The states the `while` loop of `EdgeIterator::increment` starts from (an invariant used
    in the proofs): the vertex cursor is settled and, unless it is at its end, the out-edge
    cursors run over the out-edges of the vertex it stands on. -/
def EdgeIterator.positioned (g : Graph) (vend : VertexIterator) (it : EdgeIterator) : Prop :=
  it.graph_ = g.addr ∧ it.vi_end_ = vend ∧ it.vi_.settled g ∧
  (it.vi_.remaining g ≠ 0 →
    ∃ v, it.vi_.dereference g = some v ∧ it.ei_.valid g v ∧ it.ei_end_ = (out_edges v g).2)

/-- The edges a state of an `EdgeIterator` is still to yield according to the specification
    (used in the proofs): what is left of the out-edges of the current vertex, then the
    out-edges of the vertices after it. -/
def EdgeIterator.rest (g : Graph) (it : EdgeIterator) : List Edge :=
  if it.vi_.remaining g = 0 then []
  else it.ei_.rest g ++ ((it.vi_.rest g).tail).flatMap (fun v => expected_out_edges v g)

/-! ## Repeated increments -/

/-- The state of a `VertexIterator` after `n` increments (`it++` repeated `n` times). -/
def VertexIterator.advance (g : Graph) : Nat → VertexIterator → VertexIterator
  | 0, it => it
  | n + 1, it => VertexIterator.advance g n (it.increment g)

/-- The facts about a `VertexIterator` over `g` that every increment keeps (an invariant used
    in the proofs): the end cursors are those of `g`, the PT graph cursor is not past its end,
    and when it is at its end the PT vertex cursor is at its end too. -/
def VertexIterator.bounded (g : Graph) (it : VertexIterator) : Prop :=
  it.graph_ = g.addr ∧ it.road_it_end_ = g.road.m_vertices ∧
  it.pt_graph_it_end_ = g.public_transports.iter.length ∧ it.poi_it_end_ = g.pois.length ∧
  it.pt_graph_it_ ≤ g.public_transports.iter.length ∧
  (it.pt_graph_it_ = g.public_transports.iter.length → it.pt_it_ = it.pt_it_end_)

/-! ## Edge lookup -/

/-- The body of the loop of `edge( u, v, graph )` on the edge `x = *ei`: when
    `source( *ei ) == u && target( *ei ) == v`, `found = true` and `e = *ei`.  The pair is
    `(e, found)`; `e` is `none` as long as it is the default-constructed edge. -/
def edge_body (u v : Vertex) (r : Option Edge × Bool) (x : Edge) : Option Edge × Bool :=
  if x.source.operator_eq u && x.target.operator_eq v then (some x, true) else r

/-- The loop `for ( tie( ei, ei_end ) = edges( graph ); ei != ei_end; ei++ )` of
    `edge( u, v, graph )`.  `none` when the fuel runs out or a step fails. -/
def edge_loop (graph : Graph) (u v : Vertex) (inc_fuel : Nat) :
    Nat → EdgeIterator → EdgeIterator → Option Edge × Bool → Option (Option Edge × Bool)
  | 0, _, _, _ => none
  | fuel + 1, ei, ei_end, r =>
    if ei.equal ei_end then some r
    else
      match ei.dereference graph, ei.increment graph inc_fuel with
      | some x, some next => edge_loop graph u v inc_fuel fuel next ei_end (edge_body u v r x)
      | _, _ => none

/-- `edge( u, v, graph )`: the pair `(e, found)`. -/
def edge (u v : Vertex) (graph : Graph) (fuel : Nat) : Option (Option Edge × Bool) :=
  match edges graph with
  | some (ei, ei_end) => edge_loop graph u v fuel fuel ei ei_end (none, false)
  | none => none

/-! ## Road edge descriptors -/

/-- The descriptor `d` is a descriptor of an edge of the road graph: it designates a section
    of the edge list and its two end points are the end points of that section, in either
    order. -/
def Graph.is_road_edge (g : Graph) (d : Road.Edge) : Prop :=
  ∃ se, g.road.m_edges[d.m_eproperty]? = some se ∧
    ((se.m_source = d.m_source ∧ se.m_target = d.m_target) ∨
      (se.m_source = d.m_target ∧ se.m_target = d.m_source))

/-- The PT stop `pt_vertex` of the sub-graph `pt_graph` is on the stops list of a road
    section iff that section is the road section it references. -/
def Graph.stop_listed_on_its_section (g : Graph) (pt_graph pt_vertex : Nat) : Prop :=
  ∀ (i : Nat) (se : Road.StoredEdge), g.road.m_edges[i]? = some se →
    (PublicTransport.StopPtr.mk pt_graph pt_vertex ∈ se.m_property.stops ↔
      ((g.public_transports.deref pt_graph).road_section pt_vertex).m_eproperty = i)

/-- The POI `poi` is on the pois list of a road section iff that section is the road section
    it references. -/
def Graph.poi_listed_on_its_section (g : Graph) (poi : Nat) : Prop :=
  ∀ (i : Nat) (se : Road.StoredEdge), g.road.m_edges[i]? = some se →
    (poi ∈ se.m_property.pois ↔ (g.poi_deref poi).road_section.m_eproperty = i)

end Multimodal

/-! ## Exceptions -/

/-- The exceptions the modelled functions throw: `std::runtime_error` and
    `std::invalid_argument` with their message, `boost::bad_any_cast` and
    `boost::bad_lexical_cast`. -/
inductive Exception where
  | runtime_error (what : String)
  | invalid_argument (what : String)
  | bad_any_cast
  | bad_lexical_cast
deriving DecidableEq, Repr

/-! ## Plugin options (`plugin.hh`) -/

namespace Plugin

/-- `Plugin::OptionType`. -/
inductive OptionType where
  | BoolOption
  | IntOption
  | FloatOption
  | StringOption
deriving DecidableEq, Repr

/-- The object held by a non-empty `boost::any`, for the four C++ types `OptionTypeFrom` is
    specialised for: `bool`, `int`, `float` (kept as its bit pattern) and `std::string`. -/
inductive Held where
  | bool (value : Bool)
  | int (value : Int)
  | float (bits : Nat)
  | string (value : String)
deriving DecidableEq, Repr

/-- `OptionTypeFrom<T>::type` for the C++ type `T` of the held object. -/
def Held.type : Held → OptionType
  | .bool _ => OptionType.BoolOption
  | .int _ => OptionType.IntOption
  | .float _ => OptionType.FloatOption
  | .string _ => OptionType.StringOption

/-- `Plugin::OptionValue`, a `boost::any`: `none` is the empty `any`. -/
abbrev OptionValue := Option Held

/-- `boost::any_cast<T>( v )`, the C++ type `T` given by its option type: the held object
    when it is a `T`, `boost::bad_any_cast` otherwise. -/
def any_cast (T : OptionType) (v : OptionValue) : Except Exception Held :=
  match v with
  | some held => if held.type = T then Except.ok held else Except.error Exception.bad_any_cast
  | none => Except.error Exception.bad_any_cast

/-- `Plugin::OptionDescription`.  `type` is `none` as long as it is not assigned. -/
structure OptionDescription where
  type : Option OptionType
  description : String
  default_value : OptionValue
deriving DecidableEq, Repr

/-- `std::map<std::string, V>::find( name )`: the mapped value, `none` for `end()`. -/
def map_find {V : Type} : List (String × V) → String → Option V
  | [], _ => none
  | kv :: rest, name => if kv.1 = name then some kv.2 else map_find rest name

/-- `m[name] = f( m[name] )` on a `std::map<std::string, V>`: `operator[]` inserts a
    default-constructed value `dflt` when the key is missing.  The order of the elements is
    not read by the functions modelled here. -/
def map_update {V : Type} (dflt : V) (f : V → V) : List (String × V) → String → List (String × V)
  | [], name => [(name, f dflt)]
  | kv :: rest, name =>
    if kv.1 = name then (name, f kv.2) :: rest else kv :: map_update dflt f rest name

end Plugin

/-- The option members of a `Plugin`: `options_descriptions_` and `options_`. -/
structure Plugin where
  options_descriptions_ : List (String × Plugin.OptionDescription)
  options_ : List (String × Plugin.OptionValue)
deriving DecidableEq, Repr

namespace Plugin

/-- `Plugin::declare_option<T>( name, description, default_value )`. -/
def declare_option (p : Plugin) (name description : String) (default_value : Held) : Plugin :=
  Plugin.mk
    (map_update (OptionDescription.mk none "" none)
      (fun d => { d with type := some default_value.type, description := description })
      p.options_descriptions_ name)
    (map_update none (fun _ => some default_value) p.options_ name)

/-- `Plugin::set_option<T>( name, value )` (`set_option` itself is a keyword of Lean). -/
def set_option_value (p : Plugin) (name : String) (value : Held) : Plugin :=
  { p with options_ := map_update none (fun _ => some value) p.options_ name }

/-- `Plugin::get_option<T>( name, value )`: the new content of `value`, which is left as it
    is when the stored `any` is empty. -/
def get_option_ref (p : Plugin) (T : OptionType) (name : String) (value : Option Held) :
    Except Exception (Option Held) :=
  match map_find p.options_ name with
  | none => Except.error (Exception.runtime_error ("get_option(): cannot find option " ++ name))
  | some v =>
    match v with
    | some _ =>
      match any_cast T v with
      | Except.ok held => Except.ok (some held)
      | Except.error e => Except.error e
    | none => Except.ok value

/-- `Plugin::get_option<T>( name )`: `T v; get_option( name, v ); return v;`.  `none` is the
    `v` that was never assigned. -/
def get_option (p : Plugin) (T : OptionType) (name : String) : Except Exception (Option Held) :=
  get_option_ref p T name none

/-- One call that stores an option value: `declare_option` or `set_option`. -/
inductive OptionCall where
  | declare (name description : String) (default_value : Held)
  | set (name : String) (value : Held)
deriving DecidableEq, Repr

/-- The option name of a call. -/
def OptionCall.name : OptionCall → String
  | .declare name _ _ => name
  | .set name _ => name

/-- The value a call stores. -/
def OptionCall.value : OptionCall → Held
  | .declare _ _ default_value => default_value
  | .set _ value => value

/-- The plugin after one call. -/
def OptionCall.apply (p : Plugin) : OptionCall → Plugin
  | .declare name description default_value => p.declare_option name description default_value
  | .set name value => p.set_option_value name value

/-- The plugin after a sequence of calls, first call first. -/
def run (p : Plugin) (calls : List OptionCall) : Plugin :=
  calls.foldl OptionCall.apply p

end Plugin

namespace Multimodal

end Multimodal

/-! ## Request parsing (`wps/tempus_services.cc`) -/

namespace WPS

/-- What the modelled functions read of an `xmlNode` through the helpers of the `XML`
    namespace (whose code is not among the sources): its attributes, for `XML::has_prop` and
    `XML::get_prop`, and its text, for `XML::to_string`. -/
structure XmlNode where
  props : List (String × String)
  text : String
deriving DecidableEq, Repr

/-- `XML::has_prop( node, key )`. -/
def XmlNode.has_prop (node : XmlNode) (key : String) : Bool :=
  node.props.any (fun kv => kv.1 == key)

/-- `XML::get_prop( node, key )`: the value of the attribute, the empty string when the node
    has no such attribute. -/
def XmlNode.get_prop (node : XmlNode) (key : String) : String :=
  match node.props.find? (fun kv => kv.1 == key) with
  | some kv => kv.2
  | none => ""

/-- The functions of boost and the queries to the database that the modelled functions call:
    the two `lexical_cast`s (`none` for `boost::bad_lexical_cast`; a `double` is kept as an
    integer number of thousandths), the `%.3f, %.3f` formatting of a pair of `double`s, and
    `road_vertex_id_from_coordinates( db, x, y )` and
    `road_vertex_id_from_coordinates_and_modes( db, x, y, modes )` on the connection `db`. -/
structure Externals where
  lexical_cast_db_id : String → Option Nat
  lexical_cast_double : String → Option Int
  format_coordinates : Int → Int → String
  road_vertex_id_from_coordinates : Int → Int → Nat
  road_vertex_id_from_coordinates_and_modes : Int → Int → List Nat → Nat

/-- The message of the exception thrown on a node without the expected attributes. -/
def must_have_message (node : XmlNode) : String :=
  "Node " ++ node.text ++ " must have either x and y or vertex"

/-- `get_vertex_id_from_point( node, db )`.  The test is
    `! ( ( has_x & has_y ) ^ has_vertex )` on the integer values of the three `bool`s. -/
def get_vertex_id_from_point (ext : Externals) (node : XmlNode) : Except Exception Nat :=
  let has_vertex := node.has_prop "vertex"
  let has_x := node.has_prop "x"
  let has_y := node.has_prop "y"
  if (has_x.toNat &&& has_y.toNat) ^^^ has_vertex.toNat = 0 then
    Except.error (Exception.invalid_argument (must_have_message node))
  else if has_vertex then
    match ext.lexical_cast_db_id (node.get_prop "vertex") with
    | some id => Except.ok id
    | none => Except.error Exception.bad_lexical_cast
  else
    match ext.lexical_cast_double (node.get_prop "x"),
        ext.lexical_cast_double (node.get_prop "y") with
    | some x, some y =>
      if ext.road_vertex_id_from_coordinates x y = 0 then
        Except.error (Exception.invalid_argument
          ("Cannot find vertex id for " ++ ext.format_coordinates x y))
      else Except.ok (ext.road_vertex_id_from_coordinates x y)
    | _, _ => Except.error Exception.bad_lexical_cast

/-- `get_vertex_id_from_point_and_modes( node, db, modes )`.  The test is
    `( has_x && has_y ) == has_vertex`. -/
def get_vertex_id_from_point_and_modes (ext : Externals) (node : XmlNode) (modes : List Nat) :
    Except Exception Nat :=
  let has_vertex := node.has_prop "vertex"
  let has_x := node.has_prop "x"
  let has_y := node.has_prop "y"
  if ((has_x && has_y) == has_vertex) = true then
    Except.error (Exception.invalid_argument (must_have_message node))
  else if has_vertex then
    match ext.lexical_cast_db_id (node.get_prop "vertex") with
    | some id => Except.ok id
    | none => Except.error Exception.bad_lexical_cast
  else
    match ext.lexical_cast_double (node.get_prop "x"),
        ext.lexical_cast_double (node.get_prop "y") with
    | some x, some y =>
      if ext.road_vertex_id_from_coordinates_and_modes x y modes = 0 then
        Except.error (Exception.invalid_argument
          ("Cannot find vertex id for " ++ ext.format_coordinates x y))
      else Except.ok (ext.road_vertex_id_from_coordinates_and_modes x y modes)
    | _, _ => Except.error Exception.bad_lexical_cast

/-- `get_vertex_id_from_point_and_mode( node, db, mode )`. -/
def get_vertex_id_from_point_and_mode (ext : Externals) (node : XmlNode) (mode : Nat) :
    Except Exception Nat :=
  get_vertex_id_from_point_and_modes ext node [mode]

/-- The lines of `SelectService::execute` that complete the allowed modes of the request
    once they are parsed: `allowed_modes` is `request.allowed_modes()`,
    `request.add_allowed_mode` appends to it; the three constants `TransportModeWalking`,
    `TransportModePrivateBicycle` and `TransportModePrivateCar` (declared outside the
    sources) are arguments. -/
def SelectService.execute_allowed_modes (TransportModeWalking TransportModePrivateBicycle
    TransportModePrivateCar : Nat) (allowed_modes : List Nat) : List Nat :=
  let has_walking := allowed_modes.contains TransportModeWalking
  let has_private_bike := allowed_modes.contains TransportModePrivateBicycle
  let has_private_car := allowed_modes.contains TransportModePrivateCar
  let modes1 :=
    if !has_walking && has_private_car && has_private_bike then
      allowed_modes ++ [TransportModeWalking]
    else allowed_modes
  if !has_walking && !has_private_car && !has_private_bike then
    modes1 ++ [TransportModeWalking]
  else modes1

end WPS

namespace Multimodal

end Multimodal

namespace WPS

/-- A decimal parser for the examples: the number a non-empty string of digits denotes. -/
def parse_decimal (s : String) : Option Nat :=
  if s.data ≠ [] ∧ s.data.all Char.isDigit then
    some (s.data.foldl (fun n c => 10 * n + (c.toNat - 48)) 0)
  else none

/-- The functions of boost and the database used in the examples: decimal parsing, no
    formatting, and a database that knows no vertex. -/
def sample_externals : Externals :=
  Externals.mk parse_decimal (fun s => (parse_decimal s).map Int.ofNat) (fun _ _ => "")
    (fun _ _ => 0) (fun _ _ _ => 0)

end WPS

namespace Multimodal

/-! ## String rendering -/

/-- `operator<<( ostream&, const Multimodal::Vertex& )`: the content of the stream after the
    vertex is written to a stream that holds `out`.  `none` when a pointer of the vertex does
    not lead to a road node, PT stop or POI of the graph. -/
def Vertex.operator_shl (graph : Graph) (out : String) (v : Vertex) : Option String :=
  match v with
  | .Road road_graph road_vertex =>
    if road_graph = graph.road.addr then
      match graph.road.m_vertex_db_id[road_vertex]? with
      | some db_id => some (out ++ "R" ++ toString db_id)
      | none => none
    else none
  | .PublicTransport pt_graph pt_vertex =>
    match (graph.public_transports.deref pt_graph).m_vertices[pt_vertex]? with
    | some sv => some (out ++ "PT" ++ toString sv.m_property.db_id)
    | none => none
  | .Poi poi =>
    match graph.pois.find? (fun p => p.1 == poi) with
    | some p => some (out ++ "POI" ++ toString p.2.db_id)
    | none => none

/-- `operator<<( ostream&, const Multimodal::Edge& )`: the `switch` on the connection type
    has no case for `UnknownConnection`. -/
def Edge.operator_shl (graph : Graph) (out : String) (e : Edge) : Option String :=
  let out1 :=
    match e.connection_type with
    | .Road2Road => out ++ "Road2Road "
    | .Road2Transport => out ++ "Road2Transport "
    | .Transport2Road => out ++ "Transport2Road "
    | .Transport2Transport => out ++ "Transport2Transport "
    | .Road2Poi => out ++ "Road2Poi "
    | .Poi2Road => out ++ "Poi2Road "
    | .UnknownConnection => out
  match e.source.operator_shl graph (out1 ++ "(") with
  | none => none
  | some out2 =>
    match e.target.operator_shl graph (out2 ++ ",") with
    | none => none
    | some out3 => some (out3 ++ ")")

/-! ## Sets of edges -/

/-- Modelled from the spec: `operator<` on `Multimodal::Edge`, whose declaration
    (multimodal_graph.hh) is missing: "the lexicographic order of its endpoints". -/
def Edge.operator_lt (e f : Edge) : Bool :=
  e.source.operator_lt f.source ||
    (e.source.operator_eq f.source && e.target.operator_lt f.target)

/-- `std::set< Multimodal::Edge >::insert( x )`, the set kept as the sorted list of its
    elements: nothing is inserted when the set holds an element equivalent to `x` (neither
    is less than the other). -/
def set_insert : List Edge → Edge → List Edge
  | [], x => [x]
  | y :: rest, x =>
    if x.operator_lt y then x :: y :: rest
    else if y.operator_lt x then y :: set_insert rest x
    else y :: rest

/-- The test of tests.cc on edges as keys: every edge met by the loop over `edges( graph )`
    is inserted into a `std::set< Multimodal::Edge >`; the result is `edge_set.size()`. -/
def edge_set_size (graph : Graph) (fuel : Nat) : Option Nat :=
  (edge_list graph fuel).map (fun es => (es.foldl set_insert []).length)

/-- No two out-edges of a road vertex lead to the same road vertex (no loop and no two road
    sections between the same two nodes), no two out-edges of a stop of a selected PT
    sub-graph lead to the same stop, and the road section of every such stop and of every POI
    has two different end points. -/
def Graph.no_parallel_edges (g : Graph) : Prop :=
  (∀ r, r < g.road.m_vertices →
    ((Road.out_edges r g.road).map (fun e => e.m_target)).Nodup) ∧
  (∀ p ∈ g.public_transports.iter, ∀ i, i < PublicTransport.num_vertices p.2 →
    (PublicTransport.out_edges i p.2).Nodup ∧
    (p.2.road_section i).m_source ≠ (p.2.road_section i).m_target) ∧
  (∀ p ∈ g.pois, p.2.road_section.m_source ≠ p.2.road_section.m_target)

instance (g : Graph) : Decidable g.no_parallel_edges := by
  unfold Graph.no_parallel_edges; infer_instance

/-- Road nodes 0, 1 with two road sections between them, one PT network (key 1) with one stop
    on the first section, no POI. -/
def graph_parallel_sections : Graph :=
  Graph.mk 1
    (Road.Graph.mk 2 2 [10, 11]
      [Road.StoredEdge.mk 0 1 (Road.Section.mk [PublicTransport.StopPtr.mk 1 0] []),
       Road.StoredEdge.mk 0 1 (Road.Section.mk [] [])])
    (PublicTransportGraphList.mk
      [(1, PublicTransport.Graph.mk
        [PublicTransport.StoredVertex.mk [] (PublicTransport.Stop.mk 100 (Road.Edge.mk 0 1 0))])]
      [1])
    []

/-! ## The member `vertex_` along the loop over `vertices( g )` -/

/-- The content of the member `vertex_` after a `dereference` that yields the vertex `v`
    (used in the proofs): the tag and the fields of the variant of `v` are assigned, the
    other fields are kept. -/
def VertexObject.assign (vertex_ : VertexObject) : Vertex → VertexObject
  | .Road graph vertex =>
    { vertex_ with type := VertexType.Road, road_vertex := vertex, road_graph := some graph }
  | .PublicTransport graph vertex =>
    { vertex_ with
      type := VertexType.PublicTransport, pt_graph := some graph, pt_vertex := vertex }
  | .Poi poi => { vertex_ with type := VertexType.Poi, poi := some poi }

/-- The successive contents of the member `vertex_` when the vertices of a list are yielded
    one after the other (used in the proofs). -/
def VertexObject.assign_all : VertexObject → List Vertex → List VertexObject
  | _, [] => []
  | vertex_, v :: vs => vertex_.assign v :: VertexObject.assign_all (vertex_.assign v) vs

/-- Road nodes 0, 1 with the section 0-1, one selected PT network (key 1) without any stop,
    and one POI (key 7) on 0-1. -/
def graph_poi_without_stop : Graph :=
  Graph.mk 1
    (Road.Graph.mk 2 2 [10, 11] [Road.StoredEdge.mk 0 1 (Road.Section.mk [] [7])])
    (PublicTransportGraphList.mk [(1, PublicTransport.Graph.mk [])] [1])
    [(7, POI.mk 70 (Road.Edge.mk 0 1 0))]

/-- If a measure is 0 exactly on the states equal to `last` and every increment lowers it by
    one, the counting loop returns the measure of the state it starts from. -/
theorem count_steps_of_measure {α : Type} (equal : α → α → Bool) (increment : α → Option α)
    (last : α) (Inv : α → Prop) (rem : α → Nat)
    (h0 : ∀ it, Inv it → rem it = 0 → equal it last = true)
    (hs : ∀ it, Inv it → rem it ≠ 0 →
      equal it last = false ∧ ∃ next, increment it = some next ∧ Inv next ∧ rem next + 1 = rem it) :
    ∀ fuel it, Inv it → rem it < fuel →
      count_steps equal increment fuel it last = some (rem it) := by
  intro fuel
  induction fuel with
  | zero => intro it _ h; omega
  | succ n ih =>
    intro it hinv hlt
    by_cases hr : rem it = 0
    · simp [count_steps, h0 it hinv hr, hr]
    · obtain ⟨hne, next, hnext, hinv2, hrem⟩ := hs it hinv hr
      have := ih next hinv2 (by omega)
      simp [count_steps, hne, hnext, this, hrem]

/-- The sum over a suffix of a list, unfolded at its first element. -/
theorem sum_drop_eq {α : Type} (w : α → Nat) (es : List α) (i : Nat) :
    ((es.drop i).map w).sum =
      match es.get? i with
      | none => 0
      | some e => w e + ((es.drop (i + 1)).map w).sum := by
  induction es generalizing i with
  | nil => simp
  | cons e es ih =>
    cases i with
    | zero => simp
    | succ i => simpa using ih i

/-- No vertex differs from itself. -/
theorem vertex_operator_ne_self (v : Vertex) : v.operator_ne v = false := by
  cases v <;> simp [Vertex.operator_ne, Vertex.operator_eq, Vertex.type]

/-- An `OutEdgeIterator` with nothing left compares equal to the end iterator. -/
theorem remaining_zero_equal (graph : Graph) (v : Vertex) (it : OutEdgeIterator)
    (hv : it.valid graph v) (hr : it.remaining graph = 0) :
    it.equal (out_edges v graph).2 = true := by
  obtain ⟨hs, hg, hrest⟩ := hv
  cases v with
  | Road rg rv =>
    obtain ⟨hend, hle, -, -, -⟩ := hrest
    have hnone : (Road.out_edges rv graph.road)[it.road_it_]? = none := by
      cases hget : (Road.out_edges rv graph.road)[it.road_it_]? with
      | none => rfl
      | some e => simp only [OutEdgeIterator.remaining, hs, hget] at hr; omega
    have hi := List.getElem?_eq_none_iff.mp hnone
    have : it.road_it_ = it.road_it_end_ := by omega
    simp [OutEdgeIterator.equal, out_edges, OutEdgeIterator.to_end, OutEdgeIterator.construct,
      hs, hg, vertex_operator_ne_self, Vertex.type, this]
  | PublicTransport k pv =>
    obtain ⟨hend, hle, h0, h2, -⟩ := hrest
    simp only [OutEdgeIterator.remaining, hs] at hr
    have h3 : it.stop2road_connection_ = 2 := by omega
    have h4 : it.pt_it_ = it.pt_it_end_ := by omega
    simp [OutEdgeIterator.equal, out_edges, OutEdgeIterator.to_end, OutEdgeIterator.construct,
      hs, hg, vertex_operator_ne_self, Vertex.type, h3, h4, hend]
  | Poi p =>
    obtain ⟨h0, h2⟩ := hrest
    simp only [OutEdgeIterator.remaining, hs] at hr
    have h3 : it.poi2road_connection_ = 2 := by omega
    simp [OutEdgeIterator.equal, out_edges, OutEdgeIterator.to_end, OutEdgeIterator.construct,
      hs, hg, vertex_operator_ne_self, Vertex.type, h3]

/-- An `OutEdgeIterator` with something left does not compare equal to the end iterator. -/
theorem remaining_pos_not_equal (graph : Graph) (v : Vertex) (it : OutEdgeIterator)
    (hv : it.valid graph v) (hr : it.remaining graph ≠ 0) :
    it.equal (out_edges v graph).2 = false := by
  obtain ⟨hs, hg, hrest⟩ := hv
  cases v with
  | Road rg rv =>
    obtain ⟨hend, hle, -, -, -⟩ := hrest
    cases hget : (Road.out_edges rv graph.road)[it.road_it_]? with
    | none => simp only [OutEdgeIterator.remaining, hs, hget] at hr; exact absurd rfl hr
    | some e =>
      have hlt : it.road_it_ < (Road.out_edges rv graph.road).length := by
        rcases Nat.lt_or_ge it.road_it_ (Road.out_edges rv graph.road).length with h1 | h1
        · exact h1
        · rw [List.getElem?_eq_none_iff.mpr h1] at hget; cases hget
      have h1 : ¬ it.road_it_ = it.road_it_end_ := by omega
      have h2 : ¬ it.road_it_ = (Road.out_edges rv graph.road).length := by omega
      simp [OutEdgeIterator.equal, out_edges, OutEdgeIterator.to_end, OutEdgeIterator.construct,
        hs, hg, vertex_operator_ne_self, Vertex.type, h1, h2]
  | PublicTransport k pv =>
    obtain ⟨hend, hle, h0, h2, -⟩ := hrest
    simp only [OutEdgeIterator.remaining, hs] at hr
    simp only [OutEdgeIterator.equal, out_edges, OutEdgeIterator.to_end,
      OutEdgeIterator.construct, hs, hg, vertex_operator_ne_self, Vertex.type]
    by_cases h3 : it.stop2road_connection_ = 2
    · have h4 : ¬ it.pt_it_ =
          (PublicTransport.out_edges pv (graph.public_transports.deref k)).length := by omega
      simp [h3, h4]
    · simp [h3]
  | Poi p =>
    obtain ⟨h0, h2⟩ := hrest
    simp only [OutEdgeIterator.remaining, hs] at hr
    have h3 : ¬ it.poi2road_connection_ = 2 := by omega
    simp [OutEdgeIterator.equal, out_edges, OutEdgeIterator.to_end, OutEdgeIterator.construct,
      hs, hg, vertex_operator_ne_self, Vertex.type, h3]

/-- An increment of an `OutEdgeIterator` with something left succeeds and leaves one less. -/
theorem remaining_step (graph : Graph) (v : Vertex) (it : OutEdgeIterator)
    (hv : it.valid graph v) (hr : it.remaining graph ≠ 0) :
    ∃ next, it.increment graph = some next ∧ next.valid graph v ∧
      next.remaining graph + 1 = it.remaining graph := by
  obtain ⟨hs, hg, hrest⟩ := hv
  cases v with
  | Road rg rv =>
    obtain ⟨hend, hle, h0s, h0p, hb⟩ := hrest
    cases hget : (Road.out_edges rv graph.road)[it.road_it_]? with
    | none => simp only [OutEdgeIterator.remaining, hs, hget] at hr; exact absurd rfl hr
    | some e =>
      obtain ⟨hb1, hb2, hb3⟩ := hb e hget
      have hlt : it.road_it_ < (Road.out_edges rv graph.road).length := by
        rcases Nat.lt_or_ge it.road_it_ (Road.out_edges rv graph.road).length with h1 | h1
        · exact h1
        · rw [List.getElem?_eq_none_iff.mpr h1] at hget; cases hget
      by_cases c1 : it.road2stop_connection_ < ((graph.road.bundle e).stops.length : Int)
      · refine ⟨{ it with road2stop_connection_ := it.road2stop_connection_ + 1 }, ?_, ?_, ?_⟩
        · simp [OutEdgeIterator.increment, hs, hget, h0s, c1]
        · refine ⟨hs, hg, hend, hle, ?_, h0p, ?_⟩
          · show (0 : Int) ≤ it.road2stop_connection_ + 1
            omega
          · intro e2 he2
            have he : (Road.out_edges rv graph.road)[it.road_it_]? = some e2 := he2
            rw [hget] at he
            cases he
            exact ⟨by show it.road2stop_connection_ + 1 ≤ _; omega, hb2, fun _ => hb3 c1⟩
        · simp only [OutEdgeIterator.remaining, hs, hget]
          omega
      · by_cases c2 : it.road2poi_connection_ < ((graph.road.bundle e).pois.length : Int)
        · refine ⟨{ it with road2poi_connection_ := it.road2poi_connection_ + 1 }, ?_, ?_, ?_⟩
          · simp [OutEdgeIterator.increment, hs, hget, h0p, c1, c2]
          · refine ⟨hs, hg, hend, hle, h0s, ?_, ?_⟩
            · show (0 : Int) ≤ it.road2poi_connection_ + 1
              omega
            · intro e2 he2
              have he : (Road.out_edges rv graph.road)[it.road_it_]? = some e2 := he2
              rw [hget] at he
              cases he
              exact ⟨hb1, by show it.road2poi_connection_ + 1 ≤ _; omega, fun h => absurd h c1⟩
          · simp only [OutEdgeIterator.remaining, hs, hget]
            omega
        · refine ⟨{ it with road2stop_connection_ := 0, road2poi_connection_ := 0,
                            road_it_ := it.road_it_ + 1 }, ?_, ?_, ?_⟩
          · simp [OutEdgeIterator.increment, hs, hget, c1, c2]
          · refine ⟨hs, hg, hend, ?_, le_refl _, le_refl _, ?_⟩
            · show it.road_it_ + 1 ≤ it.road_it_end_
              omega
            · intro e2 _
              refine ⟨?_, ?_, fun _ => rfl⟩
              · show (0 : Int) ≤ _
                omega
              · show (0 : Int) ≤ _
                omega
          · have hd := sum_drop_eq graph.section_weight (Road.out_edges rv graph.road)
              (it.road_it_ + 1)
            simp only [List.get?_eq_getElem?] at hd
            cases hget2 : (Road.out_edges rv graph.road)[it.road_it_ + 1]? with
            | none =>
              rw [hget2] at hd
              simp only [] at hd
              simp only [OutEdgeIterator.remaining, hs, hget, hget2, hd]
              omega
            | some e2 =>
              rw [hget2] at hd
              simp only [] at hd
              simp only [OutEdgeIterator.remaining, hs, hget, hget2, hd, Graph.section_weight,
                Int.toNat_zero]
              generalize (List.map graph.section_weight
                (List.drop (it.road_it_ + 1 + 1) (Road.out_edges rv graph.road))).sum = rest
              have hb1n : it.road2stop_connection_ =
                  ((graph.road.bundle e).stops.length : Int) := by
                omega
              have hb2n : it.road2poi_connection_ = ((graph.road.bundle e).pois.length : Int) := by
                omega
              rw [hb1n, hb2n]
              simp only [Int.toNat_ofNat, Nat.sub_self, Nat.sub_zero]
              ring
  | PublicTransport k pv =>
    obtain ⟨hend, hle, h0, h2, h3⟩ := hrest
    simp only [OutEdgeIterator.remaining, hs] at hr
    by_cases c1 : it.stop2road_connection_ < 2
    · refine ⟨{ it with stop2road_connection_ := it.stop2road_connection_ + 1 }, ?_, ?_, ?_⟩
      · simp [OutEdgeIterator.increment, hs, c1]
      · refine ⟨hs, hg, hend, hle, ?_, ?_, ?_⟩
        · show (0 : Int) ≤ it.stop2road_connection_ + 1
          omega
        · show it.stop2road_connection_ + 1 ≤ 2
          omega
        · intro _
          exact h3 c1
      · simp only [OutEdgeIterator.remaining, hs]
        omega
    · have c2 : it.pt_it_ ≠ it.pt_it_end_ := by omega
      refine ⟨{ it with pt_it_ := it.pt_it_ + 1 }, ?_, ?_, ?_⟩
      · simp [OutEdgeIterator.increment, hs, c1, c2]
      · refine ⟨hs, hg, hend, ?_, h0, h2, ?_⟩
        · show it.pt_it_ + 1 ≤ it.pt_it_end_
          omega
        · intro h
          exact absurd h c1
      · simp only [OutEdgeIterator.remaining, hs]
        omega
  | Poi p =>
    obtain ⟨h0, h2⟩ := hrest
    simp only [OutEdgeIterator.remaining, hs] at hr
    have c1 : it.poi2road_connection_ < 2 := by omega
    refine ⟨{ it with poi2road_connection_ := it.poi2road_connection_ + 1 }, ?_, ?_, ?_⟩
    · simp [OutEdgeIterator.increment, hs, c1]
    · refine ⟨hs, hg, ?_, ?_⟩
      · show (0 : Int) ≤ it.poi2road_connection_ + 1
        omega
      · show it.poi2road_connection_ + 1 ≤ 2
        omega
    · simp only [OutEdgeIterator.remaining, hs]
      omega

/-- The begin iterator of `out_edges( v, graph )` satisfies the invariant. -/
theorem construct_valid (graph : Graph) (v : Vertex) :
    (out_edges v graph).1.valid graph v := by
  cases v <;>
    simp [OutEdgeIterator.valid, out_edges, OutEdgeIterator.construct]

/-- The begin iterator of `out_edges( v, graph )` has `out_degree( v, graph )` steps left. -/
theorem construct_remaining (graph : Graph) (v : Vertex) :
    (out_edges v graph).1.remaining graph = out_degree v graph := by
  cases v with
  | Road rg rv =>
    have hd := sum_drop_eq graph.section_weight (Road.out_edges rv graph.road) 0
    simp only [List.get?_eq_getElem?, List.drop_zero] at hd
    show OutEdgeIterator.remaining graph (out_edges (Vertex.Road rg rv) graph).1 =
      ((Road.out_edges rv graph.road).map graph.section_weight).sum
    cases hget : (Road.out_edges rv graph.road)[0]? with
    | none =>
      rw [hget] at hd
      simp only [] at hd
      simp only [OutEdgeIterator.remaining, out_edges, OutEdgeIterator.construct, hget, hd]
    | some e =>
      rw [hget] at hd
      simp only [] at hd
      simp only [OutEdgeIterator.remaining, out_edges, OutEdgeIterator.construct, hget, hd,
        Graph.section_weight, Int.toNat_zero, Nat.sub_zero]
  | PublicTransport k pv =>
    simp [OutEdgeIterator.remaining, out_edges, OutEdgeIterator.construct, out_degree,
      PublicTransport.out_degree]
    omega
  | Poi p =>
    simp [OutEdgeIterator.remaining, out_edges, OutEdgeIterator.construct, out_degree]

/-- C1: for every graph `g` and every vertex `v` (a road vertex, a PT stop of a sub-graph of
    the collection, or a POI), iterating `out_edges(v, g)` from its begin iterator until it
    compares equal to its end iterator takes exactly `out_degree(v, g)` steps: with any fuel
    above the out-degree the counting loop returns that number. -/
theorem out_edges_count_eq_out_degree (g : Graph) (v : Vertex) (fuel : Nat)
    (hfuel : out_degree v g < fuel) :
    count_out_edges v g fuel = some (out_degree v g) := by
  have key := count_steps_of_measure OutEdgeIterator.equal (OutEdgeIterator.increment g)
    (out_edges v g).2 (OutEdgeIterator.valid g v) (OutEdgeIterator.remaining g)
    (fun it hv hr => remaining_zero_equal g v it hv hr)
    (fun it hv hr => ⟨remaining_pos_not_equal g v it hv hr, remaining_step g v it hv hr⟩)
    fuel (out_edges v g).1 (construct_valid g v)
    (by rw [construct_remaining]; exact hfuel)
  rw [construct_remaining] at key
  exact key

/-- Witness of C1 on the road node B of scenario S3 (out-degree 4). -/
theorem out_edges_count_eq_out_degree_witness :
    out_degree (Vertex.Road 2 1) graph_s3 < 5 ∧
    count_out_edges (Vertex.Road 2 1) graph_s3 5 = some (out_degree (Vertex.Road 2 1) graph_s3) :=
  ⟨by decide, out_edges_count_eq_out_degree graph_s3 (Vertex.Road 2 1) 5 (by decide)⟩

/-- C10: `Vertex::operator==` returns true iff the two vertices have the same variant tag and
    the same identifying data for that tag: (road graph, road vertex) for Road, (PT graph, PT
    vertex) for PublicTransport, the POI handle for Poi; vertices of different tags are never
    equal; `operator!=` is its negation. -/
theorem vertex_operator_eq_iff :
    (∀ g x g2 x2 : Nat,
      (Vertex.Road g x).operator_eq (Vertex.Road g2 x2) = true ↔ g = g2 ∧ x = x2) ∧
    (∀ g x g2 x2 : Nat,
      (Vertex.PublicTransport g x).operator_eq (Vertex.PublicTransport g2 x2) = true ↔
        g = g2 ∧ x = x2) ∧
    (∀ p p2 : Nat, (Vertex.Poi p).operator_eq (Vertex.Poi p2) = true ↔ p = p2) ∧
    (∀ u v : Vertex, u.type ≠ v.type → u.operator_eq v = false) ∧
    (∀ u v : Vertex, u.operator_eq v = true ↔ u = v) ∧
    (∀ u v : Vertex, u.operator_ne v = !(u.operator_eq v)) := by
  refine ⟨?_, ?_, ?_, ?_, ?_, fun _ _ => rfl⟩
  · intro g x g2 x2; simp [Vertex.operator_eq, Vertex.type]
  · intro g x g2 x2; simp [Vertex.operator_eq, Vertex.type]
  · intro p p2; simp [Vertex.operator_eq, Vertex.type]
  · intro u v; cases u <;> cases v <;> simp [Vertex.operator_eq, Vertex.type]
  · intro u v; cases u <;> cases v <;> simp [Vertex.operator_eq, Vertex.type]

/-- C9: `Vertex::operator<` is a strict total order consistent with `Vertex::operator==`: it
    is irreflexive and transitive, exactly one of `u < v`, `u == v`, `v < u` holds, and the
    order is lexicographic by (variant tag Road < PublicTransport < Poi, graph handle, local
    descriptor). -/
theorem vertex_operator_lt_strict_total_order :
    (∀ u : Vertex, u.operator_lt u = false) ∧
    (∀ u v w : Vertex, u.operator_lt v = true → v.operator_lt w = true →
      u.operator_lt w = true) ∧
    (∀ u v : Vertex,
      (u.operator_lt v = true ∧ u.operator_eq v = false ∧ v.operator_lt u = false) ∨
      (u.operator_lt v = false ∧ u.operator_eq v = true ∧ v.operator_lt u = false) ∨
      (u.operator_lt v = false ∧ u.operator_eq v = false ∧ v.operator_lt u = true)) ∧
    (∀ u v : Vertex, u.operator_lt v = true ↔
      (u.order_key.1 < v.order_key.1 ∨
        (u.order_key.1 = v.order_key.1 ∧
          (u.order_key.2.1 < v.order_key.2.1 ∨
            (u.order_key.2.1 = v.order_key.2.1 ∧ u.order_key.2.2 < v.order_key.2.2))))) := by
  refine ⟨?_, ?_, ?_, ?_⟩
  · intro u
    cases u <;> simp [Vertex.operator_lt, Vertex.type]
  · intro u v w
    cases u <;> cases v <;> cases w <;>
      simp [Vertex.operator_lt, Vertex.type, VertexType.toInt] <;>
      (try split_ifs) <;> (try simp_all) <;> (try omega)
  · intro u v
    cases u <;> cases v <;>
      simp [Vertex.operator_lt, Vertex.operator_eq, Vertex.type, VertexType.toInt] <;>
      (try split_ifs) <;> (try simp_all) <;> (try omega)
  · intro u v
    cases u <;> cases v <;>
      simp [Vertex.operator_lt, Vertex.order_key, Vertex.type, VertexType.toInt] <;>
      (try split_ifs) <;> (try simp_all)

/-- Witness of C10: a road vertex and a POI have different tags and are not equal; two PT
    vertices with the same graph and descriptor are. -/
theorem vertex_operator_eq_iff_witness :
    (Vertex.Road 2 0).type ≠ (Vertex.Poi 7).type ∧
    (Vertex.Road 2 0).operator_eq (Vertex.Poi 7) = false ∧
    (Vertex.PublicTransport 1 0).operator_eq (Vertex.PublicTransport 1 0) = true :=
  ⟨by decide, vertex_operator_eq_iff.2.2.2.1 (Vertex.Road 2 0) (Vertex.Poi 7) (by decide),
    (vertex_operator_eq_iff.2.1 1 0 1 0).mpr ⟨rfl, rfl⟩⟩

/-- Witness of C9: road vertex 0 is below road vertex 1, which is below a PT stop, so road
    vertex 0 is below the PT stop. -/
theorem vertex_operator_lt_strict_total_order_witness :
    (Vertex.Road 2 0).operator_lt (Vertex.Road 2 1) = true ∧
    (Vertex.Road 2 1).operator_lt (Vertex.PublicTransport 1 0) = true ∧
    (Vertex.Road 2 0).operator_lt (Vertex.PublicTransport 1 0) = true :=
  ⟨by decide, by decide,
    vertex_operator_lt_strict_total_order.2.1 (Vertex.Road 2 0) (Vertex.Road 2 1)
      (Vertex.PublicTransport 1 0) (by decide) (by decide)⟩

/-! ### The index map -/

/-- The PT loop of `get_index` for an object in which no pointer to a PT sub-graph is stored
    adds every sub-graph. -/
theorem get_index_pt_loop_none (pt_vertex : Nat) (l : List (Nat × PublicTransport.Graph))
    (n : Nat) :
    get_index_pt_loop none pt_vertex n l =
      n + (l.map (fun it => PublicTransport.num_vertices it.2)).sum := by
  induction l generalizing n with
  | nil => simp [get_index_pt_loop]
  | cons p l ih => simp [get_index_pt_loop, ih]; omega

/-- The PT loop of `get_index` for a stop of the sub-graph at position `j` adds the sub-graphs
    before it and the local index. -/
theorem get_index_pt_loop_at (k pt_vertex : Nat) (G : PublicTransport.Graph)
    (l : List (Nat × PublicTransport.Graph)) (j n : Nat)
    (hnd : (l.map Prod.fst).Nodup) (hj : l[j]? = some (k, G)) :
    get_index_pt_loop (some k) pt_vertex n l =
      n + ((l.take j).map (fun it => PublicTransport.num_vertices it.2)).sum + pt_vertex := by
  induction l generalizing j n with
  | nil => simp at hj
  | cons p l ih =>
    cases j with
    | zero =>
      simp only [List.getElem?_cons_zero, Option.some.injEq] at hj
      subst hj
      simp [get_index_pt_loop]
    | succ j =>
      simp only [List.getElem?_cons_succ] at hj
      simp only [List.map_cons, List.nodup_cons] at hnd
      have hk : k ∈ l.map Prod.fst := List.mem_map.mpr ⟨(k, G), List.getElem?_mem hj, rfl⟩
      have hne : p.1 ≠ k := fun h => hnd.1 (h ▸ hk)
      simp only [get_index_pt_loop, ne_eq, Option.some.injEq, hne, not_false_eq_true, if_true,
        List.take_succ_cons, List.map_cons, List.sum_cons]
      rw [ih j _ hnd.2 hj]
      omega

/-- The POI loop of `get_index` for the POI at position `q` adds `q + 1`. -/
theorem get_index_poi_loop_at (key : Nat) (x : POI) (l : List (Nat × POI)) (q n : Nat)
    (hnd : (l.map Prod.fst).Nodup) (hq : l[q]? = some (key, x)) :
    get_index_poi_loop (some key) n l = n + q + 1 := by
  induction l generalizing q n with
  | nil => simp at hq
  | cons p l ih =>
    cases q with
    | zero =>
      simp only [List.getElem?_cons_zero, Option.some.injEq] at hq
      subst hq
      simp [get_index_poi_loop]
    | succ q =>
      simp only [List.getElem?_cons_succ] at hq
      simp only [List.map_cons, List.nodup_cons] at hnd
      have hk : key ∈ l.map Prod.fst := List.mem_map.mpr ⟨(key, x), List.getElem?_mem hq, rfl⟩
      have hne : p.1 ≠ key := fun h => hnd.1 (h ▸ hk)
      simp only [get_index_poi_loop, Option.some.injEq, hne, if_false]
      rw [ih q _ hnd.2 hq]
      omega

/-- The iteration of the PT collection holds one sub-graph per key. -/
theorem iter_keys_nodup (m : PublicTransportGraphList) (h : (m.m_map.map Prod.fst).Nodup) :
    (m.iter.map Prod.fst).Nodup :=
  List.Nodup.sublist ((List.filter_sublist _).map Prod.fst) h

/-- The index of a road vertex built by its constructor is its descriptor. -/
theorem get_index_road (g : Graph) (rg rv : Nat) :
    get_index g (Vertex.Road rg rv).constructed = rv := by
  simp [get_index, Vertex.constructed]

/-- The index of a stop, built by its constructor, of the sub-graph at position `j` of the
    iteration. -/
theorem get_index_pt (g : Graph) (j k i : Nat) (G : PublicTransport.Graph)
    (hnd : (g.public_transports.m_map.map Prod.fst).Nodup)
    (hj : g.public_transports.iter[j]? = some (k, G)) :
    get_index g (Vertex.PublicTransport k i).constructed =
      Road.num_vertices g.road +
        ((g.public_transports.iter.take j).map
          (fun it => PublicTransport.num_vertices it.2)).sum + i := by
  simp only [get_index, Vertex.constructed]
  simp only [reduceCtorEq, if_false]
  exact get_index_pt_loop_at k i G _ j _ (iter_keys_nodup _ hnd) hj

/-- The index of the POI at position `q`, built by its constructor: no field of the object
    names a PT sub-graph, so the PT loop adds every sub-graph, and the POI loop adds `q + 1`. -/
theorem get_index_poi (g : Graph) (q key : Nat) (x : POI)
    (hnd : (g.pois.map Prod.fst).Nodup) (hq : g.pois[q]? = some (key, x)) :
    get_index g (Vertex.Poi key).constructed =
      Road.num_vertices g.road +
        (g.public_transports.iter.map (fun it => PublicTransport.num_vertices it.2)).sum +
        q + 1 := by
  simp only [get_index, Vertex.constructed]
  simp only [reduceCtorEq, if_false, if_true]
  rw [get_index_pt_loop_none, get_index_poi_loop_at key x _ q _ hnd hq]

/-- A prefix sum grows by the element it takes in. -/
theorem prefix_sum_succ {α : Type} (f : α → Nat) (l : List α) (j : Nat) (x : α)
    (hj : l[j]? = some x) :
    ((l.take (j + 1)).map f).sum = ((l.take j).map f).sum + f x := by
  rw [List.take_succ, hj]
  simp

/-- Prefix sums of natural numbers grow with the length of the prefix. -/
theorem prefix_sum_mono {α : Type} (f : α → Nat) (l : List α) (i j : Nat) (h : i ≤ j) :
    ((l.take i).map f).sum ≤ ((l.take j).map f).sum := by
  induction l generalizing i j with
  | nil => simp
  | cons a l ih =>
    cases i with
    | zero => simp
    | succ i =>
      cases j with
      | zero => omega
      | succ j =>
        simp only [List.take_succ_cons, List.map_cons, List.sum_cons]
        have := ih i j (by omega)
        omega

/-- A prefix sum is at most the sum of the whole list. -/
theorem prefix_sum_le_total {α : Type} (f : α → Nat) (l : List α) (j : Nat) :
    ((l.take j).map f).sum ≤ (l.map f).sum := by
  have := prefix_sum_mono f l j (max j l.length) (le_max_left _ _)
  rwa [List.take_of_length_le (le_max_right _ _)] at this

/-! ### The vertices produced by `vertices( g )` -/

/-- Every value the collecting loop meets satisfies what dereferencing guarantees under an
    invariant of the increments. -/
theorem collect_forall {α β : Type} (equal : α → α → Bool) (increment : α → Option α)
    (dereference : α → Option β) (last : α) (Inv : α → Prop) (P : β → Prop)
    (hd : ∀ it x, Inv it → dereference it = some x → P x)
    (hi : ∀ it next, Inv it → increment it = some next → Inv next) :
    ∀ fuel it xs, Inv it → collect equal increment dereference fuel it last = some xs →
      ∀ x ∈ xs, P x := by
  intro fuel
  induction fuel with
  | zero => intro it xs _ h; simp [collect] at h
  | succ n ih =>
    intro it xs hinv h
    unfold collect at h
    by_cases heq : equal it last = true
    · simp only [heq, if_true, Option.some.injEq] at h
      subst h
      intro x hx
      cases hx
    · simp only [heq] at h
      cases hde : dereference it with
      | none => simp [hde] at h
      | some y =>
        cases hin : increment it with
        | none => simp [hde, hin] at h
        | some next =>
          simp only [hde, hin, Bool.false_eq_true, if_false, Option.map_eq_some'] at h
          obtain ⟨ys, hys, rfl⟩ := h
          intro x hx
          rcases List.mem_cons.mp hx with rfl | hx
          · exact hd it _ hinv hde
          · exact ih next ys (hi it next hinv hin) hys x hx

/-- The begin iterator of `vertices( g )` satisfies the invariant. -/
theorem vertex_iterator_construct_valid (g : Graph) (it : VertexIterator)
    (h : VertexIterator.construct g = some it) : it.valid g := by
  unfold VertexIterator.construct at h
  cases hp : g.public_transports.iter[0]? with
  | none => simp [hp] at h
  | some p =>
    simp only [hp, Option.some.injEq] at h
    subst h
    refine ⟨Nat.zero_le _, rfl, Nat.zero_le _, fun _ => ⟨p, hp, rfl⟩⟩

/-- The `while` loop of `VertexIterator::increment` keeps the invariant. -/
theorem next_pt_graph_valid (g : Graph) (fuel : Nat) (it : VertexIterator) (h : it.valid g) :
    (VertexIterator.next_pt_graph g fuel it).valid g := by
  induction fuel generalizing it with
  | zero => exact h
  | succ n ih =>
    rw [VertexIterator.next_pt_graph]
    dsimp only
    obtain ⟨h1, h2, h3, h4⟩ := h
    split_ifs with c1 c2
    · cases hp : g.public_transports.iter[it.pt_graph_it_ + 1]? with
      | none =>
        dsimp only
        exact ih _ ⟨h1, h2, h3, fun hne => absurd c1.1 hne⟩
      | some p =>
        dsimp only
        exact ih _ ⟨h1, h2, Nat.zero_le _, fun _ => ⟨p, hp, rfl⟩⟩
    · exact ih _ ⟨h1, h2, h3, fun hne => absurd c1.1 hne⟩
    · exact ⟨h1, h2, h3, h4⟩

/-- `VertexIterator::increment` keeps the invariant. -/
theorem vertex_iterator_increment_valid (g : Graph) (it : VertexIterator) (h : it.valid g) :
    (it.increment g).valid g := by
  obtain ⟨h1, h2, h3, h4⟩ := h
  rw [VertexIterator.increment]
  dsimp only
  by_cases c1 : it.road_it_ ≠ it.road_it_end_
  · rw [if_pos c1]
    exact ⟨by show it.road_it_ + 1 ≤ it.road_it_end_; omega, h2, h3, h4⟩
  · rw [if_neg c1]
    apply next_pt_graph_valid
    have hv1 : VertexIterator.valid g
        (if it.pt_it_ ≠ it.pt_it_end_ then { it with pt_it_ := it.pt_it_ + 1 } else it) := by
      by_cases c2 : it.pt_it_ ≠ it.pt_it_end_
      · rw [if_pos c2]
        exact ⟨h1, h2, by show it.pt_it_ + 1 ≤ it.pt_it_end_; omega, fun _ => h4 c2⟩
      · rw [if_neg c2]
        exact ⟨h1, h2, h3, h4⟩
    revert hv1
    generalize (if it.pt_it_ ≠ it.pt_it_end_ then { it with pt_it_ := it.pt_it_ + 1 } else it)
      = it1
    intro hv1
    split_ifs
    · exact hv1
    · exact hv1
    · exact hv1

/-- Under the invariant, `VertexIterator::dereference` yields a vertex of the graph. -/
theorem vertex_iterator_dereference_iterated (g : Graph) (it : VertexIterator) (v : Vertex)
    (h : it.valid g) (hv : it.dereference g = some v) : g.iterated_vertex v := by
  obtain ⟨h1, h2, h3, h4⟩ := h
  unfold VertexIterator.dereference at hv
  split_ifs at hv with c1 c2
  · simp only [Option.some.injEq] at hv
    subst hv
    exact ⟨rfl, by omega⟩
  · obtain ⟨p, hp, hpe⟩ := h4 c2
    simp only [hp, Option.some.injEq] at hv
    subst hv
    exact ⟨it.pt_graph_it_, p.2, hp, by omega⟩
  · cases hq : g.pois[it.poi_it_]? with
    | none => simp [hq] at hv
    | some p =>
      simp only [hq, Option.some.injEq] at hv
      subst hv
      exact ⟨it.poi_it_, p.2, hq⟩

/-- Every vertex met by the loop over `vertices( g )` is a vertex of the graph. -/
theorem vertex_list_iterated (g : Graph) (fuel : Nat) (vs : List Vertex)
    (h : vertex_list g fuel = some vs) : ∀ v ∈ vs, g.iterated_vertex v := by
  unfold vertex_list vertices at h
  cases hc : VertexIterator.construct g with
  | none => simp [hc] at h
  | some b =>
    simp only [hc] at h
    exact collect_forall VertexIterator.equal (fun it => some (it.increment g))
      (VertexIterator.dereference g) b.to_end (VertexIterator.valid g) g.iterated_vertex
      (fun it x hinv hx => vertex_iterator_dereference_iterated g it x hinv hx)
      (fun it next hinv hn => by
        simp only [Option.some.injEq] at hn
        subst hn
        exact vertex_iterator_increment_valid g it hinv)
      fuel b vs (vertex_iterator_construct_valid g b hc) h

/-- In a list with one element per key, a key stands at one position only. -/
theorem keys_position_unique {β : Type} (l : List (Nat × β)) (i j k : Nat) (x y : β)
    (hnd : (l.map Prod.fst).Nodup) (hi : l[i]? = some (k, x)) (hj : l[j]? = some (k, y)) :
    i = j := by
  induction l generalizing i j with
  | nil => simp at hi
  | cons p l ih =>
    simp only [List.map_cons, List.nodup_cons] at hnd
    cases i with
    | zero =>
      cases j with
      | zero => rfl
      | succ j =>
        simp only [List.getElem?_cons_zero, Option.some.injEq] at hi
        simp only [List.getElem?_cons_succ] at hj
        subst hi
        exact absurd (List.mem_map.mpr ⟨(k, y), List.getElem?_mem hj, rfl⟩) hnd.1
    | succ i =>
      cases j with
      | zero =>
        simp only [List.getElem?_cons_zero, Option.some.injEq] at hj
        simp only [List.getElem?_cons_succ] at hi
        subst hj
        exact absurd (List.mem_map.mpr ⟨(k, x), List.getElem?_mem hi, rfl⟩) hnd.1
      | succ j =>
        simp only [List.getElem?_cons_succ] at hi hj
        rw [ih i j hnd.2 hi hj]

/-- The index of a stop of the sub-graph at position `j` lies in the block of that sub-graph. -/
theorem get_index_pt_range (g : Graph) (j k i : Nat) (G : PublicTransport.Graph)
    (hnd : (g.public_transports.m_map.map Prod.fst).Nodup)
    (hj : g.public_transports.iter[j]? = some (k, G))
    (hi : i < PublicTransport.num_vertices G) :
    Road.num_vertices g.road +
        ((g.public_transports.iter.take j).map
          (fun it => PublicTransport.num_vertices it.2)).sum ≤
      get_index g (Vertex.PublicTransport k i).constructed ∧
    get_index g (Vertex.PublicTransport k i).constructed <
      Road.num_vertices g.road +
        ((g.public_transports.iter.take (j + 1)).map
          (fun it => PublicTransport.num_vertices it.2)).sum := by
  have h2 := prefix_sum_succ (fun it : Nat × PublicTransport.Graph =>
    PublicTransport.num_vertices it.2) _ j (k, G) hj
  dsimp only at h2
  rw [get_index_pt g j k i G hnd hj, h2]
  constructor <;> omega

/-- `get_index` separates any two different vertices of the graph when both objects are built
    by the constructors of `Vertex`. -/
theorem get_index_injective_on_constructed (g : Graph)
    (hpt : (g.public_transports.m_map.map Prod.fst).Nodup)
    (hpoi : (g.pois.map Prod.fst).Nodup) (u v : Vertex)
    (hu : g.iterated_vertex u) (hv : g.iterated_vertex v) (hne : u ≠ v) :
    get_index g u.constructed ≠ get_index g v.constructed := by
  have total := fun j => prefix_sum_le_total
    (fun it : Nat × PublicTransport.Graph => PublicTransport.num_vertices it.2)
    g.public_transports.iter j
  cases u with
  | Road rg rv =>
    obtain ⟨hg, hr⟩ := hu
    cases v with
    | Road rg2 rv2 =>
      obtain ⟨hg2, -⟩ := hv
      rw [get_index_road, get_index_road]
      intro h
      exact hne (by rw [hg, hg2, h])
    | PublicTransport k i =>
      obtain ⟨j, G, hj, hi⟩ := hv
      have := (get_index_pt_range g j k i G hpt hj hi).1
      rw [get_index_road]
      simp only [Road.num_vertices] at this
      omega
    | Poi key =>
      obtain ⟨q, x, hq⟩ := hv
      rw [get_index_road, get_index_poi g q key x hpoi hq]
      simp only [Road.num_vertices]
      omega
  | PublicTransport k i =>
    obtain ⟨j, G, hj, hi⟩ := hu
    have r1 := get_index_pt_range g j k i G hpt hj hi
    cases v with
    | Road rg2 rv2 =>
      obtain ⟨-, hr⟩ := hv
      rw [get_index_road]
      simp only [Road.num_vertices] at r1
      omega
    | PublicTransport k2 i2 =>
      obtain ⟨j2, G2, hj2, hi2⟩ := hv
      have r2 := get_index_pt_range g j2 k2 i2 G2 hpt hj2 hi2
      rcases Nat.lt_trichotomy j j2 with hlt | heq | hgt
      · have := prefix_sum_mono
          (fun it : Nat × PublicTransport.Graph => PublicTransport.num_vertices it.2)
          g.public_transports.iter (j + 1) j2 hlt
        omega
      · subst heq
        rw [hj] at hj2
        simp only [Option.some.injEq, Prod.mk.injEq] at hj2
        obtain ⟨hk, hG⟩ := hj2
        subst hk
        rw [get_index_pt g j k i G hpt hj, get_index_pt g j k i2 G hpt hj]
        intro h
        exact hne (by rw [show i = i2 by omega])
      · have := prefix_sum_mono
          (fun it : Nat × PublicTransport.Graph => PublicTransport.num_vertices it.2)
          g.public_transports.iter (j2 + 1) j hgt
        omega
    | Poi key =>
      obtain ⟨q, x, hq⟩ := hv
      rw [get_index_poi g q key x hpoi hq]
      have := total (j + 1)
      omega
  | Poi key =>
    obtain ⟨q, x, hq⟩ := hu
    rw [get_index_poi g q key x hpoi hq]
    cases v with
    | Road rg2 rv2 =>
      obtain ⟨-, hr⟩ := hv
      rw [get_index_road]
      simp only [Road.num_vertices]
      omega
    | PublicTransport k2 i2 =>
      obtain ⟨j2, G2, hj2, hi2⟩ := hv
      have r2 := get_index_pt_range g j2 k2 i2 G2 hpt hj2 hi2
      have := total (j2 + 1)
      omega
    | Poi key2 =>
      obtain ⟨q2, x2, hq2⟩ := hv
      rw [get_index_poi g q2 key2 x2 hpoi hq2]
      intro h
      have hqq : q = q2 := by omega
      subst hqq
      rw [hq] at hq2
      simp only [Option.some.injEq, Prod.mk.injEq] at hq2
      exact hne (by rw [hq2.1])

/-! ### The sum of the out-degrees -/

/-- The sum of a constant over a list. -/
theorem sum_map_const_nat {α : Type} (l : List α) (c : Nat) :
    (l.map (fun _ => c)).sum = c * l.length := by
  induction l with
  | nil => simp
  | cons a l ih => simp [ih]; ring

/-- Among `0 .. n - 1` exactly one number equals `a` when `a < n`, none otherwise. -/
theorem sum_indicator_range (a n : Nat) :
    ((List.range n).map (fun v => if a = v then 1 else 0)).sum = if a < n then 1 else 0 := by
  induction n with
  | zero => simp
  | succ n ih =>
    rw [List.range_succ, List.map_append, List.sum_append, ih]
    by_cases h1 : a < n
    · have h2 : a ≠ n := by omega
      have h3 : a < n + 1 := by omega
      simp [h1, h2, h3]
    · by_cases h2 : a = n
      · subst h2
        simp
      · have h3 : ¬ a < n + 1 := by omega
        simp [h1, h2, h3]

/-- The weights of the out-edges of `v`, as a sum over the stored sections: a section counts
    once for each of its end points that is `v`. -/
theorem out_edges_aux_weight (g : Graph) (v : Nat) (es : List Road.StoredEdge) (i : Nat)
    (hfull : ∀ k se, es[k]? = some se → g.road.m_edges[i + k]? = some se) :
    ((Road.out_edges_aux v es i).map g.section_weight).sum =
      (es.map (fun se =>
        ((if se.m_source = v then 1 else 0) + (if se.m_target = v then 1 else 0)) *
          (se.m_property.stops.length + se.m_property.pois.length + 1))).sum := by
  induction es generalizing i with
  | nil => simp [Road.out_edges_aux]
  | cons e es ih =>
    have h0 : g.road.m_edges[i]? = some e := by
      have := hfull 0 e (by simp)
      simpa using this
    have hw : ∀ t, g.section_weight (Road.Edge.mk v t i) =
        e.m_property.stops.length + e.m_property.pois.length + 1 := by
      intro t
      simp [Graph.section_weight, Road.Graph.bundle, h0]
    have ih2 := ih (i + 1) (by
      intro k se hk
      have := hfull (k + 1) se (by simpa using hk)
      rw [← this]
      congr 1
      omega)
    simp only [Road.out_edges_aux, List.map_append, List.sum_append, List.map_cons,
      List.sum_cons, ih2]
    by_cases c1 : e.m_source = v <;> by_cases c2 : e.m_target = v <;>
      simp [c1, c2, hw]
    ring

/-- Summed over all road vertices, every section counts twice. -/
theorem sum_range_out_edges (es : List Road.StoredEdge) (n : Nat)
    (hend : ∀ e ∈ es, e.m_source < n ∧ e.m_target < n) :
    ((List.range n).map (fun v => (es.map (fun se =>
        ((if se.m_source = v then 1 else 0) + (if se.m_target = v then 1 else 0)) *
          (se.m_property.stops.length + se.m_property.pois.length + 1))).sum)).sum =
      2 * (es.map (fun se =>
        se.m_property.stops.length + se.m_property.pois.length + 1)).sum := by
  induction es with
  | nil => simp
  | cons e es ih =>
    have ih2 := ih (fun x hx => hend x (List.mem_cons_of_mem _ hx))
    obtain ⟨hs, ht⟩ := hend e (List.mem_cons_self _ _)
    simp only [List.map_cons, List.sum_cons, List.sum_map_add, ih2]
    have h1 : ((List.range n).map (fun v =>
        ((if e.m_source = v then 1 else 0) + (if e.m_target = v then 1 else 0)) *
          (e.m_property.stops.length + e.m_property.pois.length + 1))).sum =
        2 * (e.m_property.stops.length + e.m_property.pois.length + 1) := by
      have e1 := sum_indicator_range e.m_source n
      have e2 := sum_indicator_range e.m_target n
      simp only [hs, ht, if_true] at e1 e2
      simp only [add_mul, List.sum_map_add, List.sum_map_mul_right, e1, e2]
      ring
    rw [h1]
    ring

/-- The out-degrees of the road vertices add up to twice the number of sections, of listed
    stops and of listed POIs. -/
theorem road_out_degree_sum (g : Graph)
    (hend : ∀ e ∈ g.road.m_edges, e.m_source < g.road.m_vertices ∧
      e.m_target < g.road.m_vertices) :
    ((List.range (Road.num_vertices g.road)).map
      (fun i => out_degree (Vertex.Road g.road.addr i) g)).sum =
      2 * Road.num_edges g.road + 2 * g.listed_stops.length + 2 * g.listed_pois.length := by
  have h1 : ∀ i, out_degree (Vertex.Road g.road.addr i) g =
      (g.road.m_edges.map (fun se =>
        ((if se.m_source = i then 1 else 0) + (if se.m_target = i then 1 else 0)) *
          (se.m_property.stops.length + se.m_property.pois.length + 1))).sum := by
    intro i
    exact out_edges_aux_weight g i g.road.m_edges 0 (by intro k se hk; simpa using hk)
  simp only [h1, Road.num_vertices]
  rw [sum_range_out_edges g.road.m_edges _ hend]
  simp only [Graph.listed_stops, Graph.listed_pois, List.length_flatten, List.map_map,
    Road.num_edges, Road.num_vertices]
  have : ∀ l : List Road.StoredEdge,
      (l.map (fun se => se.m_property.stops.length + se.m_property.pois.length + 1)).sum =
        l.length + (l.map (List.length ∘ fun e => e.m_property.stops)).sum +
          (l.map (List.length ∘ fun e => e.m_property.pois)).sum := by
    intro l
    induction l with
    | nil => simp
    | cons a l ih => simp [ih]; ring
  rw [this]
  ring

/-- A pointer to a sub-graph of the collection dereferences to that sub-graph. -/
theorem deref_of_mem (m : PublicTransportGraphList) (k : Nat) (G : PublicTransport.Graph)
    (hnd : (m.m_map.map Prod.fst).Nodup) (hmem : (k, G) ∈ m.m_map) : m.deref k = G := by
  unfold PublicTransportGraphList.deref
  generalize m.m_map = l at hnd hmem
  induction l with
  | nil => cases hmem
  | cons p l ih =>
    simp only [List.map_cons, List.nodup_cons] at hnd
    rcases List.mem_cons.mp hmem with h | h
    · subst h
      simp [List.find?]
    · have hk : k ∈ l.map Prod.fst := List.mem_map.mpr ⟨(k, G), h, rfl⟩
      have hne : p.1 ≠ k := fun e => hnd.1 (e ▸ hk)
      have hb : (p.1 == k) = false := by simpa using hne
      simp only [List.find?, hb]
      exact ih hnd.2 h

/-- The out-degrees of the stops of a PT sub-graph, with 2 added to each. -/
theorem pt_out_degree_sum (G : PublicTransport.Graph) :
    ((List.range (PublicTransport.num_vertices G)).map
      (fun i => PublicTransport.out_degree i G + 2)).sum =
      PublicTransport.num_edges G + 2 * PublicTransport.num_vertices G := by
  have h : (List.range (PublicTransport.num_vertices G)).map
      (fun i => PublicTransport.out_degree i G + 2) =
      G.m_vertices.map (fun sv => sv.m_out_edges.length + 2) := by
    apply List.ext_getElem
    · simp [PublicTransport.num_vertices]
    · intro i h1 h2
      simp only [List.length_map] at h2
      simp [PublicTransport.out_degree, PublicTransport.out_edges, h2]
  rw [h]
  simp only [PublicTransport.num_edges, PublicTransport.num_vertices]
  induction G.m_vertices with
  | nil => simp
  | cons a l ih => simp [ih]; ring

/-- The out-degrees of the stops of the selected sub-graphs add up to their PT edges plus 2
    per stop. -/
theorem pt_part_sum (g : Graph) (hnd : (g.public_transports.m_map.map Prod.fst).Nodup) :
    (g.public_transports.iter.map (fun p =>
      ((List.range (PublicTransport.num_vertices p.2)).map
        (fun i => out_degree (Vertex.PublicTransport p.1 i) g)).sum)).sum =
    (g.public_transports.iter.map (fun p =>
      PublicTransport.num_edges p.2 + 2 * PublicTransport.num_vertices p.2)).sum := by
  congr 1
  apply List.map_congr_left
  intro p hp
  have hmem : (p.1, p.2) ∈ g.public_transports.m_map :=
    List.mem_of_mem_filter hp
  have hd := deref_of_mem g.public_transports p.1 p.2 hnd hmem
  simp only [out_degree, hd]
  exact pt_out_degree_sum p.2

/-- The pointers to the stops of a list of sub-graphs. -/
theorem mem_pt_stop_ptrs (l : List (Nat × PublicTransport.Graph))
    (s : PublicTransport.StopPtr) :
    s ∈ pt_stop_ptrs l ↔
      ∃ p ∈ l, s.graph = p.1 ∧ s.vertex < PublicTransport.num_vertices p.2 := by
  simp only [pt_stop_ptrs, List.mem_flatten, List.mem_map, List.mem_range]
  constructor
  · rintro ⟨_, ⟨p, hp, rfl⟩, hs⟩
    simp only [List.mem_map, List.mem_range] at hs
    obtain ⟨i, hi, rfl⟩ := hs
    exact ⟨p, hp, rfl, hi⟩
  · rintro ⟨p, hp, h1, h2⟩
    refine ⟨_, ⟨p, hp, rfl⟩, ?_⟩
    simp only [List.mem_map, List.mem_range]
    refine ⟨s.vertex, h2, ?_⟩
    cases s
    simp only at h1
    subst h1
    rfl

/-- There are as many pointers to stops as the sub-graphs have vertices. -/
theorem length_pt_stop_ptrs (l : List (Nat × PublicTransport.Graph)) :
    (pt_stop_ptrs l).length = (l.map (fun p => PublicTransport.num_vertices p.2)).sum := by
  induction l with
  | nil => rfl
  | cons p l ih =>
    simp only [pt_stop_ptrs, List.map_cons, List.flatten_cons, List.length_append,
      List.length_map, List.length_range, List.sum_cons]
    simp only [pt_stop_ptrs] at ih
    rw [ih]

/-- With one sub-graph per key, no pointer to a stop occurs twice. -/
theorem nodup_pt_stop_ptrs (l : List (Nat × PublicTransport.Graph))
    (hnd : (l.map Prod.fst).Nodup) : (pt_stop_ptrs l).Nodup := by
  induction l with
  | nil => simp [pt_stop_ptrs]
  | cons p l ih =>
    simp only [List.map_cons, List.nodup_cons] at hnd
    have hcons : pt_stop_ptrs (p :: l) =
        (List.range (PublicTransport.num_vertices p.2)).map
          (fun i => PublicTransport.StopPtr.mk p.1 i) ++ pt_stop_ptrs l := by
      simp [pt_stop_ptrs]
    rw [hcons, List.nodup_append]
    refine ⟨?_, ih hnd.2, ?_⟩
    · apply List.Nodup.map _ (List.nodup_range _)
      intro a b hab
      simpa using hab
    · intro s hs1 hs2
      simp only [List.mem_map, List.mem_range] at hs1
      obtain ⟨i, -, rfl⟩ := hs1
      obtain ⟨q, hq, h1, -⟩ := (mem_pt_stop_ptrs l _).mp hs2
      simp only at h1
      exact hnd.1 (List.mem_map.mpr ⟨q, hq, h1.symm⟩)

/-- A list that holds every element of a duplicate-free list exactly once, and nothing else,
    has the length of that list. -/
theorem length_eq_of_listed_once {α : Type} [DecidableEq α] (a b : List α) (hb : b.Nodup)
    (hcount : ∀ x ∈ b, a.count x = 1) (honly : ∀ x ∈ a, x ∈ b) : a.length = b.length := by
  apply List.Perm.length_eq
  rw [List.perm_iff_count]
  intro x
  by_cases hx : x ∈ b
  · rw [hcount x hx, List.count_eq_one_of_mem hb hx]
  · have : x ∉ a := fun h => hx (honly x h)
    rw [List.count_eq_zero_of_not_mem this, List.count_eq_zero_of_not_mem hx]

/-- With well-formed containers and consistent lists, the out-degrees of the vertices add up
    to `num_edges( g )`. -/
theorem sum_out_degree_of_consistent (g : Graph) (hwf : g.well_formed)
    (hstops : g.stops_consistent g.public_transports.iter) (hpois : g.pois_consistent) :
    sum_out_degree g = num_edges g := by
  obtain ⟨hend, hpt, hpk⟩ := hwf
  have hs : g.listed_stops.length =
      (g.public_transports.iter.map (fun p => PublicTransport.num_vertices p.2)).sum := by
    rw [← length_pt_stop_ptrs]
    apply length_eq_of_listed_once _ _
      (nodup_pt_stop_ptrs _ (iter_keys_nodup _ hpt))
    · intro s hs
      obtain ⟨p, hp, h1, h2⟩ := (mem_pt_stop_ptrs _ s).mp hs
      have := (hstops.1 p hp s.vertex h2).1
      cases s
      simp only at h1
      subst h1
      exact this
    · exact hstops.2
  have hp : g.listed_pois.length = g.pois.length := by
    rw [← List.length_map g.pois Prod.fst]
    apply length_eq_of_listed_once _ _ hpk
    · intro x hx
      obtain ⟨p, hp, rfl⟩ := List.mem_map.mp hx
      exact (hpois.1 p hp).1
    · exact hpois.2
  have hpoi : (g.pois.map (fun p => out_degree (Vertex.Poi p.1) g)).sum = 2 * g.pois.length :=
    sum_map_const_nat g.pois 2
  have hsplit : ∀ l : List (Nat × PublicTransport.Graph),
      (l.map (fun p => PublicTransport.num_edges p.2 +
        PublicTransport.num_vertices p.2 * 4)).sum =
      (l.map (fun p => PublicTransport.num_edges p.2 +
        2 * PublicTransport.num_vertices p.2)).sum +
      2 * (l.map (fun p => PublicTransport.num_vertices p.2)).sum := by
    intro l
    induction l with
    | nil => simp
    | cons a l ih => simp [ih]; ring
  unfold sum_out_degree num_edges
  rw [road_out_degree_sum g hend, pt_part_sum g hpt, hpoi, hs, hp, hsplit]
  ring

/-- X5: for every graph `g` whose containers are well formed and in which every PT stop of a
    selected sub-graph is listed exactly once, on the stops list of the road section it
    references, no other stop is listed, and every POI is listed exactly once, on the pois
    list of the road section it references, the sum of `out_degree(v, g)` over every road
    vertex, every PT stop of every selected PT sub-graph and every POI equals
    `num_edges(g)`. -/
theorem sum_out_degree_eq_num_edges (g : Graph) (hwf : g.well_formed)
    (hstops : g.stops_consistent g.public_transports.iter) (hpois : g.pois_consistent) :
    sum_out_degree g = num_edges g := by
  obtain ⟨hend, hpt, hpk⟩ := hwf
  have hs : g.listed_stops.length =
      (g.public_transports.iter.map (fun p => PublicTransport.num_vertices p.2)).sum := by
    rw [← length_pt_stop_ptrs]
    apply length_eq_of_listed_once _ _
      (nodup_pt_stop_ptrs _ (iter_keys_nodup _ hpt))
    · intro s hs
      obtain ⟨p, hp, h1, h2⟩ := (mem_pt_stop_ptrs _ s).mp hs
      have := (hstops.1 p hp s.vertex h2).1
      cases s
      simp only at h1
      subst h1
      exact this
    · exact hstops.2
  have hp : g.listed_pois.length = g.pois.length := by
    rw [← List.length_map g.pois Prod.fst]
    apply length_eq_of_listed_once _ _ hpk
    · intro x hx
      obtain ⟨p, hp, rfl⟩ := List.mem_map.mp hx
      exact (hpois.1 p hp).1
    · exact hpois.2
  have hpoi : (g.pois.map (fun p => out_degree (Vertex.Poi p.1) g)).sum = 2 * g.pois.length :=
    sum_map_const_nat g.pois 2
  have hsplit : ∀ l : List (Nat × PublicTransport.Graph),
      (l.map (fun p => PublicTransport.num_edges p.2 +
        PublicTransport.num_vertices p.2 * 4)).sum =
      (l.map (fun p => PublicTransport.num_edges p.2 +
        2 * PublicTransport.num_vertices p.2)).sum +
      2 * (l.map (fun p => PublicTransport.num_vertices p.2)).sum := by
    intro l
    induction l with
    | nil => simp
    | cons a l ih => simp [ih]; ring
  unfold sum_out_degree num_edges
  rw [road_out_degree_sum g hend, pt_part_sum g hpt, hpoi, hs, hp, hsplit]
  ring

/-- Witness of X5 on scenario S3: both sides are 13. -/
theorem sum_out_degree_eq_num_edges_witness :
    graph_s3.well_formed ∧ graph_s3.stops_consistent graph_s3.public_transports.iter ∧
    graph_s3.pois_consistent ∧ sum_out_degree graph_s3 = num_edges graph_s3 :=
  ⟨by decide, by decide, by decide,
    sum_out_degree_eq_num_edges graph_s3 (by decide) (by decide) (by decide)⟩

/-- C4 (failing input): two PT networks with stops on the road section 0-1, of which only
    network 2 is selected.  Every PT stop of the graph is listed exactly once, on the section
    it references, and nothing else is listed; yet the out-degrees add up to 10 (the road
    nodes count the stops of the unselected network 1) and the loop over `edges( g )` takes
    10 steps, while `num_edges` is 6. -/
theorem sum_out_degree_ne_num_edges_unselected :
    (graph_two_networks [2]).well_formed ∧
    (graph_two_networks [2]).stops_consistent (graph_two_networks [2]).public_transports.m_map ∧
    (graph_two_networks [2]).pois_consistent ∧
    sum_out_degree (graph_two_networks [2]) = 10 ∧
    num_edges (graph_two_networks [2]) = 6 ∧
    sum_out_degree (graph_two_networks [2]) ≠ num_edges (graph_two_networks [2]) ∧
    count_edges (graph_two_networks [2]) 11 = some 10 := by
  decide

/-! ### Settled at concrete graphs -/

/-- C2 (failing input): a graph that satisfies the data-model invariants and whose road node 0
    has no section, so the first vertex of `vertices(g)` has out-degree 0.  `num_edges(g)` is
    6, the loop over `edges(g)` takes 7 steps whenever the
    fuel lets it end, and for no fuel does it take `num_edges(g)` steps. -/
theorem count_edges_isolated_first_vertex :
    graph_isolated_node.well_formed ∧
    graph_isolated_node.stops_consistent graph_isolated_node.public_transports.m_map ∧
    graph_isolated_node.pois_consistent ∧
    num_edges graph_isolated_node = 6 ∧
    out_degree (Vertex.Road 2 0) graph_isolated_node = 0 ∧
    (∀ n, count_edges graph_isolated_node (n + 8) = some 7) ∧
    (∀ fuel, count_edges graph_isolated_node fuel ≠ some (num_edges graph_isolated_node)) := by
  refine ⟨by decide, by decide, by decide, by decide, by decide, fun n => rfl, ?_⟩
  intro fuel
  match fuel with
  | 0 => decide
  | 1 => decide
  | 2 => decide
  | 3 => decide
  | 4 => decide
  | 5 => decide
  | 6 => decide
  | 7 => decide
  | n + 8 =>
    have h : count_edges graph_isolated_node (n + 8) = some 7 := rfl
    rw [h]
    decide

/-- C3 (failing input): the first (and only) selected PT network has no stop.
    `num_vertices(g)` is 1, the loop over `vertices(g)` takes 2 steps whenever the fuel lets
    it end, and for no fuel does it take `num_vertices(g)` steps. -/
theorem count_vertices_empty_first_network :
    num_vertices graph_empty_network = 1 ∧
    (∀ n, count_vertices graph_empty_network (n + 3) = some 2) ∧
    (∀ fuel, count_vertices graph_empty_network fuel ≠
      some (num_vertices graph_empty_network)) := by
  refine ⟨by decide, fun n => rfl, ?_⟩
  intro fuel
  match fuel with
  | 0 => decide
  | 1 => decide
  | 2 => decide
  | n + 3 =>
    have h : count_vertices graph_empty_network (n + 3) = some 2 := rfl
    rw [h]
    decide

/-- C5 (failing input): on the graph with two road nodes, one selected PT network without any
    stop and one POI, the loop over `vertices( g )` meets the POI with no pointer to a PT
    sub-graph stored in `*vi` (no stop was dereferenced before it), so the PT loop of
    `get_index` adds every sub-graph and the POI loop one more: the index of the POI is
    3 = `num_vertices( g )`, which is not a position in a vector of size
    `num_vertices( g )`. -/
theorem get_index_of_iterated_poi_out_of_range :
    graph_poi_without_stop.well_formed ∧
    graph_poi_without_stop.stops_consistent graph_poi_without_stop.public_transports.m_map ∧
    graph_poi_without_stop.pois_consistent ∧
    num_vertices graph_poi_without_stop = 3 ∧
    vertex_object_list graph_poi_without_stop 5 =
      some [VertexObject.mk VertexType.Road (some 2) 0 none 0 none,
        VertexObject.mk VertexType.Road (some 2) 1 none 0 none,
        VertexObject.mk VertexType.Poi (some 2) 1 none 0 (some 7),
        VertexObject.mk VertexType.Poi (some 2) 1 none 0 (some 7)] ∧
    (VertexObject.mk VertexType.Poi (some 2) 1 none 0 (some 7)).vertex = some (Vertex.Poi 7) ∧
    index_list graph_poi_without_stop 5 = some [0, 1, 3, 3] ∧
    get_index graph_poi_without_stop
      (VertexObject.mk VertexType.Poi (some 2) 1 none 0 (some 7)) = 3 ∧
    ¬ get_index graph_poi_without_stop
        (VertexObject.mk VertexType.Poi (some 2) 1 none 0 (some 7)) <
      num_vertices graph_poi_without_stop := by
  decide

/-- C7 (failing input): the POI of key 7 is at position 0 of the POI collection of a graph
    with R = 3 road vertices and one PT sub-graph of 1 vertex; the index of the vertex
    `Vertex( &poi )` built by the constructor is 3 + 1 + 0 + 1 = 5 and not R + ΣP + q = 4. -/
theorem get_index_poi_is_position_plus_one :
    (graph_poi.pois[0]?).map Prod.fst = some 7 ∧
    Road.num_vertices graph_poi.road = 3 ∧
    (graph_poi.public_transports.m_map.map
      (fun it => PublicTransport.num_vertices it.2)).sum = 1 ∧
    get_index graph_poi (Vertex.Poi 7).constructed = 5 ∧
    get_index graph_poi (Vertex.Poi 7).constructed ≠ 3 + 1 + 0 := by
  decide

/-- C8 (amended): the index of a road vertex is its local road-vertex index (below R for a
    vertex of the road graph); the index of the PT vertex with local index `i` in the
    sub-graph at position `j` of the iteration of the PT collection (the selected sub-graphs)
    is R + (the vertex counts of the selected sub-graphs before it) + `i`.  This holds for the
    objects built by the constructors of `Vertex` and for every other object with the same
    tag and the same fields of the tagged variant, such as the `*vi` of the loop over
    `vertices( g )`. -/
theorem get_index_road_and_selected_pt (g : Graph)
    (hnd : (g.public_transports.m_map.map Prod.fst).Nodup) :
    (∀ rg rv, get_index g (Vertex.Road rg rv).constructed = rv) ∧
    (∀ rg rv, rv < Road.num_vertices g.road →
      get_index g (Vertex.Road rg rv).constructed < Road.num_vertices g.road) ∧
    (∀ j k G i, g.public_transports.iter[j]? = some (k, G) →
      get_index g (Vertex.PublicTransport k i).constructed =
        Road.num_vertices g.road +
          ((g.public_transports.iter.take j).map
            (fun it => PublicTransport.num_vertices it.2)).sum + i) ∧
    (∀ v : VertexObject, v.type = VertexType.Road → get_index g v = v.road_vertex) ∧
    (∀ j k G (v : VertexObject), g.public_transports.iter[j]? = some (k, G) →
      v.type = VertexType.PublicTransport → v.pt_graph = some k →
      get_index g v =
        Road.num_vertices g.road +
          ((g.public_transports.iter.take j).map
            (fun it => PublicTransport.num_vertices it.2)).sum + v.pt_vertex) := by
  refine ⟨fun rg rv => get_index_road g rg rv, ?_, ?_, ?_, ?_⟩
  · intro rg rv h
    rw [get_index_road]
    exact h
  · intro j k G i hj
    exact get_index_pt g j k i G hnd hj
  · intro v ht
    simp [get_index, ht]
  · intro j k G v hj ht hg
    simp only [get_index, ht, hg]
    simp only [reduceCtorEq, if_false]
    exact get_index_pt_loop_at k v.pt_vertex G _ j _ (iter_keys_nodup _ hnd) hj

/-- Witness of C8 (amended): with only network 2 selected, its stop 0 has index 2 + 0 + 0. -/
theorem get_index_road_and_selected_pt_witness :
    ((graph_two_networks [2]).public_transports.m_map.map Prod.fst).Nodup ∧
    ((graph_two_networks [2]).public_transports.iter[0]?).map Prod.fst = some 2 ∧
    get_index (graph_two_networks [2]) (Vertex.PublicTransport 2 0).constructed =
      Road.num_vertices (graph_two_networks [2]).road +
        (((graph_two_networks [2]).public_transports.iter.take 0).map
          (fun it => PublicTransport.num_vertices it.2)).sum + 0 :=
  ⟨by decide, by decide,
    (get_index_road_and_selected_pt (graph_two_networks [2]) (by decide)).2.2.1 0 2
      (PublicTransport.Graph.mk
        [PublicTransport.StoredVertex.mk [] (PublicTransport.Stop.mk 200 (Road.Edge.mk 0 1 0))])
      0 (by decide)⟩

/-- C8 (counterexample): network 2 is the second sub-graph of the collection, after network 1
    and its two stops.  With both networks selected the index of its stop 0 is 2 + 2 + 0 = 4;
    with only network 2 selected it is 2: the unselected network 1 is not counted and the
    index changes with the selection. -/
theorem get_index_pt_changes_with_selection :
    ((graph_two_networks [2]).public_transports.m_map[1]?).map Prod.fst = some 2 ∧
    get_index (graph_two_networks [1, 2]) (Vertex.PublicTransport 2 0).constructed = 4 ∧
    get_index (graph_two_networks [2]) (Vertex.PublicTransport 2 0).constructed = 2 ∧
    get_index (graph_two_networks [2]) (Vertex.PublicTransport 2 0).constructed ≠
      Road.num_vertices (graph_two_networks [2]).road +
        (((graph_two_networks [2]).public_transports.m_map.take 1).map
          (fun it => PublicTransport.num_vertices it.2)).sum + 0 ∧
    get_index (graph_two_networks [2]) (Vertex.PublicTransport 2 0).constructed ≠
      get_index (graph_two_networks [1, 2]) (Vertex.PublicTransport 2 0).constructed := by
  decide

/-! ### The loop over `vertices( g )` when the first sub-graph has a stop -/

/-- With enough fuel the `while` loop of `VertexIterator::increment` ends on a settled state
    and leaves the measure unchanged. -/
theorem next_pt_graph_spec (g : Graph) (fuel : Nat) (it : VertexIterator)
    (hreg : it.regular g)
    (hfuel : g.public_transports.iter.length - it.pt_graph_it_ ≤ fuel) :
    (VertexIterator.next_pt_graph g fuel it).settled g ∧
    (VertexIterator.next_pt_graph g fuel it).remaining g = it.remaining g := by
  induction fuel generalizing it with
  | zero =>
    obtain ⟨h1, h2, h3, h4, h5, h6, h7, h8, h9, h10⟩ := hreg
    refine ⟨⟨⟨h1, h2, h3, h4, h5, h6, h7, h8, h9, h10⟩, ?_⟩, rfl⟩
    intro hlt
    have hlt2 : it.pt_graph_it_ < g.public_transports.iter.length := hlt
    omega
  | succ n ih =>
    obtain ⟨h1, h2, h3, h4, h5, h6, h7, h8, h9, h10⟩ := hreg
    rw [VertexIterator.next_pt_graph]
    dsimp only
    by_cases c1 : it.pt_it_ = it.pt_it_end_ ∧ it.pt_graph_it_ ≠ it.pt_graph_it_end_
    · rw [if_pos c1]
      obtain ⟨c1a, c1b⟩ := c1
      have hd := sum_drop_eq (fun p : Nat × PublicTransport.Graph =>
        PublicTransport.num_vertices p.2) g.public_transports.iter (it.pt_graph_it_ + 1)
      simp only [List.get?_eq_getElem?] at hd
      by_cases c2 : it.pt_graph_it_ + 1 ≠ it.pt_graph_it_end_
      · rw [if_pos c2]
        cases hp : g.public_transports.iter[it.pt_graph_it_ + 1]? with
        | none =>
          have := List.getElem?_eq_none_iff.mp hp
          omega
        | some p =>
          dsimp only
          rw [hp] at hd
          dsimp only at hd
          have hreg2 : VertexIterator.regular g
              { it with pt_graph_it_ := it.pt_graph_it_ + 1, pt_it_ := 0,
                        pt_it_end_ := PublicTransport.num_vertices p.2 } := by
            refine ⟨h1, h2, h3, h4, h5, ?_, Nat.zero_le _, h8, ?_, ?_⟩
            · show it.pt_graph_it_ + 1 ≤ _
              omega
            · intro p2 hp2
              have hp3 : g.public_transports.iter[it.pt_graph_it_ + 1]? = some p2 := hp2
              rw [hp] at hp3
              cases hp3
              rfl
            · intro hn
              have hn2 : it.pt_graph_it_ + 1 = g.public_transports.iter.length := hn
              omega
          have key := ih _ hreg2 (by show _ - (it.pt_graph_it_ + 1) ≤ n; omega)
          refine ⟨key.1, ?_⟩
          rw [key.2]
          simp only [VertexIterator.remaining, hd, c1a, Nat.sub_self, Nat.sub_zero]
          ring
      · rw [if_neg c2]
        have c3 : it.pt_graph_it_ + 1 = g.public_transports.iter.length := by omega
        have hnone : g.public_transports.iter[it.pt_graph_it_ + 1]? = none :=
          List.getElem?_eq_none_iff.mpr (by omega)
        rw [hnone] at hd
        dsimp only at hd
        have hd2 : ((g.public_transports.iter.drop (it.pt_graph_it_ + 1 + 1)).map
            (fun p => PublicTransport.num_vertices p.2)).sum = 0 := by
          rw [List.drop_of_length_le (by omega)]
          rfl
        have hreg2 : VertexIterator.regular g
            { it with pt_graph_it_ := it.pt_graph_it_ + 1 } := by
          refine ⟨h1, h2, h3, h4, h5, ?_, h7, h8, ?_, ?_⟩
          · show it.pt_graph_it_ + 1 ≤ _
            omega
          · intro p2 hp2
            have hp3 : g.public_transports.iter[it.pt_graph_it_ + 1]? = some p2 := hp2
            rw [hnone] at hp3
            cases hp3
          · intro _
            exact c1a
        have key := ih _ hreg2 (by show _ - (it.pt_graph_it_ + 1) ≤ n; omega)
        refine ⟨key.1, ?_⟩
        rw [key.2]
        simp only [VertexIterator.remaining, hd, hd2]
    · rw [if_neg c1]
      refine ⟨⟨⟨h1, h2, h3, h4, h5, h6, h7, h8, h9, h10⟩, ?_⟩, rfl⟩
      intro hlt
      have hlt2 : it.pt_graph_it_ < g.public_transports.iter.length := hlt
      by_cases c3 : it.pt_it_ = it.pt_it_end_
      · exact absurd ⟨c3, by omega⟩ c1
      · show it.pt_it_ < it.pt_it_end_
        omega

/-- An increment of a settled `VertexIterator` with something left gives a settled state with
    one less left. -/
theorem vertex_iterator_step (g : Graph) (it : VertexIterator) (hs : it.settled g)
    (hr : it.remaining g ≠ 0) :
    (it.increment g).settled g ∧ (it.increment g).remaining g + 1 = it.remaining g := by
  obtain ⟨⟨h1, h2, h3, h4, h5, h6, h7, h8, h9, h10⟩, h11⟩ := hs
  by_cases c1 : it.road_it_ ≠ it.road_it_end_
  · have hinc : it.increment g = { it with road_it_ := it.road_it_ + 1 } := by
      rw [VertexIterator.increment]
      dsimp only
      rw [if_pos c1]
    rw [hinc]
    refine ⟨⟨⟨h1, h2, h3, h4, ?_, h6, h7, h8, h9, h10⟩, h11⟩, ?_⟩
    · show it.road_it_ + 1 ≤ _
      omega
    · simp only [VertexIterator.remaining]
      omega
  · have c1b : it.road_it_ = g.road.m_vertices := by omega
    by_cases c2 : it.pt_graph_it_ = g.public_transports.iter.length
    · -- among the POIs
      have c3 : ¬ it.pt_it_ ≠ it.pt_it_end_ := not_not.mpr (h10 c2)
      have hd : ((g.public_transports.iter.drop (it.pt_graph_it_ + 1)).map
          (fun p => PublicTransport.num_vertices p.2)).sum = 0 := by
        rw [List.drop_of_length_le (by omega)]
        rfl
      have hrem : it.remaining g = g.pois.length - it.poi_it_ := by
        have := h10 c2
        simp only [VertexIterator.remaining, hd]
        omega
      have c4 : it.poi_it_ ≠ it.poi_it_end_ := by
        intro h
        apply hr
        rw [hrem]
        omega
      have c5 : it.pt_graph_it_ = it.pt_graph_it_end_ := by omega
      have hz : it.pt_graph_it_end_ - it.pt_graph_it_ = 0 := by omega
      have hinc : it.increment g = { it with poi_it_ := it.poi_it_ + 1 } := by
        rw [VertexIterator.increment]
        dsimp only
        rw [if_neg c1, if_neg c3, if_pos c5, if_pos c4]
        dsimp only
        rw [hz]
        rfl
      rw [hinc, hrem]
      refine ⟨⟨⟨h1, h2, h3, h4, h5, h6, h7, ?_, h9, h10⟩, h11⟩, ?_⟩
      · show it.poi_it_ + 1 ≤ _
        omega
      · have hd2 : ((g.public_transports.iter.drop (it.pt_graph_it_ + 1)).map
            (fun p => PublicTransport.num_vertices p.2)).sum = 0 := hd
        have := h10 c2
        simp only [VertexIterator.remaining, hd2]
        omega
    · -- among the PT stops
      have c3 : it.pt_it_ < it.pt_it_end_ := h11 (by omega)
      have c4 : it.pt_it_ ≠ it.pt_it_end_ := by omega
      have c5 : ¬ it.pt_graph_it_ = it.pt_graph_it_end_ := by omega
      have hinc : it.increment g =
          VertexIterator.next_pt_graph g (it.pt_graph_it_end_ - it.pt_graph_it_)
            { it with pt_it_ := it.pt_it_ + 1 } := by
        rw [VertexIterator.increment]
        dsimp only
        rw [if_neg c1, if_pos c4]
        dsimp only
        rw [if_neg c5]
      have hreg : VertexIterator.regular g { it with pt_it_ := it.pt_it_ + 1 } := by
        refine ⟨h1, h2, h3, h4, h5, h6, ?_, h8, h9, ?_⟩
        · show it.pt_it_ + 1 ≤ it.pt_it_end_
          omega
        · intro hn
          exact absurd hn c2
      have key := next_pt_graph_spec g (it.pt_graph_it_end_ - it.pt_graph_it_)
        { it with pt_it_ := it.pt_it_ + 1 } hreg (by show _ - it.pt_graph_it_ ≤ _; omega)
      rw [hinc]
      refine ⟨key.1, ?_⟩
      rw [key.2]
      simp only [VertexIterator.remaining]
      omega

/-- A settled `VertexIterator` compares equal to the end iterator exactly when nothing is
    left. -/
theorem vertex_iterator_settled_equal (g : Graph) (last it : VertexIterator)
    (hl1 : last.graph_ = g.addr) (hl2 : last.road_it_ = g.road.m_vertices)
    (hl3 : last.pt_graph_it_ = g.public_transports.iter.length)
    (hl4 : last.poi_it_ = g.pois.length) (hs : it.settled g) :
    (it.remaining g = 0 → it.equal last = true) ∧
    (it.remaining g ≠ 0 → it.equal last = false) := by
  obtain ⟨⟨h1, h2, h3, h4, h5, h6, h7, h8, h9, h10⟩, h11⟩ := hs
  have hg : ¬ it.graph_ ≠ last.graph_ := by
    rw [h1, hl1]
    exact fun h => h rfl
  unfold VertexIterator.equal
  rw [if_neg hg]
  by_cases c1 : it.road_it_ ≠ it.road_it_end_
  · rw [if_pos c1]
    have hne : ¬ it.road_it_ = last.road_it_ := by omega
    have hrem : it.remaining g ≠ 0 := by
      simp only [VertexIterator.remaining]
      omega
    refine ⟨fun h => absurd h hrem, fun _ => ?_⟩
    simpa using hne
  · rw [if_neg c1]
    by_cases c2 : it.pt_graph_it_ = g.public_transports.iter.length
    · have hd : ((g.public_transports.iter.drop (it.pt_graph_it_ + 1)).map
          (fun p => PublicTransport.num_vertices p.2)).sum = 0 := by
        rw [List.drop_of_length_le (by omega)]
        rfl
      have hrem : it.remaining g = g.pois.length - it.poi_it_ := by
        have := h10 c2
        simp only [VertexIterator.remaining, hd]
        omega
      have e1 : ¬ it.pt_graph_it_ ≠ last.pt_graph_it_ := by
        rw [c2, hl3]
        exact fun h => h rfl
      have e2 : ¬ it.pt_graph_it_ ≠ it.pt_graph_it_end_ := by
        rw [c2, h3]
        exact fun h => h rfl
      rw [if_neg e1, if_neg e2, hrem, hl4]
      constructor
      · intro h
        have : it.poi_it_ = g.pois.length := by omega
        simpa using this
      · intro h
        have : ¬ it.poi_it_ = g.pois.length := by omega
        simpa using this
    · have c3 := h11 (by omega)
      have hrem : it.remaining g ≠ 0 := by
        simp only [VertexIterator.remaining]
        omega
      have e1 : it.pt_graph_it_ ≠ last.pt_graph_it_ := by
        rw [hl3]
        exact c2
      rw [if_pos e1]
      exact ⟨fun h => absurd h hrem, fun _ => rfl⟩

/-- When the first iterated sub-graph has a stop, the begin iterator of `vertices( g )` is
    settled and has `num_vertices( g )` steps left. -/
theorem vertex_iterator_construct_settled (g : Graph) (b : VertexIterator)
    (p : Nat × PublicTransport.Graph)
    (hb : VertexIterator.construct g = some b)
    (hp : g.public_transports.iter[0]? = some p) (hpos : 0 < PublicTransport.num_vertices p.2) :
    b.settled g ∧ b.remaining g = num_vertices g := by
  unfold VertexIterator.construct at hb
  simp only [hp, Option.some.injEq] at hb
  subst hb
  have hlen : 0 < g.public_transports.iter.length := by
    rcases Nat.eq_zero_or_pos g.public_transports.iter.length with h | h
    · rw [List.getElem?_eq_none_iff.mpr (by omega)] at hp
      cases hp
    · exact h
  have hd := sum_drop_eq (fun p : Nat × PublicTransport.Graph =>
    PublicTransport.num_vertices p.2) g.public_transports.iter 0
  simp only [List.get?_eq_getElem?, hp, List.drop_zero] at hd
  refine ⟨⟨⟨rfl, rfl, rfl, rfl, Nat.zero_le _, Nat.zero_le _, Nat.zero_le _, Nat.zero_le _,
    ?_, ?_⟩, ?_⟩, ?_⟩
  · intro p2 hp2
    have hp3 : g.public_transports.iter[0]? = some p2 := hp2
    rw [hp] at hp3
    cases hp3
    rfl
  · intro h
    have h2 : 0 = g.public_transports.iter.length := h
    omega
  · intro _
    exact hpos
  · simp only [VertexIterator.remaining, num_vertices, hd, Road.num_vertices, Nat.sub_zero,
      Nat.zero_add]
    ring

/-- X1: when the first PT sub-graph the collection iterates over has at least one stop, the
    loop over `vertices(g)` takes exactly `num_vertices(g)` steps: with any fuel above that number
    the counting loop returns it. -/
theorem count_vertices_eq_num_vertices (g : Graph) (p : Nat × PublicTransport.Graph)
    (fuel : Nat) (hp : g.public_transports.iter[0]? = some p)
    (hpos : 0 < PublicTransport.num_vertices p.2) (hfuel : num_vertices g < fuel) :
    count_vertices g fuel = some (num_vertices g) := by
  have hb : VertexIterator.construct g = some (VertexIterator.mk g.addr
      0 (Road.num_vertices g.road) 0 g.public_transports.iter.length
      0 (PublicTransport.num_vertices p.2) 0 g.pois.length) := by
    simp only [VertexIterator.construct, hp]
  obtain ⟨hset, hrem⟩ := vertex_iterator_construct_settled g _ p hb hp hpos
  have key := count_steps_of_measure VertexIterator.equal
    (fun it => some (it.increment g))
    (VertexIterator.mk g.addr
      0 (Road.num_vertices g.road) 0 g.public_transports.iter.length
      0 (PublicTransport.num_vertices p.2) 0 g.pois.length).to_end
    (VertexIterator.settled g) (VertexIterator.remaining g)
    (fun it hs hr => (vertex_iterator_settled_equal g _ it rfl rfl rfl rfl hs).1 hr)
    (fun it hs hr => ⟨(vertex_iterator_settled_equal g _ it rfl rfl rfl rfl hs).2 hr,
      it.increment g, rfl, (vertex_iterator_step g it hs hr).1,
      (vertex_iterator_step g it hs hr).2⟩)
    fuel _ hset (by rw [hrem]; exact hfuel)
  rw [hrem] at key
  simp only [count_vertices, vertices, hb]
  exact key

/-- Witness of X1 on scenario S3: 3 road nodes and 2 PT stops, 5 steps. -/
theorem count_vertices_eq_num_vertices_witness :
    (graph_s3.public_transports.iter[0]?).map Prod.fst = some 1 ∧
    num_vertices graph_s3 = 5 ∧ count_vertices graph_s3 6 = some (num_vertices graph_s3) :=
  ⟨by decide, by decide,
    count_vertices_eq_num_vertices graph_s3
      (1, PublicTransport.Graph.mk
        [PublicTransport.StoredVertex.mk [1] (PublicTransport.Stop.mk 100 (Road.Edge.mk 0 1 0)),
         PublicTransport.StoredVertex.mk [] (PublicTransport.Stop.mk 101 (Road.Edge.mk 1 2 1))])
      6 (by decide) (by decide) (by decide)⟩

/-! ### Connection types -/

/-- C12: `Edge::connection_type()` depends only on the variant tags of source and target:
    (Road, Road) gives Road2Road, (Road, PublicTransport) Road2Transport, (PublicTransport,
    Road) Transport2Road, (PublicTransport, PublicTransport) Transport2Transport, (Road, Poi)
    Road2Poi, (Poi, Road) Poi2Road, and each of (PublicTransport, Poi), (Poi,
    PublicTransport), (Poi, Poi) gives UnknownConnection. -/
theorem connection_type_table (e : Edge) :
    e.connection_type =
      match e.source.type, e.target.type with
      | VertexType.Road, VertexType.Road => ConnectionType.Road2Road
      | VertexType.Road, VertexType.PublicTransport => ConnectionType.Road2Transport
      | VertexType.PublicTransport, VertexType.Road => ConnectionType.Transport2Road
      | VertexType.PublicTransport, VertexType.PublicTransport =>
        ConnectionType.Transport2Transport
      | VertexType.Road, VertexType.Poi => ConnectionType.Road2Poi
      | VertexType.Poi, VertexType.Road => ConnectionType.Poi2Road
      | VertexType.PublicTransport, VertexType.Poi => ConnectionType.UnknownConnection
      | VertexType.Poi, VertexType.PublicTransport => ConnectionType.UnknownConnection
      | VertexType.Poi, VertexType.Poi => ConnectionType.UnknownConnection := by
  obtain ⟨s, t⟩ := e
  cases s <;> cases t <;> rfl

/-- An edge that an `OutEdgeIterator` yields has a known connection type. -/
theorem out_edge_dereference_known (g : Graph) (it : OutEdgeIterator) (e : Edge)
    (h : it.dereference g = some e) :
    e.connection_type ≠ ConnectionType.UnknownConnection := by
  unfold OutEdgeIterator.dereference at h
  cases hs : it.source_ with
  | Road rg rv =>
    simp only [hs] at h
    cases he : (Road.out_edges rv g.road)[it.road_it_]? with
    | none => simp [he] at h
    | some re =>
      simp only [he] at h
      split_ifs at h
      · cases hst : (g.road.bundle re).stops[it.road2stop_connection_.toNat]? with
        | none => simp [hst] at h
        | some st =>
          simp only [hst, Option.some.injEq] at h
          subst h
          simp [Edge.connection_type, Vertex.type]
      · cases hp : (g.road.bundle re).pois[it.road2poi_connection_.toNat]? with
        | none => simp [hp] at h
        | some p =>
          simp only [hp, Option.some.injEq] at h
          subst h
          simp [Edge.connection_type, Vertex.type]
      · simp only [Option.some.injEq] at h
        subst h
        simp [Edge.connection_type, Vertex.type]
  | PublicTransport k pv =>
    simp only [hs] at h
    split_ifs at h
    · simp only [Option.some.injEq] at h
      subst h
      simp [Edge.connection_type, Vertex.type]
    · simp only [Option.some.injEq] at h
      subst h
      simp [Edge.connection_type, Vertex.type]
    · cases ht : (PublicTransport.out_edges pv (g.public_transports.deref k))[it.pt_it_]? with
      | none => simp [ht] at h
      | some t =>
        simp only [ht, Option.some.injEq] at h
        subst h
        simp [Edge.connection_type, Vertex.type]
  | Poi p =>
    simp only [hs] at h
    split_ifs at h
    · simp only [Option.some.injEq] at h
      subst h
      simp [Edge.connection_type, Vertex.type]
    · simp only [Option.some.injEq] at h
      subst h
      simp [Edge.connection_type, Vertex.type]

/-- An edge that an `EdgeIterator` yields has a known connection type. -/
theorem edge_dereference_known (g : Graph) (it : EdgeIterator) (e : Edge)
    (h : it.dereference g = some e) :
    e.connection_type ≠ ConnectionType.UnknownConnection := by
  unfold EdgeIterator.dereference at h
  split_ifs at h
  exact out_edge_dereference_known g it.ei_ e h

/-- Every value the collecting loop meets is a value some state dereferences to. -/
theorem collect_mem_dereference {α β : Type} (equal : α → α → Bool) (increment : α → Option α)
    (dereference : α → Option β) (last : α) (P : β → Prop)
    (hd : ∀ it x, dereference it = some x → P x) :
    ∀ fuel it xs, collect equal increment dereference fuel it last = some xs →
      ∀ x ∈ xs, P x := by
  intro fuel it xs h
  exact collect_forall equal increment dereference last (fun _ => True) P
    (fun it x _ hx => hd it x hx) (fun _ _ _ _ => trivial) fuel it xs trivial h

/-! ### Counts -/

/-- C18: `out_degree(v, g)` is, for a road vertex, the sum over its incident road edges `e` of
    (|stops(e)| + |pois(e)| + 1), taken over its out-edge list or, which is the same, over
    the road sections with a section counted once for each of its end points that is the
    vertex; for a PT stop, the number of its outgoing PT edges in its own sub-graph plus 2;
    for a POI, 2.  In scenario S1 (road nodes A, B, C, road edges A-B and B-C, no stops and
    no POIs) `out_degree(A) = 1` and `out_degree(B) = 2`. -/
theorem out_degree_formula :
    (∀ (g : Graph) (rg rv : Nat), out_degree (Vertex.Road rg rv) g =
      ((Road.out_edges rv g.road).map (fun e =>
        (g.road.bundle e).stops.length + (g.road.bundle e).pois.length + 1)).sum) ∧
    (∀ (g : Graph) (rg rv : Nat), out_degree (Vertex.Road rg rv) g =
      (g.road.m_edges.map (fun se =>
        ((if se.m_source = rv then 1 else 0) + (if se.m_target = rv then 1 else 0)) *
          (se.m_property.stops.length + se.m_property.pois.length + 1))).sum) ∧
    (∀ (g : Graph) (k pv : Nat), out_degree (Vertex.PublicTransport k pv) g =
      (PublicTransport.out_edges pv (g.public_transports.deref k)).length + 2) ∧
    (∀ (g : Graph) (p : Nat), out_degree (Vertex.Poi p) g = 2) ∧
    out_degree (Vertex.Road graph_s1.road.addr 0) graph_s1 = 1 ∧
    out_degree (Vertex.Road graph_s1.road.addr 1) graph_s1 = 2 := by
  refine ⟨fun _ _ _ => rfl, ?_, fun _ _ _ => rfl, fun _ _ => rfl, by decide, by decide⟩
  intro g rg rv
  exact out_edges_aux_weight g rv g.road.m_edges 0 (by intro k se hk; simpa using hk)

/-- C20: for every graph `g` and every PT selection, `num_edges(g)` is 2 * |road edges| + the
    sum over the selected PT sub-graphs of (|its edges| + 4 * |its vertices|) + 4 * |POIs|;
    in scenario S3 it is 4 + 1 + 8 = 13. -/
theorem num_edges_formula :
    (∀ g : Graph, num_edges g =
      2 * Road.num_edges g.road +
        ((g.public_transports.m_map.filter
            (fun p => g.public_transports.selection_.contains p.1)).map
          (fun p => PublicTransport.num_edges p.2 + 4 * PublicTransport.num_vertices p.2)).sum +
        4 * g.pois.length) ∧
    2 * Road.num_edges graph_s3.road = 4 ∧
    (graph_s3.public_transports.iter.map (fun p => PublicTransport.num_edges p.2)).sum = 1 ∧
    (graph_s3.public_transports.iter.map
      (fun p => 4 * PublicTransport.num_vertices p.2)).sum = 8 ∧
    num_edges graph_s3 = 13 := by
  refine ⟨?_, by decide, by decide, by decide, by decide⟩
  intro g
  unfold num_edges PublicTransportGraphList.iter
  have h : ∀ l : List (Nat × PublicTransport.Graph),
      (l.map (fun it => PublicTransport.num_edges it.2 +
        PublicTransport.num_vertices it.2 * 4)).sum =
      (l.map (fun p => PublicTransport.num_edges p.2 +
        4 * PublicTransport.num_vertices p.2)).sum := by
    intro l
    congr 1
    apply List.map_congr_left
    intro p _
    ring
  rw [h]
  ring

/-- If a measure is 0 exactly on the states equal to `last`, and every state with a positive
    measure yields the head of what it is still to yield and moves to a state that is to yield
    the tail, the collecting loop returns what the state it starts from is to yield. -/
theorem collect_of_measure {α β : Type} (equal : α → α → Bool) (increment : α → Option α)
    (dereference : α → Option β) (last : α) (Inv : α → Prop) (rem : α → Nat)
    (rest : α → List β)
    (h0 : ∀ it, Inv it → rem it = 0 → equal it last = true ∧ rest it = [])
    (hs : ∀ it, Inv it → rem it ≠ 0 →
      equal it last = false ∧ ∃ next x, increment it = some next ∧ Inv next ∧
        rem next + 1 = rem it ∧ dereference it = some x ∧ rest it = x :: rest next) :
    ∀ fuel it, Inv it → rem it < fuel →
      collect equal increment dereference fuel it last = some (rest it) := by
  intro fuel
  induction fuel with
  | zero => intro it _ h; omega
  | succ n ih =>
    intro it hinv hlt
    by_cases hr : rem it = 0
    · obtain ⟨he, hn⟩ := h0 it hinv hr
      simp [collect, he, hn]
    · obtain ⟨hne, next, x, hnext, hinv2, hrem, hd, hrest⟩ := hs it hinv hr
      have := ih next hinv2 (by omega)
      simp [collect, hne, hnext, hd, this, hrest]

/-- A list from a position on, when the position holds an element. -/
theorem drop_eq_cons_of_get {α : Type} (l : List α) (i : Nat) (x : α) (h : l[i]? = some x) :
    l.drop i = x :: l.drop (i + 1) := by
  induction l generalizing i with
  | nil => simp at h
  | cons a l ih =>
    cases i with
    | zero =>
      simp only [List.getElem?_cons_zero, Option.some.injEq] at h
      subst h
      simp
    | succ i =>
      simp only [List.getElem?_cons_succ] at h
      simpa using ih i h

/-- A list from a position on, when the position holds no element. -/
theorem drop_eq_nil_of_get {α : Type} (l : List α) (i : Nat) (h : l[i]? = none) :
    l.drop i = [] :=
  List.drop_eq_nil_of_le (List.getElem?_eq_none_iff.mp h)

/-- An `OutEdgeIterator` with nothing left is to yield nothing. -/
theorem rest_of_remaining_zero (graph : Graph) (v : Vertex) (it : OutEdgeIterator)
    (hv : it.valid graph v) (hr : it.remaining graph = 0) : it.rest graph = [] := by
  obtain ⟨hs, hg, hrest⟩ := hv
  cases v with
  | Road rg rv =>
    cases hget : (Road.out_edges rv graph.road)[it.road_it_]? with
    | none => simp only [OutEdgeIterator.rest, hs, hget]
    | some e => simp only [OutEdgeIterator.remaining, hs, hget] at hr; omega
  | PublicTransport k pv =>
    obtain ⟨hend, hle, h0, h2, -⟩ := hrest
    simp only [OutEdgeIterator.remaining, hs] at hr
    have h3 : it.stop2road_connection_ = 2 := by omega
    have h4 : it.pt_it_ =
        (PublicTransport.out_edges pv (graph.public_transports.deref k)).length := by omega
    simp [OutEdgeIterator.rest, hs, h3, h4]
  | Poi p =>
    obtain ⟨h0, h2⟩ := hrest
    simp only [OutEdgeIterator.remaining, hs] at hr
    have h3 : it.poi2road_connection_ = 2 := by omega
    simp [OutEdgeIterator.rest, hs, h3]

/-- An `OutEdgeIterator` with something left yields the head of what it is to yield, and its
    increment is to yield the tail. -/
theorem rest_step (graph : Graph) (v : Vertex) (it : OutEdgeIterator)
    (hv : it.valid graph v) (hr : it.remaining graph ≠ 0) :
    ∃ next x, it.increment graph = some next ∧ it.dereference graph = some x ∧
      it.rest graph = x :: next.rest graph := by
  obtain ⟨g_, src, ri, rie, pi, pie, s2r, r2s, r2p, p2r⟩ := it
  obtain ⟨hs, hg, hrest⟩ := hv
  dsimp only at hs
  subst hs
  cases src with
  | Road rg rv =>
    obtain ⟨hend, hle, h0s, h0p, hb⟩ := hrest
    dsimp only at hend hle h0s h0p hb
    obtain ⟨n, rfl⟩ := Int.eq_ofNat_of_zero_le h0s
    obtain ⟨m, rfl⟩ := Int.eq_ofNat_of_zero_le h0p
    cases hget : (Road.out_edges rv graph.road)[ri]? with
    | none => simp [OutEdgeIterator.remaining, hget] at hr
    | some e =>
      obtain ⟨hb1, hb2, hb3⟩ := hb e hget
      by_cases c1 : n < (graph.road.bundle e).stops.length
      · have hm : m = 0 := by
          have := hb3 (by exact_mod_cast c1)
          exact_mod_cast this
        subst hm
        have hstop := drop_eq_cons_of_get (graph.road.bundle e).stops n _
          (List.getElem?_eq_getElem c1)
        refine ⟨OutEdgeIterator.mk g_ (Vertex.Road rg rv) ri rie pi pie s2r ((n : Int) + 1)
            ((0 : Nat) : Int) p2r,
          Edge.mk (Vertex.Road rg rv)
            (Vertex.PublicTransport ((graph.road.bundle e).stops[n]).graph
              ((graph.road.bundle e).stops[n]).vertex), ?_, ?_, ?_⟩
        · simp only [OutEdgeIterator.increment, hget]
          rw [if_pos ⟨h0s, by exact_mod_cast c1⟩]
        · simp only [OutEdgeIterator.dereference, hget]
          rw [if_pos ⟨h0s, by exact_mod_cast c1⟩]
          simp only [Int.toNat_ofNat, List.getElem?_eq_getElem c1]
        · have h1 : ((n : Int) + 1).toNat = n + 1 := by omega
          simp only [OutEdgeIterator.rest, hget, Int.toNat_ofNat, hstop, List.map_cons,
            List.cons_append, h1]
      · have hn : n = (graph.road.bundle e).stops.length := by
          have : n ≤ (graph.road.bundle e).stops.length := by exact_mod_cast hb1
          omega
        have c1i : ¬ ((0 : Int) ≤ (n : Int) ∧
            (n : Int) < ((graph.road.bundle e).stops.length : Int)) := by
          intro h
          exact c1 (by exact_mod_cast h.2)
        have hsd : List.drop n (graph.road.bundle e).stops = [] :=
          List.drop_eq_nil_of_le (by omega)
        by_cases c2 : m < (graph.road.bundle e).pois.length
        · have hpoi := drop_eq_cons_of_get (graph.road.bundle e).pois m _
            (List.getElem?_eq_getElem c2)
          refine ⟨OutEdgeIterator.mk g_ (Vertex.Road rg rv) ri rie pi pie s2r (n : Int)
              ((m : Int) + 1) p2r,
            Edge.mk (Vertex.Road rg rv) (Vertex.Poi ((graph.road.bundle e).pois[m])),
            ?_, ?_, ?_⟩
          · simp only [OutEdgeIterator.increment, hget]
            rw [if_neg c1i, if_pos ⟨h0p, by exact_mod_cast c2⟩]
          · simp only [OutEdgeIterator.dereference, hget]
            rw [if_neg c1i, if_pos ⟨h0p, by exact_mod_cast c2⟩]
            simp only [Int.toNat_ofNat, List.getElem?_eq_getElem c2]
          · have h1 : ((m : Int) + 1).toNat = m + 1 := by omega
            simp only [OutEdgeIterator.rest, hget, Int.toNat_ofNat, hsd, hpoi, List.map_cons,
              List.map_nil, List.nil_append, List.cons_append, h1]
        · have c2i : ¬ ((0 : Int) ≤ (m : Int) ∧
              (m : Int) < ((graph.road.bundle e).pois.length : Int)) := by
            intro h
            exact c2 (by exact_mod_cast h.2)
          have hpd : List.drop m (graph.road.bundle e).pois = [] :=
            List.drop_eq_nil_of_le (by omega)
          refine ⟨OutEdgeIterator.mk g_ (Vertex.Road rg rv) (ri + 1) rie pi pie s2r 0 0 p2r,
            Edge.mk (Vertex.Road rg rv) (Vertex.Road graph.road.addr e.m_target), ?_, ?_, ?_⟩
          · simp only [OutEdgeIterator.increment, hget]
            rw [if_neg c1i, if_neg c2i]
          · simp only [OutEdgeIterator.dereference, hget]
            rw [if_neg c1i, if_neg c2i]
          · cases hget2 : (Road.out_edges rv graph.road)[ri + 1]? with
            | none =>
              simp only [OutEdgeIterator.rest, hget, hget2, Int.toNat_ofNat, hsd, hpd,
                drop_eq_nil_of_get _ _ hget2, List.map_nil, List.nil_append,
                List.flatMap_nil, List.append_nil]
            | some e2 =>
              simp only [OutEdgeIterator.rest, hget, hget2, Int.toNat_ofNat, hsd, hpd,
                drop_eq_cons_of_get _ _ _ hget2, List.map_nil, List.nil_append,
                List.flatMap_cons, List.singleton_append, road_section_edges,
                Int.toNat_zero, List.drop_zero, List.append_assoc]
  | PublicTransport k pv =>
    obtain ⟨hend, hle, h0, h2, h3⟩ := hrest
    dsimp only at hend hle h0 h2 h3
    simp only [OutEdgeIterator.remaining] at hr
    obtain ⟨n, rfl⟩ := Int.eq_ofNat_of_zero_le h0
    by_cases c0 : n = 0
    · subst c0
      have hp : pi = 0 := h3 (by decide)
      subst hp
      exact ⟨OutEdgeIterator.mk g_ (Vertex.PublicTransport k pv) ri rie 0 pie
          (((0 : Nat) : Int) + 1) r2s r2p p2r, _, rfl, rfl, rfl⟩
    · by_cases c1 : n = 1
      · subst c1
        have hp : pi = 0 := h3 (by decide)
        subst hp
        exact ⟨OutEdgeIterator.mk g_ (Vertex.PublicTransport k pv) ri rie 0 pie
            (((1 : Nat) : Int) + 1) r2s r2p p2r, _, rfl, rfl, rfl⟩
      · have c2 : n = 2 := by omega
        subst c2
        have hlt : pi < (PublicTransport.out_edges pv (graph.public_transports.deref k)).length := by
          omega
        have hd := drop_eq_cons_of_get
          (PublicTransport.out_edges pv (graph.public_transports.deref k)) pi _
          (List.getElem?_eq_getElem hlt)
        have hne : pi ≠ pie := by omega
        refine ⟨OutEdgeIterator.mk g_ (Vertex.PublicTransport k pv) ri rie (pi + 1) pie
            ((2 : Nat) : Int) r2s r2p p2r,
          Edge.mk (Vertex.PublicTransport k pv) (Vertex.PublicTransport k
            ((PublicTransport.out_edges pv (graph.public_transports.deref k))[pi])),
          ?_, ?_, ?_⟩
        · simp [OutEdgeIterator.increment, hne]
        · simp [OutEdgeIterator.dereference, List.getElem?_eq_getElem hlt]
        · simp only [OutEdgeIterator.rest, hd, List.map_cons]
          rfl
  | Poi p =>
    obtain ⟨h0, h2⟩ := hrest
    dsimp only at h0 h2
    simp only [OutEdgeIterator.remaining] at hr
    obtain ⟨n, rfl⟩ := Int.eq_ofNat_of_zero_le h0
    by_cases c0 : n = 0
    · subst c0
      exact ⟨OutEdgeIterator.mk g_ (Vertex.Poi p) ri rie pi pie s2r r2s r2p
          (((0 : Nat) : Int) + 1), _, rfl, rfl, rfl⟩
    · have c1 : n = 1 := by omega
      subst c1
      exact ⟨OutEdgeIterator.mk g_ (Vertex.Poi p) ri rie pi pie s2r r2s r2p
          (((1 : Nat) : Int) + 1), _, rfl, rfl, rfl⟩

/-- The begin iterator of `out_edges( v, graph )` is to yield what section 4.1 of the
    specification lists for `v`. -/
theorem construct_rest (graph : Graph) (v : Vertex) :
    (out_edges v graph).1.rest graph = expected_out_edges v graph := by
  cases v with
  | Road rg rv =>
    cases hl : Road.out_edges rv graph.road with
    | nil =>
      simp [OutEdgeIterator.rest, out_edges, OutEdgeIterator.construct, expected_out_edges, hl]
    | cons e es =>
      simp [OutEdgeIterator.rest, out_edges, OutEdgeIterator.construct, expected_out_edges, hl,
        road_section_edges]
  | PublicTransport k pv => rfl
  | Poi p => rfl

/-- With any fuel above the out-degree, the loop over `out_edges( v, g )` returns what section
    4.1 of the specification lists for `v`. -/
theorem out_edge_list_expected (g : Graph) (v : Vertex) (fuel : Nat)
    (hfuel : out_degree v g < fuel) :
    out_edge_list v g fuel = some (expected_out_edges v g) := by
  have key := collect_of_measure OutEdgeIterator.equal (OutEdgeIterator.increment g)
    (OutEdgeIterator.dereference g) (out_edges v g).2 (OutEdgeIterator.valid g v)
    (OutEdgeIterator.remaining g) (OutEdgeIterator.rest g)
    (fun it hv hr => ⟨remaining_zero_equal g v it hv hr, rest_of_remaining_zero g v it hv hr⟩)
    (fun it hv hr => by
      refine ⟨remaining_pos_not_equal g v it hv hr, ?_⟩
      obtain ⟨next, hn, hvn, hrn⟩ := remaining_step g v it hv hr
      obtain ⟨next2, x, hn2, hd, hrest⟩ := rest_step g v it hv hr
      rw [hn] at hn2
      cases hn2
      exact ⟨next, x, hn, hvn, hrn, hd, hrest⟩)
    fuel (out_edges v g).1 (construct_valid g v)
    (by rw [construct_remaining]; exact hfuel)
  rw [construct_rest] at key
  exact key

/-- An out-edge of a road vertex `v` has `v` as its source and designates a road section with
    `v` at one end and the target of the out-edge at the other. -/
theorem out_edges_aux_mem (v : Nat) (es : List Road.StoredEdge) (i : Nat) (e : Road.Edge)
    (h : e ∈ Road.out_edges_aux v es i) :
    e.m_source = v ∧ ∃ (k : Nat) (se : Road.StoredEdge),
      es[k]? = some se ∧ e.m_eproperty = i + k ∧
      ((se.m_source = v ∧ se.m_target = e.m_target) ∨
        (se.m_target = v ∧ se.m_source = e.m_target)) := by
  induction es generalizing i with
  | nil => simp [Road.out_edges_aux] at h
  | cons a es ih =>
    simp only [Road.out_edges_aux, List.mem_append] at h
    rcases h with h | h | h
    · by_cases c : a.m_source = v
      · simp only [c, if_true, List.mem_singleton] at h
        subst h
        exact ⟨rfl, 0, a, by simp, rfl, Or.inl ⟨c, rfl⟩⟩
      · simp [c] at h
    · by_cases c : a.m_target = v
      · simp only [c, if_true, List.mem_singleton] at h
        subst h
        exact ⟨rfl, 0, a, by simp, rfl, Or.inr ⟨c, rfl⟩⟩
      · simp [c] at h
    · obtain ⟨h1, k, se, hk, hp, hse⟩ := ih (i + 1) h
      exact ⟨h1, k + 1, se, by simpa using hk, by omega, hse⟩

/-- C15: for every road vertex `r` of `g`, the loop over `out_edges(r, g)` returns (with any
    fuel above the out-degree), for each road edge `e` incident to `r` taken in the road
    graph's out-edge order: first one Road2Transport edge (r, s) for every PT stop `s` of the
    stops list of `e` in list order, then one Road2Poi edge (r, p) for every POI `p` of the
    pois list of `e` in list order, then the single Road2Road edge (r, r') where `r'` is the
    target of `e` seen from `r`; and nothing else. -/
theorem out_edges_of_road_vertex (g : Graph) (rg r fuel : Nat)
    (hfuel : out_degree (Vertex.Road rg r) g < fuel) :
    out_edge_list (Vertex.Road rg r) g fuel =
      some ((Road.out_edges r g.road).flatMap (fun e =>
        (g.road.bundle e).stops.map
            (fun s => Edge.mk (Vertex.Road rg r) (Vertex.PublicTransport s.graph s.vertex)) ++
          ((g.road.bundle e).pois.map (fun p => Edge.mk (Vertex.Road rg r) (Vertex.Poi p)) ++
            [Edge.mk (Vertex.Road rg r) (Vertex.Road g.road.addr e.m_target)]))) ∧
    (∀ e ∈ Road.out_edges r g.road, e.m_source = r ∧
      ∃ se, g.road.m_edges[e.m_eproperty]? = some se ∧
        ((se.m_source = r ∧ se.m_target = e.m_target) ∨
          (se.m_target = r ∧ se.m_source = e.m_target))) ∧
    (∀ s : PublicTransport.StopPtr,
      (Edge.mk (Vertex.Road rg r) (Vertex.PublicTransport s.graph s.vertex)).connection_type =
        ConnectionType.Road2Transport) ∧
    (∀ p : Nat, (Edge.mk (Vertex.Road rg r) (Vertex.Poi p)).connection_type =
      ConnectionType.Road2Poi) ∧
    (∀ t : Nat, (Edge.mk (Vertex.Road rg r) (Vertex.Road g.road.addr t)).connection_type =
      ConnectionType.Road2Road) := by
  refine ⟨?_, ?_, fun _ => rfl, fun _ => rfl, fun _ => rfl⟩
  · rw [out_edge_list_expected g _ fuel hfuel]
    rfl
  · intro e he
    obtain ⟨h1, k, se, hk, hp, hse⟩ := out_edges_aux_mem r g.road.m_edges 0 e he
    refine ⟨h1, se, ?_, hse⟩
    rw [hp, Nat.zero_add]
    exact hk

/-- Witness of C15 on the road node B of scenario S3: the stop on A-B, the road edge to A, the
    stop on B-C, the road edge to C. -/
theorem out_edges_of_road_vertex_witness :
    out_degree (Vertex.Road 2 1) graph_s3 < 5 ∧
    out_edge_list (Vertex.Road 2 1) graph_s3 5 =
      some [Edge.mk (Vertex.Road 2 1) (Vertex.PublicTransport 1 0),
            Edge.mk (Vertex.Road 2 1) (Vertex.Road 2 0),
            Edge.mk (Vertex.Road 2 1) (Vertex.PublicTransport 1 1),
            Edge.mk (Vertex.Road 2 1) (Vertex.Road 2 2)] :=
  ⟨by decide, (out_edges_of_road_vertex graph_s3 2 1 5 (by decide)).1⟩

/-- C16: for every PT stop `s` of a sub-graph `G` whose road section has source `a` and target
    `b`, the loop over `out_edges(s, g)` returns (with any fuel above the out-degree) exactly:
    the Transport2Road edge (s, a), then the Transport2Road edge (s, b), then one
    Transport2Transport edge (s, s') for every outgoing PT edge (s, s') of `G` in the out-edge
    order of `G`, each target tagged with the same sub-graph `G`. -/
theorem out_edges_of_pt_stop (g : Graph) (k pv fuel : Nat)
    (hfuel : out_degree (Vertex.PublicTransport k pv) g < fuel) :
    out_edge_list (Vertex.PublicTransport k pv) g fuel =
      some (Edge.mk (Vertex.PublicTransport k pv) (Vertex.Road g.road.addr
              ((g.public_transports.deref k).road_section pv).m_source) ::
            Edge.mk (Vertex.PublicTransport k pv) (Vertex.Road g.road.addr
              ((g.public_transports.deref k).road_section pv).m_target) ::
            (PublicTransport.out_edges pv (g.public_transports.deref k)).map
              (fun t => Edge.mk (Vertex.PublicTransport k pv) (Vertex.PublicTransport k t))) ∧
    (∀ a : Nat,
      (Edge.mk (Vertex.PublicTransport k pv) (Vertex.Road g.road.addr a)).connection_type =
        ConnectionType.Transport2Road) ∧
    (∀ t : Nat,
      (Edge.mk (Vertex.PublicTransport k pv) (Vertex.PublicTransport k t)).connection_type =
        ConnectionType.Transport2Transport) := by
  refine ⟨?_, fun _ => rfl, fun _ => rfl⟩
  rw [out_edge_list_expected g _ fuel hfuel]
  rfl

/-- Witness of C16 on stop 0 of scenario S3 (on A-B, one PT section to stop 1). -/
theorem out_edges_of_pt_stop_witness :
    out_degree (Vertex.PublicTransport 1 0) graph_s3 < 4 ∧
    out_edge_list (Vertex.PublicTransport 1 0) graph_s3 4 =
      some [Edge.mk (Vertex.PublicTransport 1 0) (Vertex.Road 2 0),
            Edge.mk (Vertex.PublicTransport 1 0) (Vertex.Road 2 1),
            Edge.mk (Vertex.PublicTransport 1 0) (Vertex.PublicTransport 1 1)] :=
  ⟨by decide, (out_edges_of_pt_stop graph_s3 1 0 4 (by decide)).1⟩

/-- C17: for every POI `p` whose road section has source `a` and target `b`, the loop over
    `out_edges(p, g)` returns (with any fuel above 2) exactly two edges, in this order: the
    Poi2Road edge (p, a) and the Poi2Road edge (p, b). -/
theorem out_edges_of_poi (g : Graph) (p fuel : Nat) (hfuel : 2 < fuel) :
    out_edge_list (Vertex.Poi p) g fuel =
      some [Edge.mk (Vertex.Poi p)
              (Vertex.Road g.road.addr (g.poi_deref p).road_section.m_source),
            Edge.mk (Vertex.Poi p)
              (Vertex.Road g.road.addr (g.poi_deref p).road_section.m_target)] ∧
    (∀ a : Nat, (Edge.mk (Vertex.Poi p) (Vertex.Road g.road.addr a)).connection_type =
      ConnectionType.Poi2Road) := by
  refine ⟨?_, fun _ => rfl⟩
  rw [out_edge_list_expected g (Vertex.Poi p) fuel hfuel]
  rfl

/-- Witness of C17 on the POI of the sample graph with a POI on the section 0-1. -/
theorem out_edges_of_poi_witness :
    2 < 3 ∧
    out_edge_list (Vertex.Poi 7) graph_poi 3 =
      some [Edge.mk (Vertex.Poi 7) (Vertex.Road 2 0),
            Edge.mk (Vertex.Poi 7) (Vertex.Road 2 1)] :=
  ⟨by decide, (out_edges_of_poi graph_poi 7 3 (by decide)).1⟩

/-- C11: every edge met by the loop over `edges(g)`, and every edge met by the loop over
    `out_edges(v, g)` for any vertex `v`, has a `connection_type()` different from
    UnknownConnection; and with any fuel above the out-degree the loop over `out_edges(v, g)`
    does return its edges. -/
theorem connection_type_never_unknown (g : Graph) :
    (∀ fuel es, edge_list g fuel = some es →
      ∀ e ∈ es, e.connection_type ≠ ConnectionType.UnknownConnection) ∧
    (∀ v fuel es, out_edge_list v g fuel = some es →
      ∀ e ∈ es, e.connection_type ≠ ConnectionType.UnknownConnection) ∧
    (∀ v fuel, out_degree v g < fuel → ∃ es, out_edge_list v g fuel = some es ∧
      ∀ e ∈ es, e.connection_type ≠ ConnectionType.UnknownConnection) := by
  have hout : ∀ v fuel es, out_edge_list v g fuel = some es →
      ∀ e ∈ es, e.connection_type ≠ ConnectionType.UnknownConnection := by
    intro v fuel es h
    exact collect_mem_dereference _ _ _ _ _ (out_edge_dereference_known g) fuel _ es h
  refine ⟨?_, hout, ?_⟩
  · intro fuel es h
    unfold edge_list at h
    cases hed : edges g with
    | none => simp [hed] at h
    | some p =>
      simp only [hed] at h
      exact collect_mem_dereference _ _ _ _ _ (edge_dereference_known g) fuel _ es h
  · intro v fuel hfuel
    exact ⟨_, out_edge_list_expected g v fuel hfuel,
      hout v fuel _ (out_edge_list_expected g v fuel hfuel)⟩

/-- Witness of C11 on the graph with one PT stop and one POI: the edge from road node 0 to the
    POI is met by the loop over `edges(g)` and by the loop over the out-edges of road node 0,
    and its connection type is known. -/
theorem connection_type_never_unknown_witness :
    edge_list graph_poi 13 = some ((edge_list graph_poi 13).getD []) ∧
    Edge.mk (Vertex.Road 2 0) (Vertex.Poi 7) ∈ (edge_list graph_poi 13).getD [] ∧
    out_edge_list (Vertex.Road 2 0) graph_poi 4 =
      some ((out_edge_list (Vertex.Road 2 0) graph_poi 4).getD []) ∧
    Edge.mk (Vertex.Road 2 0) (Vertex.Poi 7) ∈
      (out_edge_list (Vertex.Road 2 0) graph_poi 4).getD [] ∧
    out_degree (Vertex.Road 2 0) graph_poi < 4 ∧
    (Edge.mk (Vertex.Road 2 0) (Vertex.Poi 7)).connection_type ≠
      ConnectionType.UnknownConnection ∧
    (Edge.mk (Vertex.Road 2 0) (Vertex.Poi 7)).connection_type ≠
      ConnectionType.UnknownConnection ∧
    (∃ es, out_edge_list (Vertex.Road 2 0) graph_poi 4 = some es ∧
      ∀ e ∈ es, e.connection_type ≠ ConnectionType.UnknownConnection) :=
  ⟨by decide, by decide, by decide, by decide, by decide,
    (connection_type_never_unknown graph_poi).1 13 ((edge_list graph_poi 13).getD [])
      (by decide) (Edge.mk (Vertex.Road 2 0) (Vertex.Poi 7)) (by decide),
    (connection_type_never_unknown graph_poi).2.1 (Vertex.Road 2 0) 4
      ((out_edge_list (Vertex.Road 2 0) graph_poi 4).getD []) (by decide)
      (Edge.mk (Vertex.Road 2 0) (Vertex.Poi 7)) (by decide),
    (connection_type_never_unknown graph_poi).2.2 (Vertex.Road 2 0) 4 (by decide)⟩

/-! ### The sequences of `vertices( g )` and `edges( g )` at concrete graphs -/

/-- C13: on the graph with road nodes 0, 1, the section 0-1, two selected PT networks, the
    first (key 1) without any stop and the second (key 2) with one stop, and one POI (key 7),
    the loop over `vertices(g)` returns, with any fuel above 5, five vertices: the two road
    nodes, the POI, the stop of network 2 and the POI a second time; the specification lists
    four: the two road nodes, the stop, the POI.  The constructor leaves the PT vertex cursor
    at the end of the empty first network, where `dereference` reads the POI cursor. -/
theorem vertex_list_empty_first_network :
    (∀ k, vertex_list graph_empty_first_network (k + 6) =
      some [Vertex.Road 2 0, Vertex.Road 2 1, Vertex.Poi 7, Vertex.PublicTransport 2 0,
        Vertex.Poi 7]) ∧
    (∀ k, k < 6 → vertex_list graph_empty_first_network k = none) ∧
    expected_vertices graph_empty_first_network =
      [Vertex.Road 2 0, Vertex.Road 2 1, Vertex.PublicTransport 2 0, Vertex.Poi 7] ∧
    num_vertices graph_empty_first_network = 4 := by
  refine ⟨fun k => rfl, ?_, by decide, by decide⟩
  decide

/-- C14: on the graph with road nodes 0, 1, 2, the single section 1-2 and one PT network with
    one stop on 1-2, the first vertex of `vertices(g)` (node 0) has out-degree 0 and the begin
    iterator of `edges(g)` stands on it: it does not compare equal to the end iterator while
    its out-edge cursor is at its end, so it is a position of the sequence (the loop takes 7
    steps for 6 edges) and the loop that dereferences every position fails at it, for any
    fuel; the concatenation of the out-edges of the vertices has 6 edges. -/
theorem edge_list_isolated_first_vertex :
    out_degree (Vertex.Road 2 0) graph_isolated_node = 0 ∧
    (vertex_list graph_isolated_node 5).map List.head? = some (some (Vertex.Road 2 0)) ∧
    (edges graph_isolated_node).map (fun p => p.1.equal p.2) = some false ∧
    (edges graph_isolated_node).map (fun p => p.1.ei_.equal p.1.ei_end_) = some true ∧
    (edges graph_isolated_node).map (fun p => p.1.dereference graph_isolated_node) =
      some none ∧
    (∀ fuel, edge_list graph_isolated_node fuel = none) ∧
    (∀ k, count_edges graph_isolated_node (k + 8) = some 7) ∧
    (expected_edges graph_isolated_node).length = 6 ∧
    num_edges graph_isolated_node = 6 := by
  refine ⟨by decide, by decide, by decide, by decide, by decide, ?_, fun k => rfl, by decide,
    by decide⟩
  intro fuel
  cases fuel with
  | zero => rfl
  | succ n => rfl

/-! ### The vertices produced by `vertices( g )` when the first sub-graph has a stop -/

/-- The `while` loop of `VertexIterator::increment` does not change what is still to be
    yielded. -/
theorem next_pt_graph_rest (g : Graph) (fuel : Nat) (it : VertexIterator)
    (hreg : it.regular g) :
    (VertexIterator.next_pt_graph g fuel it).rest g = it.rest g := by
  induction fuel generalizing it with
  | zero => rfl
  | succ n ih =>
    obtain ⟨h1, h2, h3, h4, h5, h6, h7, h8, h9, h10⟩ := hreg
    rw [VertexIterator.next_pt_graph]
    dsimp only
    by_cases c1 : it.pt_it_ = it.pt_it_end_ ∧ it.pt_graph_it_ ≠ it.pt_graph_it_end_
    · rw [if_pos c1]
      obtain ⟨c1a, c1b⟩ := c1
      have hcur : (match g.public_transports.iter[it.pt_graph_it_]? with
          | some p =>
            (List.range' it.pt_it_ (it.pt_it_end_ - it.pt_it_)).map
              (fun i => Vertex.PublicTransport p.1 i)
          | none => []) = [] := by
        cases g.public_transports.iter[it.pt_graph_it_]? with
        | none => rfl
        | some p => simp [c1a]
      by_cases c2 : it.pt_graph_it_ + 1 ≠ it.pt_graph_it_end_
      · rw [if_pos c2]
        have hlt : it.pt_graph_it_ + 1 < g.public_transports.iter.length := by omega
        have hget : g.public_transports.iter[it.pt_graph_it_ + 1]? =
            some (g.public_transports.iter[it.pt_graph_it_ + 1]) :=
          List.getElem?_eq_getElem hlt
        rw [hget]
        dsimp only
        have hreg2 : VertexIterator.regular g
            { it with pt_graph_it_ := it.pt_graph_it_ + 1, pt_it_ := 0,
                      pt_it_end_ := PublicTransport.num_vertices
                        (g.public_transports.iter[it.pt_graph_it_ + 1]).2 } := by
          refine ⟨h1, h2, h3, h4, h5, ?_, Nat.zero_le _, h8, ?_, ?_⟩
          · show it.pt_graph_it_ + 1 ≤ _
            omega
          · intro p hp
            have hp2 : g.public_transports.iter[it.pt_graph_it_ + 1]? = some p := hp
            rw [hget] at hp2
            cases hp2
            rfl
          · intro h
            have h2 : it.pt_graph_it_ + 1 = g.public_transports.iter.length := h
            omega
        rw [ih _ hreg2]
        have hd := drop_eq_cons_of_get _ _ _ hget
        simp only [VertexIterator.rest, hget, hcur, hd, List.flatMap_cons, Nat.sub_zero,
          List.range_eq_range', List.nil_append, List.append_assoc]
      · rw [if_neg c2]
        have c3 : it.pt_graph_it_ + 1 = g.public_transports.iter.length := by omega
        have hnone : g.public_transports.iter[it.pt_graph_it_ + 1]? = none :=
          List.getElem?_eq_none_iff.mpr (by omega)
        have hreg2 : VertexIterator.regular g
            { it with pt_graph_it_ := it.pt_graph_it_ + 1 } := by
          refine ⟨h1, h2, h3, h4, h5, ?_, h7, h8, ?_, ?_⟩
          · show it.pt_graph_it_ + 1 ≤ _
            omega
          · intro p hp
            have hp2 : g.public_transports.iter[it.pt_graph_it_ + 1]? = some p := hp
            rw [hnone] at hp2
            cases hp2
          · intro _
            exact c1a
        rw [ih _ hreg2]
        have hd1 : g.public_transports.iter.drop (it.pt_graph_it_ + 1) = [] :=
          List.drop_eq_nil_of_le (by omega)
        have hd2 : g.public_transports.iter.drop (it.pt_graph_it_ + 1 + 1) = [] :=
          List.drop_eq_nil_of_le (by omega)
        simp only [VertexIterator.rest, hnone, hcur, hd1, hd2]
    · rw [if_neg c1]

/-- A settled `VertexIterator` with nothing left is to yield nothing. -/
theorem vertex_rest_of_remaining_zero (g : Graph) (it : VertexIterator) (hs : it.settled g)
    (hr : it.remaining g = 0) : it.rest g = [] := by
  obtain ⟨⟨h1, h2, h3, h4, h5, h6, h7, h8, h9, h10⟩, h11⟩ := hs
  simp only [VertexIterator.remaining] at hr
  have e1 : g.road.m_vertices - it.road_it_ = 0 := by omega
  have e2 : it.pt_it_end_ - it.pt_it_ = 0 := by omega
  have e3 : g.pois.length ≤ it.poi_it_ := by omega
  have e4 : g.public_transports.iter.length ≤ it.pt_graph_it_ := by
    rcases Nat.lt_or_ge it.pt_graph_it_ g.public_transports.iter.length with h | h
    · have := h11 h
      omega
    · exact h
  have hnone : g.public_transports.iter[it.pt_graph_it_]? = none :=
    List.getElem?_eq_none_iff.mpr e4
  have hd1 : g.public_transports.iter.drop (it.pt_graph_it_ + 1) = [] :=
    List.drop_eq_nil_of_le (by omega)
  have hd2 : g.pois.drop it.poi_it_ = [] := List.drop_eq_nil_of_le e3
  simp [VertexIterator.rest, e1, hnone, hd1, hd2]

/-- A settled `VertexIterator` with something left yields the head of what it is to yield, and
    its increment is to yield the tail. -/
theorem vertex_rest_step (g : Graph) (it : VertexIterator) (hs : it.settled g)
    (hr : it.remaining g ≠ 0) :
    ∃ x, it.dereference g = some x ∧ it.rest g = x :: (it.increment g).rest g := by
  obtain ⟨⟨h1, h2, h3, h4, h5, h6, h7, h8, h9, h10⟩, h11⟩ := hs
  by_cases c1 : it.road_it_ ≠ it.road_it_end_
  · have hinc : it.increment g = { it with road_it_ := it.road_it_ + 1 } := by
      rw [VertexIterator.increment]
      dsimp only
      rw [if_pos c1]
    refine ⟨Vertex.Road g.road.addr it.road_it_, ?_, ?_⟩
    · rw [VertexIterator.dereference, if_pos c1]
    · rw [hinc]
      have e : g.road.m_vertices - it.road_it_ =
          (g.road.m_vertices - (it.road_it_ + 1)) + 1 := by omega
      simp only [VertexIterator.rest]
      rw [e, List.range'_succ]
      rfl
  · have c1b : it.road_it_ = g.road.m_vertices := by omega
    have e1 : g.road.m_vertices - it.road_it_ = 0 := by omega
    by_cases c2 : it.pt_graph_it_ = g.public_transports.iter.length
    · -- among the POIs
      have c3 : ¬ it.pt_it_ ≠ it.pt_it_end_ := not_not.mpr (h10 c2)
      have hd : ((g.public_transports.iter.drop (it.pt_graph_it_ + 1)).map
          (fun p => PublicTransport.num_vertices p.2)).sum = 0 := by
        rw [List.drop_of_length_le (by omega)]
        rfl
      have hrem : it.remaining g = g.pois.length - it.poi_it_ := by
        have := h10 c2
        simp only [VertexIterator.remaining, hd]
        omega
      have c4 : it.poi_it_ ≠ it.poi_it_end_ := by
        intro h
        apply hr
        rw [hrem]
        omega
      have c5 : it.pt_graph_it_ = it.pt_graph_it_end_ := by omega
      have hz : it.pt_graph_it_end_ - it.pt_graph_it_ = 0 := by omega
      have hinc : it.increment g = { it with poi_it_ := it.poi_it_ + 1 } := by
        rw [VertexIterator.increment]
        dsimp only
        rw [if_neg c1, if_neg c3, if_pos c5, if_pos c4]
        dsimp only
        rw [hz]
        rfl
      have hlt : it.poi_it_ < g.pois.length := by omega
      have hget : g.pois[it.poi_it_]? = some (g.pois[it.poi_it_]) :=
        List.getElem?_eq_getElem hlt
      have hnone : g.public_transports.iter[it.pt_graph_it_]? = none :=
        List.getElem?_eq_none_iff.mpr (by omega)
      have hd1 : g.public_transports.iter.drop (it.pt_graph_it_ + 1) = [] :=
        List.drop_eq_nil_of_le (by omega)
      refine ⟨Vertex.Poi (g.pois[it.poi_it_]).1, ?_, ?_⟩
      · rw [VertexIterator.dereference, if_neg c1, if_neg c3, hget]
      · rw [hinc]
        simp only [VertexIterator.rest, e1, hnone, hd1, drop_eq_cons_of_get _ _ _ hget,
          List.range'_zero, List.map_nil, List.nil_append, List.flatMap_nil, List.map_cons]
    · -- among the PT stops
      have c3 : it.pt_it_ < it.pt_it_end_ := h11 (by omega)
      have c4 : it.pt_it_ ≠ it.pt_it_end_ := by omega
      have c5 : ¬ it.pt_graph_it_ = it.pt_graph_it_end_ := by omega
      have hinc : it.increment g =
          VertexIterator.next_pt_graph g (it.pt_graph_it_end_ - it.pt_graph_it_)
            { it with pt_it_ := it.pt_it_ + 1 } := by
        rw [VertexIterator.increment]
        dsimp only
        rw [if_neg c1, if_pos c4]
        dsimp only
        rw [if_neg c5]
      have hreg : VertexIterator.regular g { it with pt_it_ := it.pt_it_ + 1 } := by
        refine ⟨h1, h2, h3, h4, h5, h6, ?_, h8, h9, ?_⟩
        · show it.pt_it_ + 1 ≤ it.pt_it_end_
          omega
        · intro hn
          exact absurd hn c2
      have hlt : it.pt_graph_it_ < g.public_transports.iter.length := by omega
      have hget : g.public_transports.iter[it.pt_graph_it_]? =
          some (g.public_transports.iter[it.pt_graph_it_]) :=
        List.getElem?_eq_getElem hlt
      refine ⟨Vertex.PublicTransport (g.public_transports.iter[it.pt_graph_it_]).1 it.pt_it_,
        ?_, ?_⟩
      · rw [VertexIterator.dereference, if_neg c1, if_pos c4, hget]
      · rw [hinc, next_pt_graph_rest g _ _ hreg]
        have e : it.pt_it_end_ - it.pt_it_ = (it.pt_it_end_ - (it.pt_it_ + 1)) + 1 := by omega
        simp only [VertexIterator.rest, e1, hget, List.range'_zero, List.map_nil,
          List.nil_append]
        rw [e, List.range'_succ]
        rfl

/-- When the first iterated sub-graph has a stop, the begin iterator of `vertices( g )` is to
    yield what section 4.1 of the specification lists. -/
theorem vertex_construct_rest (g : Graph) (b : VertexIterator)
    (p : Nat × PublicTransport.Graph)
    (hb : VertexIterator.construct g = some b)
    (hp : g.public_transports.iter[0]? = some p) :
    b.rest g = expected_vertices g := by
  unfold VertexIterator.construct at hb
  simp only [hp, Option.some.injEq] at hb
  subst hb
  have hd := drop_eq_cons_of_get _ _ _ hp
  rw [List.drop_zero] at hd
  simp only [VertexIterator.rest, expected_vertices, hp, Nat.sub_zero, List.drop_zero,
    Road.num_vertices, List.range_eq_range', Nat.zero_add]
  congr 1
  rw [← List.append_assoc]
  congr 1
  conv_rhs => rw [hd]
  simp only [List.flatMap_cons, List.range_eq_range', Nat.zero_add]

/-- The loop over `vertices( g )` on a graph whose first iterated sub-graph has a stop returns,
    with enough fuel, the vertices of section 4.1 of the specification in order. -/
theorem vertex_list_expected (g : Graph) (p : Nat × PublicTransport.Graph)
    (fuel : Nat) (hp : g.public_transports.iter[0]? = some p)
    (hpos : 0 < PublicTransport.num_vertices p.2) (hfuel : num_vertices g < fuel) :
    vertex_list g fuel =
      some ((List.range (Road.num_vertices g.road)).map (fun i => Vertex.Road g.road.addr i) ++
        (g.public_transports.iter.flatMap (fun q =>
          (List.range (PublicTransport.num_vertices q.2)).map
            (fun i => Vertex.PublicTransport q.1 i)) ++
         g.pois.map (fun q => Vertex.Poi q.1))) := by
  have hb : VertexIterator.construct g = some (VertexIterator.mk g.addr
      0 (Road.num_vertices g.road) 0 g.public_transports.iter.length
      0 (PublicTransport.num_vertices p.2) 0 g.pois.length) := by
    unfold VertexIterator.construct
    rw [hp]
  obtain ⟨hset, hrem⟩ := vertex_iterator_construct_settled g _ p hb hp hpos
  have hrest := vertex_construct_rest g _ p hb hp
  have key := collect_of_measure VertexIterator.equal (fun it => some (it.increment g))
    (VertexIterator.dereference g)
    (VertexIterator.mk g.addr 0 (Road.num_vertices g.road) 0 g.public_transports.iter.length
      0 (PublicTransport.num_vertices p.2) 0 g.pois.length).to_end
    (VertexIterator.settled g) (VertexIterator.remaining g) (VertexIterator.rest g)
    (fun it hs hr =>
      ⟨(vertex_iterator_settled_equal g _ it rfl rfl rfl rfl hs).1 hr,
        vertex_rest_of_remaining_zero g it hs hr⟩)
    (fun it hs hr => by
      refine ⟨(vertex_iterator_settled_equal g _ it rfl rfl rfl rfl hs).2 hr, ?_⟩
      obtain ⟨x, hd, hx⟩ := vertex_rest_step g it hs hr
      obtain ⟨hs2, hr2⟩ := vertex_iterator_step g it hs hr
      exact ⟨it.increment g, x, rfl, hs2, hr2, hd, hx⟩)
    fuel _ hset (by rw [hrem]; exact hfuel)
  rw [hrest] at key
  unfold vertex_list vertices
  rw [hb]
  exact key

/-- X2: when the first PT sub-graph the collection iterates over has at least one stop, the
    loop over `vertices(g)` returns, with any fuel above `num_vertices(g)`, every road vertex
    in the road graph's order, then for each selected PT sub-graph in the order of the
    collection every PT vertex of that sub-graph (tagged with it), then every POI in the
    order of the POI collection, each exactly once. -/
theorem vertex_list_eq_expected (g : Graph) (p : Nat × PublicTransport.Graph)
    (fuel : Nat) (hp : g.public_transports.iter[0]? = some p)
    (hpos : 0 < PublicTransport.num_vertices p.2) (hfuel : num_vertices g < fuel) :
    vertex_list g fuel =
      some ((List.range (Road.num_vertices g.road)).map (fun i => Vertex.Road g.road.addr i) ++
        (g.public_transports.iter.flatMap (fun q =>
          (List.range (PublicTransport.num_vertices q.2)).map
            (fun i => Vertex.PublicTransport q.1 i)) ++
         g.pois.map (fun q => Vertex.Poi q.1))) :=
  vertex_list_expected g p fuel hp hpos hfuel

/-- Witness of X2 on scenario S3: the three road nodes, then the two stops. -/
theorem vertex_list_eq_expected_witness :
    graph_s3.public_transports.iter[0]? = some (1, graph_s3.public_transports.deref 1) ∧
    0 < PublicTransport.num_vertices (graph_s3.public_transports.deref 1) ∧
    num_vertices graph_s3 < 6 ∧
    vertex_list graph_s3 6 =
      some [Vertex.Road 2 0, Vertex.Road 2 1, Vertex.Road 2 2,
        Vertex.PublicTransport 1 0, Vertex.PublicTransport 1 1] :=
  ⟨by decide, by decide, by decide,
    vertex_list_eq_expected graph_s3 (1, graph_s3.public_transports.deref 1) 6
      (by decide) (by decide) (by decide)⟩

/-! ### The edges produced by `edges( g )` when the first vertex has an out-edge -/

/-- With enough fuel the `while` loop of `EdgeIterator::increment` ends on a state that is at
    the end or stands on an edge, and does not change what is still to be yielded. -/
theorem next_vertex_spec (g : Graph) (vend : VertexIterator)
    (hl1 : vend.graph_ = g.addr) (hl2 : vend.road_it_ = g.road.m_vertices)
    (hl3 : vend.pt_graph_it_ = g.public_transports.iter.length)
    (hl4 : vend.poi_it_ = g.pois.length)
    (fuel : Nat) (it : EdgeIterator) (hpos : it.positioned g vend)
    (hfuel : it.vi_.remaining g < fuel) :
    ∃ next, EdgeIterator.next_vertex g fuel it = some next ∧ next.positioned g vend ∧
      (next.vi_.remaining g ≠ 0 → next.ei_.remaining g ≠ 0) ∧
      next.vi_.remaining g ≤ it.vi_.remaining g ∧ next.rest g = it.rest g := by
  induction fuel generalizing it with
  | zero => omega
  | succ n ih =>
    obtain ⟨gr, vi, vie, ei, eie⟩ := it
    obtain ⟨hg, hve, hset, hcur⟩ := hpos
    dsimp only at hg hve hset hcur hfuel
    subst hve
    rw [EdgeIterator.next_vertex]
    dsimp only
    by_cases hr : vi.remaining g = 0
    · have heq := (vertex_iterator_settled_equal g vie vi hl1 hl2 hl3 hl4 hset).1 hr
      rw [if_neg (by rw [heq]; exact fun h => h.2 rfl)]
      exact ⟨_, rfl, ⟨hg, rfl, hset, hcur⟩, fun h => absurd hr h, le_refl _, rfl⟩
    · have hne := (vertex_iterator_settled_equal g vie vi hl1 hl2 hl3 hl4 hset).2 hr
      obtain ⟨v, hderef, hvalid, hend⟩ := hcur hr
      by_cases he : ei.remaining g = 0
      · have heq : ei.equal eie = true := by
          rw [hend]
          exact remaining_zero_equal g v ei hvalid he
        rw [if_pos ⟨heq, by rw [hne]; exact Bool.false_ne_true⟩]
        obtain ⟨hset2, hrem2⟩ := vertex_iterator_step g vi hset hr
        obtain ⟨x, hx, hrest⟩ := vertex_rest_step g vi hset hr
        have hei : ei.rest g = [] := rest_of_remaining_zero g v ei hvalid he
        by_cases hr2 : (vi.increment g).remaining g = 0
        · have heq2 :=
            (vertex_iterator_settled_equal g vie _ hl1 hl2 hl3 hl4 hset2).1 hr2
          rw [if_neg (by rw [heq2]; exact fun h => h rfl)]
          obtain ⟨next, hn, hp, hnz, hle, hr3⟩ := ih
            (EdgeIterator.mk gr (vi.increment g) vie ei eie)
            ⟨hg, rfl, hset2, fun h => absurd hr2 h⟩
            (by show (vi.increment g).remaining g < n; omega)
          refine ⟨next, hn, hp, hnz, ?_, ?_⟩
          · have : next.vi_.remaining g ≤ (vi.increment g).remaining g := hle
            show next.vi_.remaining g ≤ vi.remaining g
            omega
          · rw [hr3]
            simp only [EdgeIterator.rest, hr2, hr, if_true, if_false, hei, hrest,
              List.tail_cons, List.nil_append,
              vertex_rest_of_remaining_zero g _ hset2 hr2, List.flatMap_nil]
        · have hne2 :=
            (vertex_iterator_settled_equal g vie _ hl1 hl2 hl3 hl4 hset2).2 hr2
          rw [if_pos (by rw [hne2]; exact Bool.false_ne_true)]
          obtain ⟨x2, hx2, hrest2⟩ := vertex_rest_step g _ hset2 hr2
          rw [hx2]
          dsimp only
          obtain ⟨next, hn, hp, hnz, hle, hr3⟩ := ih
            (EdgeIterator.mk gr (vi.increment g) vie (out_edges x2 g).1 (out_edges x2 g).2)
            ⟨hg, rfl, hset2, fun _ => ⟨x2, hx2, construct_valid g x2, rfl⟩⟩
            (by show (vi.increment g).remaining g < n; omega)
          refine ⟨next, hn, hp, hnz, ?_, ?_⟩
          · have : next.vi_.remaining g ≤ (vi.increment g).remaining g := hle
            show next.vi_.remaining g ≤ vi.remaining g
            omega
          · rw [hr3]
            simp only [EdgeIterator.rest, hr2, hr, if_false, hei, hrest, List.tail_cons,
              List.nil_append, construct_rest]
            rw [hrest2]
            simp only [List.tail_cons, List.flatMap_cons]
      · have hneq : ei.equal eie = false := by
          rw [hend]
          exact remaining_pos_not_equal g v ei hvalid he
        rw [if_neg (by rw [hneq]; exact fun h => Bool.false_ne_true h.1)]
        exact ⟨_, rfl, ⟨hg, rfl, hset, fun _ => ⟨v, hderef, hvalid, hend⟩⟩, fun _ => he,
          le_refl _, rfl⟩

/-- One turn of the loop over `edges( g )` from a state that stands on an edge: the state is
    not the end, yields the head of what it is to yield, and its increment stands on an edge
    or is at the end and is to yield the tail. -/
theorem edge_iterator_step (g : Graph) (b : VertexIterator) (last : EdgeIterator)
    (hl1 : b.to_end.graph_ = g.addr) (hl2 : b.to_end.road_it_ = g.road.m_vertices)
    (hl3 : b.to_end.pt_graph_it_ = g.public_transports.iter.length)
    (hl4 : b.to_end.poi_it_ = g.pois.length)
    (hlast1 : last.graph_ = g.addr) (hlast2 : last.vi_ = b.to_end)
    (fuel : Nat) (it : EdgeIterator) (hpos : it.positioned g b.to_end)
    (hnz : it.vi_.remaining g ≠ 0 → it.ei_.remaining g ≠ 0)
    (hfuel : it.vi_.remaining g < fuel) (hr : it.vi_.remaining g ≠ 0) :
    it.equal last = false ∧
    ∃ next x, it.increment g fuel = some next ∧
      (next.positioned g b.to_end ∧ (next.vi_.remaining g ≠ 0 → next.ei_.remaining g ≠ 0) ∧
        next.vi_.remaining g < fuel) ∧
      it.dereference g = some x ∧ it.rest g = x :: next.rest g := by
  obtain ⟨gr, vi, vie, ei, eie⟩ := it
  obtain ⟨hg, hve, hset, hcur⟩ := hpos
  dsimp only at hg hve hset hcur hfuel hnz hr
  subst hve
  obtain ⟨v, hderef, hvalid, hend⟩ := hcur hr
  have he := hnz hr
  have hne := (vertex_iterator_settled_equal g b.to_end vi hl1 hl2 hl3 hl4 hset).2 hr
  have hneq : ei.equal eie = false := by
    rw [hend]
    exact remaining_pos_not_equal g v ei hvalid he
  constructor
  · have hg2 : ¬ gr ≠ last.graph_ := by
      rw [hg, hlast1]
      exact fun h => h rfl
    simp only [EdgeIterator.equal]
    rw [if_neg hg2, if_pos (by rw [hne]; exact Bool.false_ne_true), hlast2, hne]
    rfl
  · obtain ⟨ei2, hinc, hvalid2, -⟩ := remaining_step g v ei hvalid he
    obtain ⟨ei3, x, hinc3, hx, hrest⟩ := rest_step g v ei hvalid he
    rw [hinc] at hinc3
    cases hinc3
    obtain ⟨next, hn, hp, hnz2, hle, hr3⟩ := next_vertex_spec g b.to_end hl1 hl2 hl3 hl4 fuel
      (EdgeIterator.mk gr vi b.to_end ei2 eie)
      ⟨hg, rfl, hset, fun _ => ⟨v, hderef, hvalid2, hend⟩⟩ hfuel
    refine ⟨next, x, ?_, ⟨hp, hnz2, ?_⟩, ?_, ?_⟩
    · simp only [EdgeIterator.increment]
      rw [if_pos (by rw [hneq]; exact Bool.false_ne_true), hinc]
      exact hn
    · have : next.vi_.remaining g ≤ vi.remaining g := hle
      omega
    · simp only [EdgeIterator.dereference]
      rw [if_neg (by rw [hneq]; exact Bool.false_ne_true)]
      exact hx
    · rw [hr3]
      simp only [EdgeIterator.rest, hr, if_false, hrest, List.cons_append]

/-- When the first PT sub-graph the collection iterates over has a stop and the first vertex
    of `vertices( g )` has an out-edge, the loop over `edges( g )` returns, with enough fuel,
    what the specification lists. -/
theorem edge_list_expected (g : Graph) (p : Nat × PublicTransport.Graph) (v0 : Vertex)
    (fuel : Nat) (hp : g.public_transports.iter[0]? = some p)
    (hpos : 0 < PublicTransport.num_vertices p.2)
    (hv0 : (expected_vertices g).head? = some v0) (hdeg : 0 < out_degree v0 g)
    (hfuel1 : (expected_edges g).length < fuel) (hfuel2 : num_vertices g < fuel) :
    edge_list g fuel =
      some ((expected_vertices g).flatMap (fun v => expected_out_edges v g)) := by
  have hb : VertexIterator.construct g = some (VertexIterator.mk g.addr
      0 (Road.num_vertices g.road) 0 g.public_transports.iter.length
      0 (PublicTransport.num_vertices p.2) 0 g.pois.length) := by
    unfold VertexIterator.construct
    rw [hp]
  generalize hbdef : VertexIterator.mk g.addr
      0 (Road.num_vertices g.road) 0 g.public_transports.iter.length
      0 (PublicTransport.num_vertices p.2) 0 g.pois.length = b at hb
  have hl1 : b.to_end.graph_ = g.addr := by rw [← hbdef]; rfl
  have hl2 : b.to_end.road_it_ = g.road.m_vertices := by rw [← hbdef]; rfl
  have hl3 : b.to_end.pt_graph_it_ = g.public_transports.iter.length := by rw [← hbdef]; rfl
  have hl4 : b.to_end.poi_it_ = g.pois.length := by rw [← hbdef]; rfl
  have hendeq : b.to_end.equal b.to_end = true := by
    rw [← hbdef]
    simp [VertexIterator.equal, VertexIterator.to_end]
  obtain ⟨hset, hrem⟩ := vertex_iterator_construct_settled g b p hb hp hpos
  have hrestv := vertex_construct_rest g b p hb hp
  have hr : b.remaining g ≠ 0 := by
    intro h
    rw [← hrestv, vertex_rest_of_remaining_zero g b hset h] at hv0
    cases hv0
  obtain ⟨x, hx, hxrest⟩ := vertex_rest_step g b hset hr
  have hxv : x = v0 := by
    rw [← hrestv, hxrest] at hv0
    simpa using hv0
  subst hxv
  have hed : edges g = some
      (EdgeIterator.mk g.addr b b.to_end (out_edges x g).1 (out_edges x g).2,
       (EdgeIterator.mk g.addr b b.to_end (out_edges x g).1 (out_edges x g).2).to_end) := by
    simp only [edges, EdgeIterator.construct, vertices, hb, hx]
  have hrest0 : (EdgeIterator.mk g.addr b b.to_end (out_edges x g).1 (out_edges x g).2).rest g =
      expected_edges g := by
    simp only [EdgeIterator.rest, hr, if_false, construct_rest, expected_edges, ← hrestv,
      hxrest, List.tail_cons, List.flatMap_cons]
  have key := collect_of_measure EdgeIterator.equal (EdgeIterator.increment g fuel)
    (EdgeIterator.dereference g)
    (EdgeIterator.mk g.addr b b.to_end (out_edges x g).1 (out_edges x g).2).to_end
    (fun it => it.positioned g b.to_end ∧
      (it.vi_.remaining g ≠ 0 → it.ei_.remaining g ≠ 0) ∧ it.vi_.remaining g < fuel)
    (fun it => (it.rest g).length) (EdgeIterator.rest g)
    (fun it hinv hz => by
      obtain ⟨hpos2, hnz, -⟩ := hinv
      have hnil : it.rest g = [] := List.length_eq_zero.mp hz
      refine ⟨?_, hnil⟩
      have hvz : it.vi_.remaining g = 0 := by
        by_contra hne
        obtain ⟨v, -, hvalid, -⟩ := hpos2.2.2.2 hne
        obtain ⟨n2, y, -, -, hy⟩ := rest_step g v it.ei_ hvalid (hnz hne)
        simp only [EdgeIterator.rest, hne, if_false, hy, List.cons_append] at hnil
        cases hnil
      have heq := (vertex_iterator_settled_equal g b.to_end it.vi_ hl1 hl2 hl3 hl4
        hpos2.2.2.1).1 hvz
      have hg2 : ¬ it.graph_ ≠ g.addr := by
        rw [hpos2.1]
        exact fun h => h rfl
      simp only [EdgeIterator.equal, EdgeIterator.to_end]
      rw [if_neg hg2, hpos2.2.1, if_neg (by rw [heq]; exact fun h => h rfl)]
      exact hendeq)
    (fun it hinv hnz2 => by
      obtain ⟨hpos2, hnz, hf⟩ := hinv
      have hvr : it.vi_.remaining g ≠ 0 := by
        intro h
        apply hnz2
        simp only [EdgeIterator.rest, h, if_true, List.length_nil]
      obtain ⟨hne, next, y, hinc, hinv2, hd, hrest⟩ := edge_iterator_step g b
        (EdgeIterator.mk g.addr b b.to_end (out_edges x g).1 (out_edges x g).2).to_end
        hl1 hl2 hl3 hl4 rfl rfl fuel it hpos2 hnz hf hvr
      refine ⟨hne, next, y, hinc, hinv2, ?_, hd, hrest⟩
      show (next.rest g).length + 1 = (it.rest g).length
      rw [hrest]
      rfl)
    fuel (EdgeIterator.mk g.addr b b.to_end (out_edges x g).1 (out_edges x g).2)
    ⟨⟨rfl, rfl, hset, fun _ => ⟨x, hx, construct_valid g x, rfl⟩⟩,
      fun _ => by
        show (out_edges x g).1.remaining g ≠ 0
        rw [construct_remaining]
        omega,
      by
        show b.remaining g < fuel
        rw [hrem]
        exact hfuel2⟩
    (by
      show ((EdgeIterator.mk g.addr b b.to_end (out_edges x g).1 (out_edges x g).2).rest
        g).length < fuel
      rw [hrest0]
      exact hfuel1)
  rw [hrest0] at key
  unfold edge_list
  rw [hed]
  exact key

/-- X3: when the first PT sub-graph the collection iterates over has at least one stop and
    the first vertex of `vertices(g)` has an out-edge, the loop over `edges(g)` returns, with
    enough fuel, the out-edge sequences `out_edges(v, g)` of the vertices `v` of
    `vertices(g)`, in order, put end to end; the vertices of out-degree zero after the first
    contribute nothing. -/
theorem edge_list_eq_expected (g : Graph) (p : Nat × PublicTransport.Graph) (v0 : Vertex)
    (fuel : Nat) (hp : g.public_transports.iter[0]? = some p)
    (hpos : 0 < PublicTransport.num_vertices p.2)
    (hv0 : (expected_vertices g).head? = some v0) (hdeg : 0 < out_degree v0 g)
    (hfuel1 : (expected_edges g).length < fuel) (hfuel2 : num_vertices g < fuel) :
    edge_list g fuel =
      some ((expected_vertices g).flatMap (fun v => expected_out_edges v g)) := by
  rw [edge_list_expected g p v0 fuel hp hpos hv0 hdeg hfuel1 hfuel2]

/-- Witness of X3 on scenario S3: the 13 edges of the graph, vertex by vertex. -/
theorem edge_list_eq_expected_witness :
    graph_s3.public_transports.iter[0]? = some (1, graph_s3.public_transports.deref 1) ∧
    0 < PublicTransport.num_vertices (graph_s3.public_transports.deref 1) ∧
    (expected_vertices graph_s3).head? = some (Vertex.Road 2 0) ∧
    0 < out_degree (Vertex.Road 2 0) graph_s3 ∧
    (expected_edges graph_s3).length < 14 ∧ num_vertices graph_s3 < 14 ∧
    edge_list graph_s3 14 =
      some ((expected_vertices graph_s3).flatMap (fun v => expected_out_edges v graph_s3)) ∧
    ((expected_vertices graph_s3).flatMap (fun v => expected_out_edges v graph_s3)).length =
      13 :=
  ⟨by decide, by decide, by decide, by decide, by decide, by decide,
    edge_list_eq_expected graph_s3 (1, graph_s3.public_transports.deref 1) (Vertex.Road 2 0)
      14 (by decide) (by decide) (by decide) (by decide) (by decide) (by decide),
    by decide⟩

/-! ### Equality of iterators -/

/-- A `VertexIterator` compares equal to itself. -/
theorem vertex_iterator_equal_self (it : VertexIterator) : it.equal it = true := by
  simp [VertexIterator.equal]

/-- An `OutEdgeIterator` compares equal to itself. -/
theorem out_edge_iterator_equal_self (it : OutEdgeIterator) : it.equal it = true := by
  by_cases h : it.road_it_ = it.road_it_end_ <;>
    simp [OutEdgeIterator.equal, vertex_operator_ne_self, h]

/-- When `edges( g )` returns, the begin iterator stands on the first vertex and the end
    iterator is the begin iterator moved to the end. -/
theorem edges_eq_some (g : Graph) (p : Nat × PublicTransport.Graph)
    (hp : g.public_transports.iter[0]? = some p)
    (h : 0 < g.road.m_vertices ∨ 0 < PublicTransport.num_vertices p.2 ∨ g.pois ≠ []) :
    ∃ b, edges g = some (b, b.to_end) := by
  have hb : VertexIterator.construct g = some (VertexIterator.mk g.addr
      0 (Road.num_vertices g.road) 0 g.public_transports.iter.length
      0 (PublicTransport.num_vertices p.2) 0 g.pois.length) := by
    unfold VertexIterator.construct
    rw [hp]
  have hd : ∃ v, (VertexIterator.mk g.addr
      0 (Road.num_vertices g.road) 0 g.public_transports.iter.length
      0 (PublicTransport.num_vertices p.2) 0 g.pois.length).dereference g = some v := by
    unfold VertexIterator.dereference
    dsimp only
    by_cases c1 : 0 ≠ Road.num_vertices g.road
    · rw [if_pos c1]
      exact ⟨_, rfl⟩
    · rw [if_neg c1]
      by_cases c2 : 0 ≠ PublicTransport.num_vertices p.2
      · rw [if_pos c2, hp]
        exact ⟨_, rfl⟩
      · rw [if_neg c2]
        have hq : g.pois ≠ [] := by
          rcases h with h | h | h
          · exact absurd (Nat.ne_of_lt h) c1
          · exact absurd (Nat.ne_of_lt h) c2
          · exact h
        cases hpois : g.pois with
        | nil => exact absurd hpois hq
        | cons q rest => exact ⟨Vertex.Poi q.1, by simp⟩
  obtain ⟨v, hv⟩ := hd
  refine ⟨EdgeIterator.mk g.addr
    (VertexIterator.mk g.addr 0 (Road.num_vertices g.road) 0 g.public_transports.iter.length
      0 (PublicTransport.num_vertices p.2) 0 g.pois.length)
    (VertexIterator.mk g.addr 0 (Road.num_vertices g.road) 0 g.public_transports.iter.length
      0 (PublicTransport.num_vertices p.2) 0 g.pois.length).to_end
    (out_edges v g).1 (out_edges v g).2, ?_⟩
  simp only [edges, EdgeIterator.construct, vertices, hb, hv]

/-- C27: for every state of an `EdgeIterator`, after the assignments `vi_ = vi_end_` and
    `ei_ = ei_end_` of `EdgeIterator::to_end` both `vi_ == vi_end_` and `ei_ == ei_end_`
    evaluate to true; in particular for the end iterator of `edges(g)`, which is returned
    for every graph with a first selected PT sub-graph and a first vertex, be it a road
    vertex, a PT stop or a POI. -/
theorem to_end_assertions_hold :
    (∀ it : EdgeIterator,
      it.to_end.vi_.equal it.to_end.vi_end_ = true ∧
      it.to_end.ei_.equal it.to_end.ei_end_ = true) ∧
    (∀ (g : Graph) (b e : EdgeIterator), edges g = some (b, e) →
      e = b.to_end ∧ e.vi_.equal e.vi_end_ = true ∧ e.ei_.equal e.ei_end_ = true) ∧
    (∀ (g : Graph) (p : Nat × PublicTransport.Graph),
      g.public_transports.iter[0]? = some p →
      (0 < g.road.m_vertices ∨ 0 < PublicTransport.num_vertices p.2 ∨ g.pois ≠ []) →
      ∃ b, edges g = some (b, b.to_end)) := by
  refine ⟨fun it => ⟨vertex_iterator_equal_self _, out_edge_iterator_equal_self _⟩, ?_,
    fun g p hp h => edges_eq_some g p hp h⟩
  intro g b e h
  unfold edges at h
  cases hc : EdgeIterator.construct g with
  | none => simp [hc] at h
  | some x =>
    simp only [hc, Option.some.injEq, Prod.mk.injEq] at h
    obtain ⟨h1, h2⟩ := h
    subst h1
    subst h2
    exact ⟨rfl, vertex_iterator_equal_self _, out_edge_iterator_equal_self _⟩

/-- Witness of C27 on scenario S3, whose first vertex is the road node A: `edges(g)` returns
    its pair of iterators. -/
theorem to_end_assertions_hold_witness :
    graph_s3.public_transports.iter[0]? = some (1, graph_s3.public_transports.deref 1) ∧
    (0 < graph_s3.road.m_vertices ∨
      0 < PublicTransport.num_vertices (graph_s3.public_transports.deref 1) ∨
      graph_s3.pois ≠ []) ∧
    (∃ b, edges graph_s3 = some (b, b.to_end)) :=
  ⟨by decide, by decide,
    to_end_assertions_hold.2.2 graph_s3 (1, graph_s3.public_transports.deref 1) (by decide)
      (by decide)⟩

/-- The `while` loop of `VertexIterator::increment` keeps the invariant. -/
theorem next_pt_graph_bounded (g : Graph) (fuel : Nat) (it : VertexIterator)
    (h : it.bounded g) : (VertexIterator.next_pt_graph g fuel it).bounded g := by
  induction fuel generalizing it with
  | zero => exact h
  | succ n ih =>
    obtain ⟨h1, h2, h3, h4, h5, h6⟩ := h
    rw [VertexIterator.next_pt_graph]
    dsimp only
    by_cases c1 : it.pt_it_ = it.pt_it_end_ ∧ it.pt_graph_it_ ≠ it.pt_graph_it_end_
    · rw [if_pos c1]
      obtain ⟨c1a, c1b⟩ := c1
      have hle : it.pt_graph_it_ + 1 ≤ g.public_transports.iter.length := by omega
      by_cases c2 : it.pt_graph_it_ + 1 ≠ it.pt_graph_it_end_
      · rw [if_pos c2]
        cases hget : g.public_transports.iter[it.pt_graph_it_ + 1]? with
        | none =>
          exact ih _ ⟨h1, h2, h3, h4, hle, fun hn => absurd (hn.trans h3.symm) c2⟩
        | some p =>
          exact ih _ ⟨h1, h2, h3, h4, hle, fun hn => absurd (hn.trans h3.symm) c2⟩
      · rw [if_neg c2]
        exact ih _ ⟨h1, h2, h3, h4, hle, fun _ => c1a⟩
    · rw [if_neg c1]
      exact ⟨h1, h2, h3, h4, h5, h6⟩

/-- `VertexIterator::increment` keeps the invariant. -/
theorem vertex_iterator_increment_bounded (g : Graph) (it : VertexIterator)
    (h : it.bounded g) : (it.increment g).bounded g := by
  obtain ⟨h1, h2, h3, h4, h5, h6⟩ := h
  rw [VertexIterator.increment]
  dsimp only
  by_cases c1 : it.road_it_ ≠ it.road_it_end_
  · rw [if_pos c1]
    exact ⟨h1, h2, h3, h4, h5, h6⟩
  · rw [if_neg c1]
    apply next_pt_graph_bounded
    by_cases c2 : it.pt_it_ ≠ it.pt_it_end_
    · have hne : it.pt_graph_it_ ≠ g.public_transports.iter.length := fun hn => c2 (h6 hn)
      have c3 : ¬ it.pt_graph_it_ = it.pt_graph_it_end_ := fun hn => hne (hn.trans h3)
      rw [if_pos c2]
      dsimp only
      rw [if_neg c3]
      exact ⟨h1, h2, h3, h4, h5, fun hn => absurd hn hne⟩
    · rw [if_neg c2]
      by_cases c3 : it.pt_graph_it_ = it.pt_graph_it_end_
      · rw [if_pos c3]
        by_cases c4 : it.poi_it_ ≠ it.poi_it_end_
        · rw [if_pos c4]
          exact ⟨h1, h2, h3, h4, h5, h6⟩
        · rw [if_neg c4]
          exact ⟨h1, h2, h3, h4, h5, h6⟩
      · rw [if_neg c3]
        exact ⟨h1, h2, h3, h4, h5, h6⟩

/-- Every state reached from the begin iterator of `vertices( g )` satisfies the invariant. -/
theorem vertex_iterator_advance_bounded (g : Graph) (n : Nat) (it : VertexIterator)
    (h : it.bounded g) : (VertexIterator.advance g n it).bounded g := by
  induction n generalizing it with
  | zero => exact h
  | succ n ih => exact ih _ (vertex_iterator_increment_bounded g it h)

/-- The two iterators of `vertices( g )`: the begin iterator satisfies the invariant and the
    end iterator has the end cursors of `g`. -/
theorem vertices_bounded (g : Graph) (b e : VertexIterator) (h : vertices g = some (b, e)) :
    b.bounded g ∧ e.graph_ = g.addr ∧ e.road_it_ = g.road.m_vertices ∧
    e.pt_graph_it_ = g.public_transports.iter.length ∧ e.poi_it_ = g.pois.length := by
  unfold vertices VertexIterator.construct at h
  cases hp : g.public_transports.iter[0]? with
  | none => simp [hp] at h
  | some p =>
    simp only [hp, Option.some.injEq, Prod.mk.injEq] at h
    obtain ⟨hb, he⟩ := h
    subst hb
    subst he
    have hlen : 0 < g.public_transports.iter.length := by
      rcases Nat.eq_zero_or_pos g.public_transports.iter.length with h0 | h0
      · rw [List.getElem?_eq_none_iff.mpr (by omega)] at hp
        cases hp
      · exact h0
    refine ⟨⟨rfl, rfl, rfl, rfl, Nat.zero_le _, ?_⟩, rfl, rfl, rfl, rfl⟩
    intro hn
    have hn2 : 0 = g.public_transports.iter.length := hn
    omega

/-- C23: for every graph `g` and every `VertexIterator` state reached from `vertices(g).first`
    by repeated increment, the iterator compares equal to the end iterator
    `vertices(g).second` iff all four of its cursors (road, pt-graph, pt-vertex, poi) are at
    their respective ends. -/
theorem vertex_iterator_at_end_iff (g : Graph) (b e : VertexIterator) (n : Nat)
    (h : vertices g = some (b, e)) :
    (VertexIterator.advance g n b).equal e = true ↔
      ((VertexIterator.advance g n b).road_it_ = (VertexIterator.advance g n b).road_it_end_ ∧
       (VertexIterator.advance g n b).pt_graph_it_ =
         (VertexIterator.advance g n b).pt_graph_it_end_ ∧
       (VertexIterator.advance g n b).pt_it_ = (VertexIterator.advance g n b).pt_it_end_ ∧
       (VertexIterator.advance g n b).poi_it_ = (VertexIterator.advance g n b).poi_it_end_) := by
  obtain ⟨hb, e1, e2, e3, e4⟩ := vertices_bounded g b e h
  obtain ⟨h1, h2, h3, h4, h5, h6⟩ := vertex_iterator_advance_bounded g n b hb
  generalize VertexIterator.advance g n b = it at h1 h2 h3 h4 h5 h6
  have hg : ¬ it.graph_ ≠ e.graph_ := by
    rw [h1, e1]
    exact fun hn => hn rfl
  unfold VertexIterator.equal
  rw [if_neg hg]
  by_cases c1 : it.road_it_ ≠ it.road_it_end_
  · rw [if_pos c1]
    constructor
    · intro heq
      have : it.road_it_ = e.road_it_ := by simpa using heq
      exact absurd (this.trans (e2.trans h2.symm)) c1
    · intro hall
      exact absurd hall.1 c1
  · rw [if_neg c1]
    have c1b : it.road_it_ = it.road_it_end_ := not_not.mp c1
    by_cases c2 : it.pt_graph_it_ ≠ e.pt_graph_it_
    · rw [if_pos c2]
      constructor
      · intro heq
        cases heq
      · intro hall
        exact absurd (hall.2.1.trans (h3.trans e3.symm)) c2
    · rw [if_neg c2]
      have c2b : it.pt_graph_it_ = e.pt_graph_it_ := not_not.mp c2
      have c3 : it.pt_graph_it_ = it.pt_graph_it_end_ := c2b.trans (e3.trans h3.symm)
      rw [if_neg (not_not.mpr c3)]
      constructor
      · intro heq
        have hq : it.poi_it_ = e.poi_it_ := by simpa using heq
        exact ⟨c1b, c3, h6 (c3.trans h3), hq.trans (e4.trans h4.symm)⟩
      · intro hall
        have hq : it.poi_it_ = e.poi_it_ := hall.2.2.2.trans (h4.trans e4.symm)
        simpa using hq

/-- Witness of C23 on scenario S3: after 5 increments all four cursors are at their ends and
    the iterator compares equal to the end iterator; after 4 increments it does not. -/
theorem vertex_iterator_at_end_iff_witness :
    vertices graph_s3 =
      some (VertexIterator.mk 1 0 3 0 1 0 2 0 0, (VertexIterator.mk 1 0 3 0 1 0 2 0 0).to_end) ∧
    VertexIterator.advance graph_s3 5 (VertexIterator.mk 1 0 3 0 1 0 2 0 0) =
      VertexIterator.mk 1 3 3 1 1 2 2 0 0 ∧
    (VertexIterator.advance graph_s3 4 (VertexIterator.mk 1 0 3 0 1 0 2 0 0)).equal
      (VertexIterator.mk 1 0 3 0 1 0 2 0 0).to_end = false ∧
    ((VertexIterator.advance graph_s3 5 (VertexIterator.mk 1 0 3 0 1 0 2 0 0)).equal
        (VertexIterator.mk 1 0 3 0 1 0 2 0 0).to_end = true ↔
      ((VertexIterator.advance graph_s3 5 (VertexIterator.mk 1 0 3 0 1 0 2 0 0)).road_it_ =
          (VertexIterator.advance graph_s3 5
            (VertexIterator.mk 1 0 3 0 1 0 2 0 0)).road_it_end_ ∧
       (VertexIterator.advance graph_s3 5 (VertexIterator.mk 1 0 3 0 1 0 2 0 0)).pt_graph_it_ =
          (VertexIterator.advance graph_s3 5
            (VertexIterator.mk 1 0 3 0 1 0 2 0 0)).pt_graph_it_end_ ∧
       (VertexIterator.advance graph_s3 5 (VertexIterator.mk 1 0 3 0 1 0 2 0 0)).pt_it_ =
          (VertexIterator.advance graph_s3 5
            (VertexIterator.mk 1 0 3 0 1 0 2 0 0)).pt_it_end_ ∧
       (VertexIterator.advance graph_s3 5 (VertexIterator.mk 1 0 3 0 1 0 2 0 0)).poi_it_ =
          (VertexIterator.advance graph_s3 5
            (VertexIterator.mk 1 0 3 0 1 0 2 0 0)).poi_it_end_)) :=
  ⟨by decide, by decide, by decide,
    vertex_iterator_at_end_iff graph_s3 (VertexIterator.mk 1 0 3 0 1 0 2 0 0)
      (VertexIterator.mk 1 0 3 0 1 0 2 0 0).to_end 5 (by decide)⟩

/-- C25: on scenario S3, the begin iterator `a` of `vertices(g)` and the state `b` reached
    from it by three increments (the road cursor at its end, the PT cursors on the first
    stop) do not compare symmetrically: `a.equal(b)` is false, `b.equal(a)` is true.  Past the
    road vertices `equal` compares the PT and POI cursors only, and those of `a` are still at
    their begin. -/
theorem vertex_iterator_equal_not_symmetric :
    ((vertices graph_s3).map (fun p =>
      (VertexIterator.advance graph_s3 0 p.1).equal (VertexIterator.advance graph_s3 3 p.1)))
      = some false ∧
    ((vertices graph_s3).map (fun p =>
      (VertexIterator.advance graph_s3 3 p.1).equal (VertexIterator.advance graph_s3 0 p.1)))
      = some true ∧
    ((vertices graph_s3).map (fun p =>
      (VertexIterator.advance graph_s3 3 p.1).dereference graph_s3))
      = some (some (Vertex.PublicTransport 1 0)) ∧
    ((vertices graph_s3).map (fun p =>
      (VertexIterator.advance graph_s3 0 p.1).dereference graph_s3))
      = some (some (Vertex.Road 2 0)) := by
  decide

/-! ### Edge lookup -/

/-- The loop of `edge( u, v, g )` applies its body to the edges the loop over `edges( g )`
    meets, in order. -/
theorem edge_loop_eq_foldl (g : Graph) (u v : Vertex) (inc_fuel : Nat) (last : EdgeIterator) :
    ∀ (fuel : Nat) (ei : EdgeIterator) (r : Option Edge × Bool),
      edge_loop g u v inc_fuel fuel ei last r =
        (collect EdgeIterator.equal (EdgeIterator.increment g inc_fuel)
          (EdgeIterator.dereference g) fuel ei last).map (fun es => es.foldl (edge_body u v) r) := by
  intro fuel
  induction fuel with
  | zero => intro ei r; rfl
  | succ n ih =>
    intro ei r
    rw [edge_loop, collect]
    by_cases c : ei.equal last = true
    · simp [c]
    · rw [if_neg c, if_neg c]
      cases hd : ei.dereference g with
      | none => rfl
      | some x =>
        cases hi : ei.increment g inc_fuel with
        | none => rfl
        | some next =>
          simp only [ih, Option.map_map]
          rfl

/-- What the body of the loop of `edge( u, v, g )` leaves after a list of edges. -/
theorem edge_body_foldl (u v : Vertex) (es : List Edge) (r : Option Edge × Bool) :
    (((es.foldl (edge_body u v) r).2 = true ↔
      r.2 = true ∨ ∃ e ∈ es, e.source.operator_eq u = true ∧ e.target.operator_eq v = true)) ∧
    ((∃ e ∈ es, e.source.operator_eq u = true ∧ e.target.operator_eq v = true) →
      ∃ e ∈ es, (es.foldl (edge_body u v) r).1 = some e ∧
        e.source.operator_eq u = true ∧ e.target.operator_eq v = true) := by
  induction es generalizing r with
  | nil => simp
  | cons x es ih =>
    simp only [List.foldl_cons]
    obtain ⟨ih1, ih2⟩ := ih (edge_body u v r x)
    by_cases hx : x.source.operator_eq u = true ∧ x.target.operator_eq v = true
    · have hb : edge_body u v r x = (some x, true) := by
        simp [edge_body, hx.1, hx.2]
      constructor
      · rw [ih1, hb]
        simp only [true_or, true_iff]
        exact Or.inr ⟨x, List.mem_cons_self _ _, hx⟩
      · intro _
        by_cases hes : ∃ e ∈ es, e.source.operator_eq u = true ∧ e.target.operator_eq v = true
        · obtain ⟨e, he, h1, h2⟩ := ih2 hes
          exact ⟨e, List.mem_cons_of_mem _ he, h1, h2⟩
        · refine ⟨x, List.mem_cons_self _ _, ?_, hx⟩
          have hkeep : ∀ (l : List Edge) (s : Option Edge × Bool),
              (¬ ∃ e ∈ l, e.source.operator_eq u = true ∧ e.target.operator_eq v = true) →
              l.foldl (edge_body u v) s = s := by
            intro l
            induction l with
            | nil => intro s _; rfl
            | cons y l ihl =>
              intro s hno
              have hy : ¬ (y.source.operator_eq u = true ∧ y.target.operator_eq v = true) :=
                fun h => hno ⟨y, List.mem_cons_self _ _, h⟩
              have hby : edge_body u v s y = s := by
                unfold edge_body
                rw [if_neg]
                simpa using hy
              rw [List.foldl_cons, hby]
              exact ihl s (fun ⟨e, he, h⟩ => hno ⟨e, List.mem_cons_of_mem _ he, h⟩)
          rw [hkeep es _ hes, hb]
    · have hb : edge_body u v r x = r := by
        unfold edge_body
        rw [if_neg]
        simpa using hx
      rw [hb] at ih1 ih2
      rw [hb]
      constructor
      · rw [ih1]
        constructor
        · rintro (h | ⟨e, he, h⟩)
          · exact Or.inl h
          · exact Or.inr ⟨e, List.mem_cons_of_mem _ he, h⟩
        · rintro (h | ⟨e, he, h⟩)
          · exact Or.inl h
          · rcases List.mem_cons.mp he with rfl | he2
            · exact absurd h hx
            · exact Or.inr ⟨e, he2, h⟩
      · rintro ⟨e, he, h⟩
        rcases List.mem_cons.mp he with rfl | he2
        · exact absurd h hx
        · obtain ⟨e2, he3, h1, h2⟩ := ih2 ⟨e, he2, h⟩
          exact ⟨e2, List.mem_cons_of_mem _ he3, h1, h2⟩

/-- C22: for every graph `g` and vertices `u`, `v`: whenever the loop over `edges(g)` returns
    its edges, `edge(u, v, g)` returns, with found = true iff some edge `e` produced by
    `edges(g)` has `source(e) == u` and `target(e) == v`, and whenever found is true the
    returned edge is an edge of `edges(g)` with source `== u` and target `== v`; when the
    loop over `edges(g)` fails, so does `edge(u, v, g)`. -/
theorem edge_found_iff (g : Graph) (u v : Vertex) (fuel : Nat) :
    (∀ es, edge_list g fuel = some es →
      ∃ r, edge u v g fuel = some r ∧
        (r.2 = true ↔
          ∃ e ∈ es, e.source.operator_eq u = true ∧ e.target.operator_eq v = true) ∧
        (r.2 = true →
          ∃ e ∈ es, r.1 = some e ∧
            e.source.operator_eq u = true ∧ e.target.operator_eq v = true)) ∧
    (edge_list g fuel = none → edge u v g fuel = none) := by
  unfold edge edge_list
  cases hed : edges g with
  | none => simp
  | some p =>
    obtain ⟨ei, ei_end⟩ := p
    simp only [edge_loop_eq_foldl]
    constructor
    · intro es hes
      rw [hes]
      obtain ⟨h1, h2⟩ := edge_body_foldl u v es (none, false)
      refine ⟨_, rfl, ?_, ?_⟩
      · rw [h1]
        simp
      · intro hf
        apply h2
        rw [h1] at hf
        simpa using hf
    · intro hn
      rw [hn]
      rfl

/-- Witness of C22 on scenario S3: the edge from the road node A to the stop on A-B is found,
    and there is no edge from A to C. -/
theorem edge_found_iff_witness :
    edge_list graph_s3 14 = some (expected_edges graph_s3) ∧
    edge (Vertex.Road 2 0) (Vertex.PublicTransport 1 0) graph_s3 14 =
      some (some (Edge.mk (Vertex.Road 2 0) (Vertex.PublicTransport 1 0)), true) ∧
    edge (Vertex.Road 2 0) (Vertex.Road 2 2) graph_s3 14 = some (none, false) ∧
    (∃ r, edge (Vertex.Road 2 0) (Vertex.PublicTransport 1 0) graph_s3 14 = some r ∧
      (r.2 = true ↔
        ∃ e ∈ expected_edges graph_s3,
          e.source.operator_eq (Vertex.Road 2 0) = true ∧
          e.target.operator_eq (Vertex.PublicTransport 1 0) = true) ∧
      (r.2 = true →
        ∃ e ∈ expected_edges graph_s3, r.1 = some e ∧
          e.source.operator_eq (Vertex.Road 2 0) = true ∧
          e.target.operator_eq (Vertex.PublicTransport 1 0) = true)) :=
  ⟨by decide, by decide, by decide,
    (edge_found_iff graph_s3 (Vertex.Road 2 0) (Vertex.PublicTransport 1 0) 14).1
      (expected_edges graph_s3) (by decide)⟩

/-! ### Pairing of the cross-layer edges -/

/-- Every road section with `v` at one end gives an out-edge of `v`. -/
theorem out_edges_aux_complete (v : Nat) (es : List Road.StoredEdge) (i k : Nat)
    (se : Road.StoredEdge) (hk : es[k]? = some se)
    (hv : se.m_source = v ∨ se.m_target = v) :
    ∃ e ∈ Road.out_edges_aux v es i, e.m_eproperty = i + k := by
  induction es generalizing i k with
  | nil => simp at hk
  | cons a es ih =>
    cases k with
    | zero =>
      simp only [List.getElem?_cons_zero, Option.some.injEq] at hk
      subst hk
      rcases hv with hv | hv
      · exact ⟨Road.Edge.mk v a.m_target i, by simp [Road.out_edges_aux, hv], rfl⟩
      · exact ⟨Road.Edge.mk v a.m_source i, by simp [Road.out_edges_aux, hv], rfl⟩
    | succ k =>
      simp only [List.getElem?_cons_succ] at hk
      obtain ⟨e, he, hp⟩ := ih (i + 1) k hk
      refine ⟨e, ?_, by omega⟩
      simp only [Road.out_edges_aux, List.mem_append]
      exact Or.inr (Or.inr he)

/-- The road vertex `r` has an out-edge on the section a descriptor of the road graph
    designates iff `r` is one of the two end points of the descriptor. -/
theorem out_edge_on_section_iff (g : Graph) (d : Road.Edge) (r : Nat)
    (hd : g.is_road_edge d) :
    (∃ e ∈ Road.out_edges r g.road, e.m_eproperty = d.m_eproperty) ↔
      (r = d.m_source ∨ r = d.m_target) := by
  obtain ⟨se, hse, hends⟩ := hd
  constructor
  · rintro ⟨e, he, hp⟩
    obtain ⟨-, k, se2, hk, hpk, hinc⟩ := out_edges_aux_mem r g.road.m_edges 0 e he
    have hk2 : g.road.m_edges[d.m_eproperty]? = some se2 := by
      rw [← hp, hpk, Nat.zero_add]
      exact hk
    rw [hse] at hk2
    cases hk2
    rcases hends with ⟨h1, h2⟩ | ⟨h1, h2⟩ <;> rcases hinc with ⟨h3, -⟩ | ⟨h3, -⟩
    · exact Or.inl (h3.symm.trans h1)
    · exact Or.inr (h3.symm.trans h2)
    · exact Or.inr (h3.symm.trans h1)
    · exact Or.inl (h3.symm.trans h2)
  · intro hr
    have hv : se.m_source = r ∨ se.m_target = r := by
      rcases hends with ⟨h1, h2⟩ | ⟨h1, h2⟩ <;> rcases hr with hr | hr
      · exact Or.inl (h1.trans hr.symm)
      · exact Or.inr (h2.trans hr.symm)
      · exact Or.inr (h2.trans hr.symm)
      · exact Or.inl (h1.trans hr.symm)
    obtain ⟨e, he, hp⟩ := out_edges_aux_complete r g.road.m_edges 0 d.m_eproperty se hse hv
    exact ⟨e, he, by rw [hp, Nat.zero_add]⟩

/-- The section an out-edge of a road vertex designates is a section of the road graph, and
    `road[e]` is its bundle. -/
theorem bundle_of_out_edge (g : Graph) (r : Nat) (e : Road.Edge)
    (he : e ∈ Road.out_edges r g.road) :
    ∃ se, g.road.m_edges[e.m_eproperty]? = some se ∧ g.road.bundle e = se.m_property := by
  obtain ⟨-, k, se, hk, hpk, -⟩ := out_edges_aux_mem r g.road.m_edges 0 e he
  have hk2 : g.road.m_edges[e.m_eproperty]? = some se := by
    rw [hpk, Nat.zero_add]
    exact hk
  exact ⟨se, hk2, by simp only [Road.Graph.bundle, hk2]⟩

/-- The out-edges of a road vertex hold the edge to a PT stop iff the stop is on the stops
    list of one of its out-edges. -/
theorem road_to_stop_mem (g : Graph) (r k pv : Nat) :
    Edge.mk (Vertex.Road g.road.addr r) (Vertex.PublicTransport k pv) ∈
        expected_out_edges (Vertex.Road g.road.addr r) g ↔
      ∃ e ∈ Road.out_edges r g.road,
        PublicTransport.StopPtr.mk k pv ∈ (g.road.bundle e).stops := by
  have hstop : ∀ l : List PublicTransport.StopPtr,
      (∃ a ∈ l, a.graph = k ∧ a.vertex = pv) ↔ PublicTransport.StopPtr.mk k pv ∈ l := by
    intro l
    constructor
    · rintro ⟨a, ha, h1, h2⟩
      cases a
      simp only at h1 h2
      subst h1
      subst h2
      exact ha
    · intro h
      exact ⟨_, h, rfl, rfl⟩
  simp [expected_out_edges, road_section_edges, hstop]

/-- The out-edges of a road vertex hold the edge to a POI iff the POI is on the pois list of
    one of its out-edges. -/
theorem road_to_poi_mem (g : Graph) (r p : Nat) :
    Edge.mk (Vertex.Road g.road.addr r) (Vertex.Poi p) ∈
        expected_out_edges (Vertex.Road g.road.addr r) g ↔
      ∃ e ∈ Road.out_edges r g.road, p ∈ (g.road.bundle e).pois := by
  simp [expected_out_edges, road_section_edges]

/-- C26: cross-layer connections are paired.  In a graph `g` where the PT stop `s` is on the
    stops list of a road section iff it is the road section `s` references (a road edge of
    `g`), for every road vertex `r` the loop over `out_edges(r, g)` returns the Road2Transport
    edge (r, s) iff the loop over `out_edges(s, g)` returns the Transport2Road edge (s, r);
    and where the POI `p` is on the pois list of a road section iff it is the road section
    `p` references, the loop over `out_edges(r, g)` returns the Road2Poi edge (r, p) iff the
    loop over `out_edges(p, g)` returns the Poi2Road edge (p, r). -/
theorem cross_layer_edges_paired (g : Graph) (r : Nat) :
    (∀ (k pv fuel : Nat),
      g.is_road_edge ((g.public_transports.deref k).road_section pv) →
      g.stop_listed_on_its_section k pv →
      out_degree (Vertex.Road g.road.addr r) g < fuel →
      out_degree (Vertex.PublicTransport k pv) g < fuel →
      ∃ es_r es_s,
        out_edge_list (Vertex.Road g.road.addr r) g fuel = some es_r ∧
        out_edge_list (Vertex.PublicTransport k pv) g fuel = some es_s ∧
        (Edge.mk (Vertex.Road g.road.addr r) (Vertex.PublicTransport k pv) ∈ es_r ↔
          Edge.mk (Vertex.PublicTransport k pv) (Vertex.Road g.road.addr r) ∈ es_s) ∧
        (Edge.mk (Vertex.Road g.road.addr r) (Vertex.PublicTransport k pv)).connection_type =
          ConnectionType.Road2Transport ∧
        (Edge.mk (Vertex.PublicTransport k pv) (Vertex.Road g.road.addr r)).connection_type =
          ConnectionType.Transport2Road) ∧
    (∀ (p fuel : Nat),
      g.is_road_edge (g.poi_deref p).road_section →
      g.poi_listed_on_its_section p →
      out_degree (Vertex.Road g.road.addr r) g < fuel → 2 < fuel →
      ∃ es_r es_p,
        out_edge_list (Vertex.Road g.road.addr r) g fuel = some es_r ∧
        out_edge_list (Vertex.Poi p) g fuel = some es_p ∧
        (Edge.mk (Vertex.Road g.road.addr r) (Vertex.Poi p) ∈ es_r ↔
          Edge.mk (Vertex.Poi p) (Vertex.Road g.road.addr r) ∈ es_p) ∧
        (Edge.mk (Vertex.Road g.road.addr r) (Vertex.Poi p)).connection_type =
          ConnectionType.Road2Poi ∧
        (Edge.mk (Vertex.Poi p) (Vertex.Road g.road.addr r)).connection_type =
          ConnectionType.Poi2Road) := by
  constructor
  · intro k pv fuel hd hl hf1 hf2
    refine ⟨_, _, out_edge_list_expected g _ fuel hf1, out_edge_list_expected g _ fuel hf2,
      ?_, rfl, rfl⟩
    rw [road_to_stop_mem]
    have hrhs : Edge.mk (Vertex.PublicTransport k pv) (Vertex.Road g.road.addr r) ∈
          expected_out_edges (Vertex.PublicTransport k pv) g ↔
        (r = ((g.public_transports.deref k).road_section pv).m_source ∨
          r = ((g.public_transports.deref k).road_section pv).m_target) := by
      simp [expected_out_edges]
    rw [hrhs, ← out_edge_on_section_iff g _ r hd]
    constructor
    · rintro ⟨e, he, hs⟩
      obtain ⟨se, hse, hb⟩ := bundle_of_out_edge g r e he
      rw [hb] at hs
      exact ⟨e, he, ((hl _ se hse).mp hs).symm⟩
    · rintro ⟨e, he, hp⟩
      obtain ⟨se, hse, hb⟩ := bundle_of_out_edge g r e he
      refine ⟨e, he, ?_⟩
      rw [hb]
      exact (hl _ se hse).mpr hp.symm
  · intro p fuel hd hl hf1 hf2
    refine ⟨_, _, out_edge_list_expected g _ fuel hf1,
      out_edge_list_expected g (Vertex.Poi p) fuel hf2, ?_, rfl, rfl⟩
    have hrhs : Edge.mk (Vertex.Poi p) (Vertex.Road g.road.addr r) ∈
          expected_out_edges (Vertex.Poi p) g ↔
        (r = (g.poi_deref p).road_section.m_source ∨
          r = (g.poi_deref p).road_section.m_target) := by
      simp [expected_out_edges]
    rw [road_to_poi_mem, hrhs, ← out_edge_on_section_iff g _ r hd]
    constructor
    · rintro ⟨e, he, hs⟩
      obtain ⟨se, hse, hb⟩ := bundle_of_out_edge g r e he
      rw [hb] at hs
      exact ⟨e, he, ((hl _ se hse).mp hs).symm⟩
    · rintro ⟨e, he, hp⟩
      obtain ⟨se, hse, hb⟩ := bundle_of_out_edge g r e he
      refine ⟨e, he, ?_⟩
      rw [hb]
      exact (hl _ se hse).mpr hp.symm

/-- Witness of C26 on the graph with one PT stop and one POI on the section 0-1: the road node
    0 and the stop are connected in both directions. -/
theorem cross_layer_edges_paired_witness :
    graph_poi.is_road_edge ((graph_poi.public_transports.deref 1).road_section 0) ∧
    graph_poi.stop_listed_on_its_section 1 0 ∧
    out_degree (Vertex.Road graph_poi.road.addr 0) graph_poi < 4 ∧
    out_degree (Vertex.PublicTransport 1 0) graph_poi < 4 ∧
    Edge.mk (Vertex.Road 2 0) (Vertex.PublicTransport 1 0) ∈
      (out_edge_list (Vertex.Road 2 0) graph_poi 4).getD [] ∧
    Edge.mk (Vertex.PublicTransport 1 0) (Vertex.Road 2 0) ∈
      (out_edge_list (Vertex.PublicTransport 1 0) graph_poi 4).getD [] ∧
    (∃ es_r es_s,
      out_edge_list (Vertex.Road graph_poi.road.addr 0) graph_poi 4 = some es_r ∧
      out_edge_list (Vertex.PublicTransport 1 0) graph_poi 4 = some es_s ∧
      (Edge.mk (Vertex.Road graph_poi.road.addr 0) (Vertex.PublicTransport 1 0) ∈ es_r ↔
        Edge.mk (Vertex.PublicTransport 1 0) (Vertex.Road graph_poi.road.addr 0) ∈ es_s) ∧
      (Edge.mk (Vertex.Road graph_poi.road.addr 0)
          (Vertex.PublicTransport 1 0)).connection_type = ConnectionType.Road2Transport ∧
      (Edge.mk (Vertex.PublicTransport 1 0)
          (Vertex.Road graph_poi.road.addr 0)).connection_type =
        ConnectionType.Transport2Road) :=
  have h1 : graph_poi.is_road_edge ((graph_poi.public_transports.deref 1).road_section 0) :=
    ⟨Road.StoredEdge.mk 0 1 (Road.Section.mk [PublicTransport.StopPtr.mk 1 0] [7]), by decide,
      by decide⟩
  have h2 : graph_poi.stop_listed_on_its_section 1 0 := by
    intro i se h
    rcases i with _ | _ | i
    · have hse : se = Road.StoredEdge.mk 0 1
          (Road.Section.mk [PublicTransport.StopPtr.mk 1 0] [7]) := by
        have h0 : graph_poi.road.m_edges[0]? = some (Road.StoredEdge.mk 0 1
          (Road.Section.mk [PublicTransport.StopPtr.mk 1 0] [7])) := by decide
        rw [h0] at h
        exact (Option.some.inj h).symm
      subst hse
      decide
    · have hse : se = Road.StoredEdge.mk 1 2 (Road.Section.mk [] []) := by
        have h0 : graph_poi.road.m_edges[0 + 1]? =
          some (Road.StoredEdge.mk 1 2 (Road.Section.mk [] [])) := by decide
        rw [h0] at h
        exact (Option.some.inj h).symm
      subst hse
      decide
    · have h0 : graph_poi.road.m_edges[i + 1 + 1]? = none := rfl
      rw [h0] at h
      cases h
  ⟨h1, h2, by decide, by decide, by decide, by decide,
    (cross_layer_edges_paired graph_poi 0).1 1 0 4 h1 h2 (by decide) (by decide)⟩

end Multimodal

namespace Plugin

/-! ### Plugin options -/

/-- What `find` returns after `m[name] = value`. -/
theorem map_find_update {V : Type} (dflt : V) (f : V → V) (m : List (String × V))
    (name key : String) :
    map_find (map_update dflt f m name) key =
      if name = key then some (f ((map_find m name).getD dflt)) else map_find m key := by
  induction m with
  | nil =>
    by_cases h : name = key <;> simp [map_update, map_find, h]
  | cons kv rest ih =>
    by_cases h1 : kv.1 = name
    · by_cases h2 : name = key
      · simp [map_update, map_find, h1, h2]
      · have h3 : ¬ kv.1 = key := fun h => h2 (h1.symm.trans h)
        simp [map_update, map_find, h1, h2, h3]
    · by_cases h2 : name = key
      · have h3 : ¬ kv.1 = key := fun h => h1 (h.trans h2.symm)
        rw [if_pos h2] at ih
        simp only [map_update, map_find, if_neg h1, if_neg h3, if_pos h2, ih]
      · rw [if_neg h2] at ih
        by_cases h3 : kv.1 = key
        · simp only [map_update, map_find, if_neg h1, if_pos h3, if_neg h2]
        · simp only [map_update, map_find, if_neg h1, if_neg h3, if_neg h2, ih]

/-- What `options_.find` returns after one call. -/
theorem find_after_call (p : Plugin) (c : OptionCall) (key : String) :
    map_find (c.apply p).options_ key =
      if c.name = key then some (some c.value) else map_find p.options_ key := by
  cases c with
  | declare name description default_value =>
    simp only [OptionCall.apply, declare_option, OptionCall.name, OptionCall.value,
      map_find_update]
  | set name value =>
    simp only [OptionCall.apply, set_option_value, OptionCall.name, OptionCall.value,
      map_find_update]

/-- After a sequence of calls none of which names `key`, `options_.find( key )` is what it
    was. -/
theorem find_after_other_calls (p : Plugin) (calls : List OptionCall) (key : String)
    (h : ∀ c ∈ calls, c.name ≠ key) :
    map_find (p.run calls).options_ key = map_find p.options_ key := by
  induction calls generalizing p with
  | nil => rfl
  | cons c rest ih =>
    have hc : c.name ≠ key := h c (List.mem_cons_self _ _)
    have hrest : ∀ c2 ∈ rest, c2.name ≠ key := fun c2 h2 => h c2 (List.mem_cons_of_mem _ h2)
    show map_find ((c.apply p).run rest).options_ key = _
    rw [ih (c.apply p) hrest, find_after_call, if_neg hc]

/-- After a sequence of calls the last of which to name `key` is `c`, `options_.find( key )`
    is the value `c` stored. -/
theorem find_after_last_call (p : Plugin) (before after : List OptionCall) (c : OptionCall)
    (key : String) (hc : c.name = key) (h : ∀ c2 ∈ after, c2.name ≠ key) :
    map_find (p.run (before ++ c :: after)).options_ key = some (some c.value) := by
  have hrun : p.run (before ++ c :: after) = (c.apply (p.run before)).run after := by
    simp [run, List.foldl_append]
  rw [hrun, find_after_other_calls _ after key h, find_after_call, if_pos hc]

/-- A name some call of the sequence stores under has a last such call. -/
theorem exists_last_call (calls : List OptionCall) (key : String)
    (h : ∃ c ∈ calls, c.name = key) :
    ∃ before c after, calls = before ++ c :: after ∧ c.name = key ∧
      ∀ c2 ∈ after, c2.name ≠ key := by
  induction calls with
  | nil =>
    obtain ⟨c, hc, -⟩ := h
    cases hc
  | cons a rest ih =>
    by_cases hr : ∃ c ∈ rest, c.name = key
    · obtain ⟨before, c, after, h1, h2, h3⟩ := ih hr
      exact ⟨a :: before, c, after, by rw [h1]; rfl, h2, h3⟩
    · obtain ⟨c, hc, hk⟩ := h
      rcases List.mem_cons.mp hc with rfl | hc2
      · exact ⟨[], c, rest, rfl, hk, fun c2 h2 hn => hr ⟨c2, h2, hn⟩⟩
      · exact absurd ⟨c, hc2, hk⟩ hr

end Plugin


namespace Plugin

/-- C30: on a plugin in which nothing is stored under `name` to start with, after any
    sequence of `declare_option` and `set_option` calls `get_option<T>(name)` throws
    `std::runtime_error` iff no call of the sequence stored a value under `name`; otherwise,
    when the value last stored under `name` (the default value of a `declare_option` or the
    value of a `set_option`) is a `T`, it returns exactly that value. -/
theorem get_option_throws_iff (p0 : Plugin) (calls : List OptionCall) (T : OptionType)
    (name : String) (h0 : map_find p0.options_ name = none) :
    ((∃ what, (p0.run calls).get_option T name =
        Except.error (Exception.runtime_error what)) ↔
      ∀ c ∈ calls, c.name ≠ name) ∧
    (∀ before c after, calls = before ++ c :: after → c.name = name →
      (∀ c2 ∈ after, c2.name ≠ name) → c.value.type = T →
      (p0.run calls).get_option T name = Except.ok (some c.value)) := by
  constructor
  · constructor
    · rintro ⟨what, hw⟩ c hc hn
      obtain ⟨before, c2, after, h1, h2, h3⟩ := exists_last_call calls name ⟨c, hc, hn⟩
      have hf := find_after_last_call p0 before after c2 name h2 h3
      rw [← h1] at hf
      simp only [get_option, get_option_ref, hf, any_cast] at hw
      split_ifs at hw
      cases hw
    · intro hno
      have hf := find_after_other_calls p0 calls name hno
      rw [h0] at hf
      exact ⟨"get_option(): cannot find option " ++ name,
        by simp only [get_option, get_option_ref, hf]⟩
  · intro before c after h1 h2 h3 h4
    have hf := find_after_last_call p0 before after c name h2 h3
    rw [← h1] at hf
    simp only [get_option, get_option_ref, hf, any_cast, h4, if_true]

/-- Witness of C30: after `declare_option( "a", "", 3 )`, `set_option( "a", 5 )` and
    `set_option( "b", true )` on a plugin without options, `get_option<int>( "a" )` is 5 and
    `get_option<int>( "c" )` throws `std::runtime_error`. -/
theorem get_option_throws_iff_witness :
    map_find (Plugin.mk [] []).options_ "a" = none ∧
    ((Plugin.mk [] []).run
        [OptionCall.declare "a" "" (Held.int 3), OptionCall.set "a" (Held.int 5),
         OptionCall.set "b" (Held.bool true)]).get_option OptionType.IntOption "a" =
      Except.ok (some (Held.int 5)) ∧
    ((Plugin.mk [] []).run
        [OptionCall.declare "a" "" (Held.int 3), OptionCall.set "a" (Held.int 5),
         OptionCall.set "b" (Held.bool true)]).get_option OptionType.IntOption "c" =
      Except.error (Exception.runtime_error "get_option(): cannot find option c") ∧
    ((Plugin.mk [] []).run
        [OptionCall.declare "a" "" (Held.int 3), OptionCall.set "a" (Held.int 5),
         OptionCall.set "b" (Held.bool true)]).get_option OptionType.IntOption "a" =
      Except.ok (some (OptionCall.set "a" (Held.int 5)).value) :=
  ⟨rfl, rfl, rfl,
    (get_option_throws_iff (Plugin.mk [] [])
      [OptionCall.declare "a" "" (Held.int 3), OptionCall.set "a" (Held.int 5),
       OptionCall.set "b" (Held.bool true)] OptionType.IntOption "a" rfl).2
      [OptionCall.declare "a" "" (Held.int 3)] (OptionCall.set "a" (Held.int 5))
      [OptionCall.set "b" (Held.bool true)] rfl rfl (by decide) rfl⟩

end Plugin

namespace Multimodal

end Multimodal

namespace WPS

/-! ### Request parsing -/

/-- The two messages of `std::invalid_argument` differ. -/
theorem cannot_find_ne_must_have (s : String) (node : XmlNode) :
    "Cannot find vertex id for " ++ s ≠ must_have_message node := by
  intro h
  have h2 := congrArg String.data h
  simp [must_have_message, String.data_append] at h2

/-- What `get_vertex_id_from_point` does once the attributes have passed the test never is the
    exception of the test. -/
theorem lookup_ne_must_have (ext : Externals) (node : XmlNode) (lookup : Int → Int → Nat)
    (has_vertex : Bool) :
    (if has_vertex = true then
      match ext.lexical_cast_db_id (node.get_prop "vertex") with
      | some id => Except.ok id
      | none => Except.error Exception.bad_lexical_cast
    else
      match ext.lexical_cast_double (node.get_prop "x"),
          ext.lexical_cast_double (node.get_prop "y") with
      | some x, some y =>
        if lookup x y = 0 then
          Except.error (Exception.invalid_argument
            ("Cannot find vertex id for " ++ ext.format_coordinates x y))
        else Except.ok (lookup x y)
      | _, _ => Except.error Exception.bad_lexical_cast) ≠
    (Except.error (Exception.invalid_argument (must_have_message node)) :
      Except Exception Nat) := by
  intro h
  split_ifs at h
  · split at h <;> cases h
  · split at h
    · split_ifs at h
      · injection h with h1
        injection h1 with h2
        exact cannot_find_ne_must_have _ node h2
    · cases h

/-- C28: `get_vertex_id_from_point` and `get_vertex_id_from_point_and_modes` reject exactly
    the same attribute combinations: each throws `std::invalid_argument` ("must have either x
    and y or vertex") iff (x present and y present) == (vertex present), that is each accepts
    exactly the nodes that have either a vertex attribute or both coordinates, but not both
    alternatives; when accepted with a vertex attribute, the returned id is the parsed vertex
    attribute. -/
theorem get_vertex_id_rejects_same (ext : Externals) (node : XmlNode) (modes : List Nat) :
    (get_vertex_id_from_point ext node =
        Except.error (Exception.invalid_argument (must_have_message node)) ↔
      (node.has_prop "x" && node.has_prop "y") = node.has_prop "vertex") ∧
    (get_vertex_id_from_point_and_modes ext node modes =
        Except.error (Exception.invalid_argument (must_have_message node)) ↔
      (node.has_prop "x" && node.has_prop "y") = node.has_prop "vertex") ∧
    ((node.has_prop "x" && node.has_prop "y") ≠ node.has_prop "vertex" ↔
      ((node.has_prop "vertex" = true ∧ ¬ (node.has_prop "x" = true ∧ node.has_prop "y" = true)) ∨
        (node.has_prop "vertex" = false ∧ node.has_prop "x" = true ∧
          node.has_prop "y" = true))) ∧
    (∀ id, node.has_prop "vertex" = true →
      ¬ (node.has_prop "x" = true ∧ node.has_prop "y" = true) →
      ext.lexical_cast_db_id (node.get_prop "vertex") = some id →
      get_vertex_id_from_point ext node = Except.ok id ∧
      get_vertex_id_from_point_and_modes ext node modes = Except.ok id) := by
  have hnat : ∀ a b c : Bool, ((a.toNat &&& b.toNat) ^^^ c.toNat = 0) ↔ ((a && b) = c) := by
    decide
  have hbeq : ∀ a b c : Bool, (((a && b) == c) = true) ↔ ((a && b) = c) := by
    decide
  refine ⟨?_, ?_, ?_, ?_⟩
  · unfold get_vertex_id_from_point
    dsimp only
    constructor
    · intro h
      by_contra hne
      rw [if_neg (fun hc => hne ((hnat _ _ _).mp hc))] at h
      exact lookup_ne_must_have ext node ext.road_vertex_id_from_coordinates _ h
    · intro h
      rw [if_pos ((hnat _ _ _).mpr h)]
  · unfold get_vertex_id_from_point_and_modes
    dsimp only
    constructor
    · intro h
      by_contra hne
      rw [if_neg (fun hc => hne ((hbeq _ _ _).mp hc))] at h
      exact lookup_ne_must_have ext node
        (fun x y => ext.road_vertex_id_from_coordinates_and_modes x y modes) _ h
    · intro h
      rw [if_pos ((hbeq _ _ _).mpr h)]
  · generalize node.has_prop "x" = a
    generalize node.has_prop "y" = b
    generalize node.has_prop "vertex" = c
    revert a b c
    decide
  · intro id hv hxy hcast
    have hne : ¬ ((node.has_prop "x" && node.has_prop "y") = node.has_prop "vertex") := by
      rw [hv]
      intro h
      exact hxy (by simpa using h)
    constructor
    · unfold get_vertex_id_from_point
      dsimp only
      rw [if_neg (fun hc => hne ((hnat _ _ _).mp hc)), if_pos hv, hcast]
    · unfold get_vertex_id_from_point_and_modes
      dsimp only
      rw [if_neg (fun hc => hne ((hbeq _ _ _).mp hc)), if_pos hv, hcast]


/-- Witness of C28: the node with the single attribute `vertex="42"` is accepted by both
    functions, with id 42; the node with `vertex`, `x` and `y` is rejected by both. -/
theorem get_vertex_id_rejects_same_witness :
    (XmlNode.mk [("vertex", "42")] "n").has_prop "vertex" = true ∧
    ¬ ((XmlNode.mk [("vertex", "42")] "n").has_prop "x" = true ∧
      (XmlNode.mk [("vertex", "42")] "n").has_prop "y" = true) ∧
    sample_externals.lexical_cast_db_id ((XmlNode.mk [("vertex", "42")] "n").get_prop "vertex")
      = some 42 ∧
    (get_vertex_id_from_point sample_externals (XmlNode.mk [("vertex", "42")] "n") =
        Except.ok 42 ∧
      get_vertex_id_from_point_and_modes sample_externals (XmlNode.mk [("vertex", "42")] "n")
        [1] = Except.ok 42) ∧
    get_vertex_id_from_point sample_externals
        (XmlNode.mk [("vertex", "42"), ("x", "1"), ("y", "2")] "n") =
      Except.error (Exception.invalid_argument "Node n must have either x and y or vertex") :=
  ⟨by decide, by decide, by decide,
    (get_vertex_id_rejects_same sample_externals (XmlNode.mk [("vertex", "42")] "n") [1]).2.2.2
      42 (by decide) (by decide) (by decide),
    rfl⟩

end WPS

namespace Multimodal

end Multimodal

namespace WPS

/-- C29: in `SelectService::execute`, for every list `M` of allowed modes parsed from the
    request, the walking mode is appended (once, at the end) iff `M` does not contain walking
    and `M` contains either both private car and private bicycle or neither of them;
    otherwise `M` is left unchanged.  Consequently the resulting allowed-mode list is never
    empty, so `allowed_modes()[0]`, used for the origin lookup, is always defined. -/
theorem walking_mode_appended_iff (TransportModeWalking TransportModePrivateBicycle
    TransportModePrivateCar : Nat) (M : List Nat) :
    SelectService.execute_allowed_modes TransportModeWalking TransportModePrivateBicycle
        TransportModePrivateCar M =
      (if TransportModeWalking ∉ M ∧
          ((TransportModePrivateCar ∈ M ∧ TransportModePrivateBicycle ∈ M) ∨
            (TransportModePrivateCar ∉ M ∧ TransportModePrivateBicycle ∉ M)) then
        M ++ [TransportModeWalking]
      else M) ∧
    SelectService.execute_allowed_modes TransportModeWalking TransportModePrivateBicycle
        TransportModePrivateCar M ≠ [] ∧
    (∃ mode, (SelectService.execute_allowed_modes TransportModeWalking
        TransportModePrivateBicycle TransportModePrivateCar M)[0]? = some mode) ∧
    SelectService.execute_allowed_modes 1 2 3 [] = [1] ∧
    SelectService.execute_allowed_modes 1 2 3 [3] = [3] ∧
    SelectService.execute_allowed_modes 1 2 3 [3, 2] = [3, 2, 1] ∧
    SelectService.execute_allowed_modes 1 2 3 [5] = [5, 1] ∧
    SelectService.execute_allowed_modes 1 2 3 [1, 5] = [1, 5] := by
  have hform : SelectService.execute_allowed_modes TransportModeWalking
      TransportModePrivateBicycle TransportModePrivateCar M =
      (if TransportModeWalking ∉ M ∧
          ((TransportModePrivateCar ∈ M ∧ TransportModePrivateBicycle ∈ M) ∨
            (TransportModePrivateCar ∉ M ∧ TransportModePrivateBicycle ∉ M)) then
        M ++ [TransportModeWalking]
      else M) := by
    unfold SelectService.execute_allowed_modes
    by_cases hw : TransportModeWalking ∈ M <;>
      by_cases hc : TransportModePrivateCar ∈ M <;>
        by_cases hb : TransportModePrivateBicycle ∈ M <;>
          simp [hw, hc, hb]
  have hne : SelectService.execute_allowed_modes TransportModeWalking
      TransportModePrivateBicycle TransportModePrivateCar M ≠ [] := by
    rw [hform]
    split_ifs with h
    · simp
    · intro hM
      subst hM
      simp at h
  refine ⟨hform, hne, ?_, by decide, by decide, by decide, by decide, by decide⟩
  cases hl : SelectService.execute_allowed_modes TransportModeWalking
      TransportModePrivateBicycle TransportModePrivateCar M with
  | nil => exact absurd hl hne
  | cons m rest => exact ⟨m, by simp⟩

end WPS

namespace Multimodal

/-! ### String rendering -/

/-- Writing a vertex to a stream appends its rendering to what the stream holds. -/
theorem vertex_operator_shl_append (g : Graph) (out : String) (v : Vertex) :
    v.operator_shl g out = (v.operator_shl g "").map (fun s => out ++ s) := by
  cases v with
  | Road rg rv =>
    simp only [Vertex.operator_shl]
    split_ifs
    · cases g.road.m_vertex_db_id[rv]? <;> simp [String.append_assoc]
    · rfl
  | PublicTransport k pv =>
    simp only [Vertex.operator_shl]
    cases (g.public_transports.deref k).m_vertices[pv]? <;> simp [String.append_assoc]
  | Poi p =>
    simp only [Vertex.operator_shl]
    cases g.pois.find? (fun q => q.1 == p) <;> simp [String.append_assoc]

/-- C24: a multimodal vertex renders as "R", "PT" or "POI" immediately followed by the
    database id of the underlying road node, PT stop or POI, and a multimodal edge whose
    connection type is one of the six known types renders as the name of the type (Road2Road,
    Road2Transport, Transport2Road, Transport2Transport, Road2Poi, Poi2Road), one space, then
    "(" + rendering of the source + "," + rendering of the target + ")". -/
theorem rendering_of_vertices_and_edges (g : Graph) :
    (∀ (rv db_id : Nat), g.road.m_vertex_db_id[rv]? = some db_id →
      (Vertex.Road g.road.addr rv).operator_shl g "" = some ("R" ++ toString db_id)) ∧
    (∀ (k pv : Nat) (sv : PublicTransport.StoredVertex),
      (g.public_transports.deref k).m_vertices[pv]? = some sv →
      (Vertex.PublicTransport k pv).operator_shl g "" =
        some ("PT" ++ toString sv.m_property.db_id)) ∧
    (∀ (q : Nat) (p : Nat × POI), g.pois.find? (fun x => x.1 == q) = some p →
      (Vertex.Poi q).operator_shl g "" = some ("POI" ++ toString p.2.db_id)) ∧
    (∀ (e : Edge) (s t : String),
      e.connection_type ≠ ConnectionType.UnknownConnection →
      e.source.operator_shl g "" = some s → e.target.operator_shl g "" = some t →
      e.operator_shl g "" =
        some ((match e.connection_type with
          | ConnectionType.Road2Road => "Road2Road"
          | ConnectionType.Road2Transport => "Road2Transport"
          | ConnectionType.Transport2Road => "Transport2Road"
          | ConnectionType.Transport2Transport => "Transport2Transport"
          | ConnectionType.Road2Poi => "Road2Poi"
          | ConnectionType.Poi2Road => "Poi2Road"
          | ConnectionType.UnknownConnection => "") ++ " " ++ "(" ++ s ++ "," ++ t ++ ")")) := by
  refine ⟨?_, ?_, ?_, ?_⟩
  · intro rv db_id h
    simp [Vertex.operator_shl, h]
  · intro k pv sv h
    simp [Vertex.operator_shl, h]
  · intro q p h
    simp [Vertex.operator_shl, h]
  · intro e s t hk hs ht
    unfold Edge.operator_shl
    dsimp only
    rw [vertex_operator_shl_append g _ e.source, hs]
    simp only [Option.map_some']
    rw [vertex_operator_shl_append g _ e.target, ht]
    simp only [Option.map_some']
    cases hc : e.connection_type <;> simp [hc, String.append_assoc] at hk ⊢

/-- Witness of C24 on scenario S3: the edge from the road node A (database id 10) to the stop
    on A-B (database id 100) renders as "Road2Transport (R10,PT100)". -/
theorem rendering_of_vertices_and_edges_witness :
    (Edge.mk (Vertex.Road 2 0) (Vertex.PublicTransport 1 0)).connection_type ≠
      ConnectionType.UnknownConnection ∧
    (Vertex.Road 2 0).operator_shl graph_s3 "" = some "R10" ∧
    (Vertex.PublicTransport 1 0).operator_shl graph_s3 "" = some "PT100" ∧
    (Edge.mk (Vertex.Road 2 0) (Vertex.PublicTransport 1 0)).operator_shl graph_s3 "" =
      some ("Road2Transport" ++ " " ++ "(" ++ "R10" ++ "," ++ "PT100" ++ ")") :=
  ⟨by decide, by decide, by decide,
    (rendering_of_vertices_and_edges graph_s3).2.2.2
      (Edge.mk (Vertex.Road 2 0) (Vertex.PublicTransport 1 0)) "R10" "PT100"
      (by decide) (by decide) (by decide)⟩

/-! ### Edges as keys of a set -/

/-- Two vertices neither of which is less than the other are equal, and a vertex equals
    (`operator==`) itself. -/
theorem vertex_lt_trichotomy (u v : Vertex) :
    (u.operator_lt v = false → v.operator_lt u = false → u = v) ∧
    u.operator_eq u = true ∧ u.operator_lt u = false ∧
    (u.operator_eq v = true → u = v) := by
  refine ⟨?_, ?_, ?_, ?_⟩
  · cases u <;> cases v <;>
      simp [Vertex.operator_lt, Vertex.type, VertexType.toInt] <;>
      (try split_ifs) <;> (try simp_all) <;> (try omega)
  · cases u <;> simp [Vertex.operator_eq, Vertex.type]
  · cases u <;> simp [Vertex.operator_lt, Vertex.type]
  · cases u <;> cases v <;> simp [Vertex.operator_eq, Vertex.type]

/-- Two edges neither of which is less than the other are equal. -/
theorem edge_eq_of_not_lt (e f : Edge) (h1 : e.operator_lt f = false)
    (h2 : f.operator_lt e = false) : e = f := by
  obtain ⟨es, et⟩ := e
  obtain ⟨fs, ft⟩ := f
  simp only [Edge.operator_lt, Bool.or_eq_false_iff, Bool.and_eq_false_iff] at h1 h2
  obtain ⟨h1a, h1b⟩ := h1
  obtain ⟨h2a, h2b⟩ := h2
  have hs : es = fs := (vertex_lt_trichotomy es fs).1 h1a h2a
  subst hs
  have heq := (vertex_lt_trichotomy es es).2.1
  have h1c : et.operator_lt ft = false := by
    rcases h1b with h | h
    · rw [heq] at h
      cases h
    · exact h
  have h2c : ft.operator_lt et = false := by
    rcases h2b with h | h
    · rw [heq] at h
      cases h
    · exact h
  rw [(vertex_lt_trichotomy et ft).1 h1c h2c]

/-- No edge is less than itself. -/
theorem edge_lt_irrefl (e : Edge) : e.operator_lt e = false := by
  simp [Edge.operator_lt, (vertex_lt_trichotomy e.source e.source).2.2.1,
    (vertex_lt_trichotomy e.target e.target).2.2.1]

/-- The elements of a set after an insertion. -/
theorem mem_set_insert (s : List Edge) (x y : Edge) :
    y ∈ set_insert s x ↔ y = x ∨ y ∈ s := by
  induction s with
  | nil => simp [set_insert]
  | cons z rest ih =>
    unfold set_insert
    split_ifs with h1 h2
    · simp
    · simp only [List.mem_cons, ih]
      tauto
    · have hxz : x = z := edge_eq_of_not_lt x z (by simpa using h1) (by simpa using h2)
      subst hxz
      simp

/-- The size of a set after the insertion of an edge it does not hold. -/
theorem length_set_insert (s : List Edge) (x : Edge) (hx : x ∉ s) :
    (set_insert s x).length = s.length + 1 := by
  induction s with
  | nil => rfl
  | cons z rest ih =>
    have hz : x ≠ z := fun h => hx (by rw [h]; exact List.mem_cons_self _ _)
    have hr : x ∉ rest := fun h => hx (List.mem_cons_of_mem _ h)
    unfold set_insert
    split_ifs with h1 h2
    · rfl
    · simp [ih hr]
    · exact absurd (edge_eq_of_not_lt x z (by simpa using h1) (by simpa using h2)) hz

/-- Inserting pairwise different edges one by one into a set that holds none of them adds
    one element per edge. -/
theorem length_foldl_set_insert (es : List Edge) (s : List Edge) (hnd : es.Nodup)
    (hdis : ∀ e ∈ es, e ∉ s) :
    (es.foldl set_insert s).length = s.length + es.length ∧
    ∀ y, y ∈ es.foldl set_insert s ↔ y ∈ s ∨ y ∈ es := by
  induction es generalizing s with
  | nil => simp
  | cons e rest ih =>
    obtain ⟨he, hrest⟩ := List.nodup_cons.mp hnd
    have hes : e ∉ s := hdis e (List.mem_cons_self _ _)
    have hdis2 : ∀ f ∈ rest, f ∉ set_insert s e := by
      intro f hf hmem
      rcases (mem_set_insert s e f).mp hmem with h | h
      · exact he (h ▸ hf)
      · exact hdis f (List.mem_cons_of_mem _ hf) h
    obtain ⟨h1, h2⟩ := ih (set_insert s e) hrest hdis2
    constructor
    · rw [List.foldl_cons, h1, length_set_insert s e hes, List.length_cons]
      omega
    · intro y
      rw [List.foldl_cons, h2, mem_set_insert, List.mem_cons]
      tauto


/-! ### The edges of `edges( g )` are pairwise different -/

/-- Every edge section 4.1 lists for `v` has source `v`. -/
theorem expected_out_edges_source (g : Graph) (v : Vertex) (e : Edge)
    (h : e ∈ expected_out_edges v g) : e.source = v := by
  cases v with
  | Road rg rv =>
    simp only [expected_out_edges, road_section_edges, List.mem_flatMap, List.mem_append,
      List.mem_map, List.mem_singleton] at h
    obtain ⟨a, -, h | h | h⟩ := h
    · obtain ⟨s, -, rfl⟩ := h
      rfl
    · obtain ⟨p, -, rfl⟩ := h
      rfl
    · rw [h]
  | PublicTransport k pv =>
    simp only [expected_out_edges, List.mem_append, List.mem_cons, List.mem_map,
      List.mem_singleton, List.not_mem_nil, or_false] at h
    rcases h with (h | h) | ⟨t, -, rfl⟩
    · rw [h]
    · rw [h]
    · rfl
  | Poi p =>
    simp only [expected_out_edges, List.mem_cons, List.mem_singleton, List.not_mem_nil,
      or_false] at h
    rcases h with h | h
    · rw [h]
    · rw [h]

/-- The vertices section 4.1 lists for `vertices( g )`: the road vertices of the road graph,
    the stops of the iterated PT sub-graphs and the POIs. -/
theorem mem_expected_vertices (g : Graph) (v : Vertex) :
    v ∈ expected_vertices g ↔
      (∃ r, r < g.road.m_vertices ∧ v = Vertex.Road g.road.addr r) ∨
      (∃ p ∈ g.public_transports.iter, ∃ i, i < PublicTransport.num_vertices p.2 ∧
        v = Vertex.PublicTransport p.1 i) ∨
      (∃ p ∈ g.pois, v = Vertex.Poi p.1) := by
  simp only [expected_vertices, List.mem_append, List.mem_map, List.mem_range,
    List.mem_flatMap, Road.num_vertices]
  constructor
  · rintro (⟨r, hr, rfl⟩ | ⟨p, hp, i, hi, rfl⟩ | ⟨p, hp, rfl⟩)
    · exact Or.inl ⟨r, hr, rfl⟩
    · exact Or.inr (Or.inl ⟨p, hp, i, hi, rfl⟩)
    · exact Or.inr (Or.inr ⟨p, hp, rfl⟩)
  · rintro (⟨r, hr, rfl⟩ | ⟨p, hp, i, hi, rfl⟩ | ⟨p, hp, rfl⟩)
    · exact Or.inl ⟨r, hr, rfl⟩
    · exact Or.inr (Or.inl ⟨p, hp, i, hi, rfl⟩)
    · exact Or.inr (Or.inr ⟨p, hp, rfl⟩)

/-- With one element per key in the two maps, section 4.1 lists every vertex once. -/
theorem expected_vertices_nodup (g : Graph)
    (hpt : (g.public_transports.m_map.map Prod.fst).Nodup)
    (hpk : (g.pois.map Prod.fst).Nodup) : (expected_vertices g).Nodup := by
  have hkeys := iter_keys_nodup g.public_transports hpt
  unfold expected_vertices
  refine List.Nodup.append ?_ (List.Nodup.append ?_ ?_ ?_) ?_
  · exact (List.nodup_range _).map (fun a b h => by injection h)
  · rw [List.nodup_flatMap]
    constructor
    · intro p _
      exact (List.nodup_range _).map (fun a b h => by injection h)
    · have hpw : g.public_transports.iter.Pairwise (fun a b => a.1 ≠ b.1) := by
        have := hkeys
        rw [List.Nodup, List.pairwise_map] at this
        exact this
      refine hpw.imp ?_
      intro a b hab x hxa hxb
      obtain ⟨i, -, rfl⟩ := List.mem_map.mp hxa
      obtain ⟨j, -, hj⟩ := List.mem_map.mp hxb
      injection hj with h1 h2
      exact hab h1.symm
  · have : g.pois.map (fun p => Vertex.Poi p.1) = (g.pois.map Prod.fst).map Vertex.Poi := by
      rw [List.map_map]
      rfl
    rw [this]
    exact hpk.map (fun a b h => by injection h)
  · intro x hx1 hx2
    obtain ⟨p, -, i, -, rfl⟩ := by
      simpa only [List.mem_flatMap, List.mem_map, List.mem_range] using hx1
    obtain ⟨q, -, hq⟩ := List.mem_map.mp hx2
    cases hq
  · intro x hx1 hx2
    obtain ⟨r, -, rfl⟩ := List.mem_map.mp hx1
    rcases List.mem_append.mp hx2 with h | h
    · obtain ⟨p, -, i, -, hp⟩ := by
        simpa only [List.mem_flatMap, List.mem_map, List.mem_range] using h
      cases hp
    · obtain ⟨q, -, hq⟩ := List.mem_map.mp h
      cases hq

/-- Two different lists of a list of lists whose concatenation holds no element twice have
    no element in common. -/
theorem disjoint_of_nodup_flatten {α : Type} (L : List (List α)) (h : L.flatten.Nodup)
    (i j : Nat) (x y : List α) (hi : L[i]? = some x) (hj : L[j]? = some y) (hij : i ≠ j) :
    List.Disjoint x y := by
  have hpw := (List.nodup_flatten.mp h).2
  rw [List.pairwise_iff_getElem] at hpw
  obtain ⟨hi1, hi2⟩ := List.getElem?_eq_some_iff.mp hi
  obtain ⟨hj1, hj2⟩ := List.getElem?_eq_some_iff.mp hj
  rcases Nat.lt_or_gt_of_ne hij with hlt | hgt
  · have := hpw i j hi1 hj1 hlt
    rw [hi2, hj2] at this
    exact this
  · have := hpw j i hj1 hi1 hgt
    rw [hi2, hj2] at this
    exact this.symm

/-- A list of a list of lists whose concatenation holds no element twice holds no element
    twice. -/
theorem nodup_of_nodup_flatten {α : Type} (L : List (List α)) (h : L.flatten.Nodup)
    (i : Nat) (x : List α) (hi : L[i]? = some x) : x.Nodup := by
  obtain ⟨hi1, hi2⟩ := List.getElem?_eq_some_iff.mp hi
  exact (List.nodup_flatten.mp h).1 x (hi2 ▸ List.getElem_mem hi1)


/-- With consistent lists, no stop and no POI is listed twice on the road sections. -/
theorem listed_nodup (g : Graph) (hstops : g.stops_consistent g.public_transports.iter)
    (hpois : g.pois_consistent) : g.listed_stops.Nodup ∧ g.listed_pois.Nodup := by
  constructor
  · rw [List.nodup_iff_count_le_one]
    intro s
    by_cases hs : s ∈ g.listed_stops
    · obtain ⟨p, hp, h1, h2⟩ := (mem_pt_stop_ptrs _ s).mp (hstops.2 s hs)
      have h3 := (hstops.1 p hp s.vertex h2).1
      cases s
      simp only at h1 h2 h3
      subst h1
      exact Nat.le_of_eq h3
    · rw [List.count_eq_zero_of_not_mem hs]
      exact Nat.zero_le _
  · rw [List.nodup_iff_count_le_one]
    intro x
    by_cases hx : x ∈ g.listed_pois
    · obtain ⟨p, hp, rfl⟩ := List.mem_map.mp (hpois.2 x hx)
      exact Nat.le_of_eq (hpois.1 p hp).1
    · rw [List.count_eq_zero_of_not_mem hx]
      exact Nat.zero_le _

/-- `*poi` for the key of an element of the POI map, when the map holds one element per
    key. -/
theorem poi_deref_of_mem (g : Graph) (p : Nat × POI) (hnd : (g.pois.map Prod.fst).Nodup)
    (hmem : p ∈ g.pois) : g.poi_deref p.1 = p.2 := by
  unfold Graph.poi_deref
  generalize g.pois = l at hnd hmem
  induction l with
  | nil => cases hmem
  | cons q l ih =>
    simp only [List.map_cons, List.nodup_cons] at hnd
    rcases List.mem_cons.mp hmem with h | h
    · subst h
      simp
    · have hne : q.1 ≠ p.1 := fun heq => hnd.1 (heq ▸ List.mem_map_of_mem Prod.fst h)
      have hb : (q.1 == p.1) = false := by simpa using hne
      simp only [List.find?_cons, hb]
      exact ih hnd.2 h

/-- Two out-edges of a road vertex on the same road section lead to the same vertex. -/
theorem out_edges_same_section (g : Graph) (r : Nat) (a b : Road.Edge)
    (ha : a ∈ Road.out_edges r g.road) (hb : b ∈ Road.out_edges r g.road)
    (hab : a.m_eproperty = b.m_eproperty) : a.m_target = b.m_target := by
  obtain ⟨-, ka, sa, hka, hpa, hia⟩ := out_edges_aux_mem r g.road.m_edges 0 a ha
  obtain ⟨-, kb, sb, hkb, hpb, hib⟩ := out_edges_aux_mem r g.road.m_edges 0 b hb
  have hk : ka = kb := by omega
  subst hk
  rw [hka] at hkb
  cases hkb
  rcases hia with ⟨h1, h2⟩ | ⟨h1, h2⟩ <;> rcases hib with ⟨h3, h4⟩ | ⟨h3, h4⟩
  · exact h2.symm.trans h4
  · exact h2.symm.trans (h3.trans (h1.symm.trans h4))
  · exact h2.symm.trans (h3.trans (h1.symm.trans h4))
  · exact h2.symm.trans h4

/-- The edges one road edge contributes to the out-edges of a road vertex. -/
theorem mem_road_section_edges (g : Graph) (v : Vertex) (e : Road.Edge) (x : Edge) :
    x ∈ road_section_edges g v e ↔
      (∃ s ∈ (g.road.bundle e).stops, x = Edge.mk v (Vertex.PublicTransport s.graph s.vertex)) ∨
      (∃ p ∈ (g.road.bundle e).pois, x = Edge.mk v (Vertex.Poi p)) ∨
      x = Edge.mk v (Vertex.Road g.road.addr e.m_target) := by
  simp only [road_section_edges, List.mem_append, List.mem_map, List.mem_singleton]
  constructor
  · rintro (⟨s, hs, rfl⟩ | ⟨p, hp, rfl⟩ | h)
    · exact Or.inl ⟨s, hs, rfl⟩
    · exact Or.inr (Or.inl ⟨p, hp, rfl⟩)
    · exact Or.inr (Or.inr h)
  · rintro (⟨s, hs, rfl⟩ | ⟨p, hp, rfl⟩ | h)
    · exact Or.inl ⟨s, hs, rfl⟩
    · exact Or.inr (Or.inl ⟨p, hp, rfl⟩)
    · exact Or.inr (Or.inr h)

/-- When no stop and no POI is listed twice and no two out-edges of the road vertex lead to
    the same vertex, section 4.1 lists no out-edge of the road vertex twice. -/
theorem road_out_edges_nodup (g : Graph) (rg r : Nat) (hls : g.listed_stops.Nodup)
    (hlp : g.listed_pois.Nodup)
    (hroad : ((Road.out_edges r g.road).map (fun e => e.m_target)).Nodup) :
    (expected_out_edges (Vertex.Road rg r) g).Nodup := by
  have hsec : ∀ e ∈ Road.out_edges r g.road,
      (g.road.m_edges.map (fun se => se.m_property.stops))[e.m_eproperty]? =
        some (g.road.bundle e).stops ∧
      (g.road.m_edges.map (fun se => se.m_property.pois))[e.m_eproperty]? =
        some (g.road.bundle e).pois := by
    intro e he
    obtain ⟨se, hse, hb⟩ := bundle_of_out_edge g r e he
    rw [hb]
    simp [List.getElem?_map, hse]
  unfold expected_out_edges
  rw [List.nodup_flatMap]
  constructor
  · intro e he
    obtain ⟨h1, h2⟩ := hsec e he
    have hs : (g.road.bundle e).stops.Nodup := nodup_of_nodup_flatten _ hls _ _ h1
    have hp : (g.road.bundle e).pois.Nodup := nodup_of_nodup_flatten _ hlp _ _ h2
    unfold road_section_edges
    refine List.Nodup.append ?_ (List.Nodup.append ?_ (List.nodup_singleton _) ?_) ?_
    · refine hs.map ?_
      intro a b hab
      injection hab with _ h3
      injection h3 with h4 h5
      cases a
      cases b
      simp only at h4 h5
      rw [h4, h5]
    · refine hp.map ?_
      intro a b hab
      injection hab with _ h3
      injection h3
    · intro x hx1 hx2
      obtain ⟨p, -, rfl⟩ := List.mem_map.mp hx1
      simp at hx2
    · intro x hx1 hx2
      obtain ⟨s, -, rfl⟩ := List.mem_map.mp hx1
      simp at hx2
  · have hpw : (Road.out_edges r g.road).Pairwise (fun a b => a.m_target ≠ b.m_target) := by
      have := hroad
      rw [List.Nodup, List.pairwise_map] at this
      exact this
    refine hpw.imp_of_mem ?_
    intro a b ha hb hab x hxa hxb
    have hprop : a.m_eproperty ≠ b.m_eproperty :=
      fun h => hab (out_edges_same_section g r a b ha hb h)
    rw [mem_road_section_edges] at hxa hxb
    rcases hxa with ⟨s, hs, rfl⟩ | ⟨p, hp, rfl⟩ | rfl
    · rcases hxb with ⟨s2, hs2, h⟩ | ⟨p2, hp2, h⟩ | h
      · injection h with _ h3
        injection h3 with h4 h5
        have hss : s = s2 := by
          cases s
          cases s2
          simp only at h4 h5
          rw [h4, h5]
        subst hss
        exact disjoint_of_nodup_flatten _ hls _ _ _ _ (hsec a ha).1 (hsec b hb).1 hprop hs hs2
      · injection h with _ h3
        cases h3
      · injection h with _ h3
        cases h3
    · rcases hxb with ⟨s2, hs2, h⟩ | ⟨p2, hp2, h⟩ | h
      · injection h with _ h3
        cases h3
      · injection h with _ h3
        injection h3 with h4
        subst h4
        exact disjoint_of_nodup_flatten _ hlp _ _ _ _ (hsec a ha).2 (hsec b hb).2 hprop hp hp2
      · injection h with _ h3
        cases h3
    · rcases hxb with ⟨s2, hs2, h⟩ | ⟨p2, hp2, h⟩ | h
      · injection h with _ h3
        cases h3
      · injection h with _ h3
        cases h3
      · injection h with _ h3
        injection h3 with _ h5
        exact hab h5

/-- When the road section of a stop has two different end points and no two out-edges of the
    stop lead to the same stop, section 4.1 lists no out-edge of the stop twice. -/
theorem pt_out_edges_nodup (g : Graph) (k pv : Nat)
    (hne : ((g.public_transports.deref k).road_section pv).m_source ≠
      ((g.public_transports.deref k).road_section pv).m_target)
    (hnd : (PublicTransport.out_edges pv (g.public_transports.deref k)).Nodup) :
    (expected_out_edges (Vertex.PublicTransport k pv) g).Nodup := by
  unfold expected_out_edges
  refine List.Nodup.append ?_ ?_ ?_
  · simp [hne]
  · refine hnd.map ?_
    intro a b hab
    injection hab with _ h3
    injection h3
  · intro x hx1 hx2
    obtain ⟨t, -, rfl⟩ := List.mem_map.mp hx2
    simp at hx1

/-- When the road section of a POI has two different end points, section 4.1 lists no
    out-edge of the POI twice. -/
theorem poi_out_edges_nodup (g : Graph) (q : Nat)
    (hne : (g.poi_deref q).road_section.m_source ≠ (g.poi_deref q).road_section.m_target) :
    (expected_out_edges (Vertex.Poi q) g).Nodup := by
  simp [expected_out_edges, hne]


/-- Section 4.1 lists `out_degree( v, g )` out-edges for `v`. -/
theorem expected_out_edges_length (g : Graph) (v : Vertex) :
    (expected_out_edges v g).length = out_degree v g := by
  cases v with
  | Road rg rv =>
    simp only [expected_out_edges, out_degree]
    generalize Road.out_edges rv g.road = l
    induction l with
    | nil => rfl
    | cons e l ih =>
      simp only [List.flatMap_cons, List.length_append, ih, List.map_cons, List.sum_cons,
        road_section_edges, List.length_map, List.length_singleton]
      omega
  | PublicTransport k pv =>
    simp [expected_out_edges, out_degree, PublicTransport.out_degree]
  | Poi p => rfl

/-- The length of the concatenation of the lists a function gives on a list. -/
theorem length_flatMap_eq_sum {α β : Type} (l : List α) (f : α → List β) :
    (l.flatMap f).length = (l.map (fun x => (f x).length)).sum := by
  induction l with
  | nil => rfl
  | cons a l ih => simp [List.flatMap_cons, ih]

/-- The out-edges section 4.1 lists for the vertices of `vertices( g )` are as many as the
    sum of the out-degrees. -/
theorem expected_edges_length (g : Graph) :
    (expected_edges g).length = sum_out_degree g := by
  unfold expected_edges expected_vertices sum_out_degree
  rw [length_flatMap_eq_sum]
  simp only [List.map_append, List.sum_append, List.map_map, expected_out_edges_length]
  rw [Nat.add_assoc]
  congr 1
  congr 1
  generalize g.public_transports.iter = l
  induction l with
  | nil => rfl
  | cons p l ih =>
    simp only [List.flatMap_cons, List.map_append, List.sum_append, List.map_cons,
      List.sum_cons, ih, List.map_map]
    rfl

/-- Under the hypotheses on the lists and on parallel edges, section 4.1 lists no edge
    twice. -/
theorem expected_edges_nodup (g : Graph) (hwf : g.well_formed)
    (hstops : g.stops_consistent g.public_transports.iter) (hpois : g.pois_consistent)
    (hsimple : g.no_parallel_edges) : (expected_edges g).Nodup := by
  obtain ⟨-, hpt, hpk⟩ := hwf
  obtain ⟨hls, hlp⟩ := listed_nodup g hstops hpois
  obtain ⟨hs1, hs2, hs3⟩ := hsimple
  unfold expected_edges
  rw [List.nodup_flatMap]
  constructor
  · intro v hv
    rcases (mem_expected_vertices g v).mp hv with ⟨r, hr, rfl⟩ | ⟨p, hp, i, hi, rfl⟩ |
      ⟨p, hp, rfl⟩
    · exact road_out_edges_nodup g _ r hls hlp (hs1 r hr)
    · have hmem : (p.1, p.2) ∈ g.public_transports.m_map :=
        (List.mem_filter.mp hp).1
      have hd := deref_of_mem g.public_transports p.1 p.2 hpt hmem
      obtain ⟨h1, h2⟩ := hs2 p hp i hi
      exact pt_out_edges_nodup g p.1 i (by rw [hd]; exact h2) (by rw [hd]; exact h1)
    · have hd := poi_deref_of_mem g p hpk hp
      exact poi_out_edges_nodup g p.1 (by rw [hd]; exact hs3 p hp)
  · have hnd := expected_vertices_nodup g hpt hpk
    refine (List.Pairwise.imp_of_mem ?_ hnd)
    intro a b _ _ hab x hxa hxb
    exact hab ((expected_out_edges_source g a x hxa).symm.trans
      (expected_out_edges_source g b x hxb))


/-- X6: for every graph `g` with well-formed containers and consistent stops and
    pois lists, in which no two out-edges of a road vertex lead to the same road vertex, no
    two out-edges of a stop of a selected PT sub-graph lead to the same stop, the road
    section of every such stop and of every POI has two different end points, the first
    selected PT sub-graph has a stop and the first vertex of `vertices(g)` has an out-edge,
    the loop over `edges(g)` returns (with enough fuel) edges that are pairwise distinct as
    (source, target) pairs, `num_edges(g)` of them, so that inserting every edge into a set
    ordered lexicographically by (source, target) yields exactly `num_edges(g)` entries. -/
theorem edges_pairwise_distinct (g : Graph) (p : Nat × PublicTransport.Graph) (v0 : Vertex)
    (fuel : Nat) (hwf : g.well_formed)
    (hstops : g.stops_consistent g.public_transports.iter) (hpois : g.pois_consistent)
    (hsimple : g.no_parallel_edges)
    (hp : g.public_transports.iter[0]? = some p)
    (hpos : 0 < PublicTransport.num_vertices p.2)
    (hv0 : (expected_vertices g).head? = some v0) (hdeg : 0 < out_degree v0 g)
    (hfuel1 : num_edges g < fuel) (hfuel2 : num_vertices g < fuel) :
    ∃ es, edge_list g fuel = some es ∧ es.Nodup ∧ es.length = num_edges g ∧
      edge_set_size g fuel = some (num_edges g) := by
  have hlen : (expected_edges g).length = num_edges g := by
    rw [expected_edges_length, sum_out_degree_of_consistent g hwf hstops hpois]
  have hlist : edge_list g fuel = some (expected_edges g) :=
    edge_list_expected g p v0 fuel hp hpos hv0 hdeg (by rw [hlen]; exact hfuel1) hfuel2
  have hnd := expected_edges_nodup g hwf hstops hpois hsimple
  refine ⟨expected_edges g, hlist, hnd, hlen, ?_⟩
  have hset := (length_foldl_set_insert (expected_edges g) [] hnd
    (fun _ _ h => by cases h)).1
  unfold edge_set_size
  rw [hlist, Option.map_some', hset, hlen]
  simp

/-- Witness of X6 on scenario S3: 13 pairwise different edges. -/
theorem edges_pairwise_distinct_witness :
    graph_s3.well_formed ∧ graph_s3.stops_consistent graph_s3.public_transports.iter ∧
    graph_s3.pois_consistent ∧ graph_s3.no_parallel_edges ∧
    graph_s3.public_transports.iter[0]? = some (1, graph_s3.public_transports.deref 1) ∧
    0 < PublicTransport.num_vertices (graph_s3.public_transports.deref 1) ∧
    (expected_vertices graph_s3).head? = some (Vertex.Road 2 0) ∧
    0 < out_degree (Vertex.Road 2 0) graph_s3 ∧
    num_edges graph_s3 < 14 ∧ num_vertices graph_s3 < 14 ∧
    edge_set_size graph_s3 14 = some 13 ∧
    (∃ es, edge_list graph_s3 14 = some es ∧ es.Nodup ∧ es.length = num_edges graph_s3 ∧
      edge_set_size graph_s3 14 = some (num_edges graph_s3)) :=
  ⟨by decide, by decide, by decide, by decide, by decide, by decide, by decide, by decide,
    by decide, by decide, by decide,
    edges_pairwise_distinct graph_s3 (1, graph_s3.public_transports.deref 1)
      (Vertex.Road 2 0) 14 (by decide) (by decide) (by decide) (by decide) (by decide)
      (by decide) (by decide) (by decide) (by decide) (by decide)⟩

/-- C21 (failing input): on the graph with two road sections between the road nodes 0 and 1
    (well-formed containers, consistent lists, a stop in the first PT sub-graph, an out-edge
    at the first vertex), the loop over `edges(g)` returns `num_edges(g)` = 8 edges, but the
    edge from node 0 to node 1 and the edge from node 1 to node 0 come twice each: the edges
    are not pairwise distinct and the set holds 6 entries. -/
theorem edges_not_distinct_parallel_sections :
    graph_parallel_sections.well_formed ∧
    graph_parallel_sections.stops_consistent graph_parallel_sections.public_transports.iter ∧
    graph_parallel_sections.pois_consistent ∧
    num_edges graph_parallel_sections = 8 ∧
    (edge_list graph_parallel_sections 9).map List.length = some 8 ∧
    (edge_list graph_parallel_sections 9).map
      (fun es => es.count (Edge.mk (Vertex.Road 2 0) (Vertex.Road 2 1))) = some 2 ∧
    (edge_list graph_parallel_sections 9).map (fun es => decide es.Nodup) = some false ∧
    edge_set_size graph_parallel_sections 9 = some 6 := by
  decide

/-! ### The indices of the objects met by the loop over `vertices( g )` -/

/-- The index of a road vertex, whatever the other fields of the object hold. -/
theorem get_index_of_road (g : Graph) (v : VertexObject) (ht : v.type = VertexType.Road) :
    get_index g v = v.road_vertex := by
  simp [get_index, ht]

/-- The index of a stop of the sub-graph at position `j` of the iteration, whatever the
    other fields of the object hold. -/
theorem get_index_of_pt (g : Graph) (j k : Nat) (G : PublicTransport.Graph) (v : VertexObject)
    (hnd : (g.public_transports.m_map.map Prod.fst).Nodup)
    (hj : g.public_transports.iter[j]? = some (k, G))
    (ht : v.type = VertexType.PublicTransport) (hg : v.pt_graph = some k) :
    get_index g v =
      Road.num_vertices g.road +
        ((g.public_transports.iter.take j).map
          (fun it => PublicTransport.num_vertices it.2)).sum + v.pt_vertex := by
  simp only [get_index, ht, hg]
  simp only [reduceCtorEq, if_false]
  exact get_index_pt_loop_at k v.pt_vertex G _ j _ (iter_keys_nodup _ hnd) hj

/-- The index of the POI at position `q` when the fields `pt_graph` and `pt_vertex` of the
    object still name a stop of the sub-graph at position `j` of the iteration: the PT loop
    stops at that sub-graph and adds the descriptor of the stop. -/
theorem get_index_of_poi_after_stop (g : Graph) (j k q key : Nat) (G : PublicTransport.Graph)
    (x : POI) (v : VertexObject)
    (hnd : (g.public_transports.m_map.map Prod.fst).Nodup)
    (hpoi : (g.pois.map Prod.fst).Nodup)
    (hj : g.public_transports.iter[j]? = some (k, G)) (hq : g.pois[q]? = some (key, x))
    (ht : v.type = VertexType.Poi) (hg : v.pt_graph = some k) (hp : v.poi = some key) :
    get_index g v =
      Road.num_vertices g.road +
        ((g.public_transports.iter.take j).map
          (fun it => PublicTransport.num_vertices it.2)).sum + v.pt_vertex + q + 1 := by
  simp only [get_index, ht, hg, hp]
  simp only [reduceCtorEq, if_false, if_true]
  rw [get_index_pt_loop_at k v.pt_vertex G _ j _ (iter_keys_nodup _ hnd) hj,
    get_index_poi_loop_at key x _ q _ hpoi hq]

/-- The index of the POI at position `q` when no pointer to a PT sub-graph was ever stored
    in the object: the PT loop adds every sub-graph. -/
theorem get_index_of_poi_without_stop (g : Graph) (q key : Nat) (x : POI) (v : VertexObject)
    (hpoi : (g.pois.map Prod.fst).Nodup) (hq : g.pois[q]? = some (key, x))
    (ht : v.type = VertexType.Poi) (hg : v.pt_graph = none) (hp : v.poi = some key) :
    get_index g v =
      Road.num_vertices g.road +
        (g.public_transports.iter.map (fun it => PublicTransport.num_vertices it.2)).sum +
        q + 1 := by
  simp only [get_index, ht, hg, hp]
  simp only [reduceCtorEq, if_false, if_true]
  rw [get_index_pt_loop_none, get_index_poi_loop_at key x _ q _ hpoi hq]

/-- `VertexIterator::dereference` stores in `vertex_` the vertex it yields. -/
theorem dereference_into_eq (g : Graph) (it : VertexIterator) (o : VertexObject) :
    it.dereference_into g o = (it.dereference g).map o.assign := by
  unfold VertexIterator.dereference_into VertexIterator.dereference
  by_cases h1 : it.road_it_ = it.road_it_end_
  · by_cases h2 : it.pt_it_ = it.pt_it_end_
    · simp only [ne_eq, h1, h2, not_true_eq_false, if_false, reduceCtorEq]
      cases g.pois[it.poi_it_]? <;> simp [VertexObject.assign]
    · simp only [ne_eq, h1, h2, not_true_eq_false, not_false_eq_true, if_true, if_false,
        reduceCtorEq]
      cases g.public_transports.iter[it.pt_graph_it_]? <;> simp [VertexObject.assign]
  · simp [h1, VertexObject.assign]

/-- The loop followed on `vertex_` yields the objects in which the vertices of the loop are
    stored one after the other. -/
theorem vertex_object_loop_eq (g : Graph) (fuel : Nat) (vi vi_end : VertexIterator)
    (o : VertexObject) :
    vertex_object_loop g fuel vi vi_end o =
      (collect VertexIterator.equal (fun it => some (it.increment g))
        (VertexIterator.dereference g) fuel vi vi_end).map o.assign_all := by
  induction fuel generalizing vi o with
  | zero => simp [vertex_object_loop, collect]
  | succ n ih =>
    unfold vertex_object_loop collect
    by_cases he : vi.equal vi_end = true
    · simp [he, VertexObject.assign_all]
    · simp only [he, if_false, Bool.false_eq_true]
      rw [dereference_into_eq]
      cases hd : vi.dereference g with
      | none => simp
      | some x =>
        simp only [Option.map_some']
        rw [ih]
        cases collect VertexIterator.equal (fun it => some (it.increment g))
          (VertexIterator.dereference g) n (vi.increment g) vi_end <;>
          simp [VertexObject.assign_all]

/-- The objects of the loop over `vertices( g )` are the vertices of the loop, stored one
    after the other in a `vertex_` no field of which was assigned. -/
theorem vertex_object_list_eq (g : Graph) (fuel : Nat) :
    vertex_object_list g fuel =
      (vertex_list g fuel).map VertexObject.unassigned.assign_all := by
  unfold vertex_object_list vertex_list
  cases vertices g with
  | none => rfl
  | some p => exact vertex_object_loop_eq g fuel p.1 p.2 _

/-- Each object of the loop stands for the vertex of the loop at the same position. -/
theorem assign_all_vertex (o : VertexObject) (vs : List Vertex) :
    (o.assign_all vs).map VertexObject.vertex = vs.map some := by
  induction vs generalizing o with
  | nil => rfl
  | cons v vs ih =>
    simp only [VertexObject.assign_all, List.map_cons, ih]
    cases v <;> simp [VertexObject.assign, VertexObject.vertex]

/-- The stops of the sub-graphs of a list with one sub-graph per key, taken in order, get
    consecutive values from the PT loop of `get_index`. -/
theorem get_index_pt_loop_stops (l : List (Nat × PublicTransport.Graph)) (n : Nat)
    (hnd : (l.map Prod.fst).Nodup) :
    (l.flatMap (fun p => (List.range (PublicTransport.num_vertices p.2)).map
        (fun i => (p.1, i)))).map (fun ki => get_index_pt_loop (some ki.1) ki.2 n l) =
      List.range' n (l.map (fun it => PublicTransport.num_vertices it.2)).sum := by
  induction l generalizing n with
  | nil => simp
  | cons p l ih =>
    simp only [List.map_cons, List.nodup_cons] at hnd
    simp only [List.flatMap_cons, List.map_append, List.map_map, List.map_cons, List.sum_cons]
    have h1 : List.map ((fun ki : Nat × Nat => get_index_pt_loop (some ki.1) ki.2 n (p :: l)) ∘
        fun i => (p.1, i)) (List.range (PublicTransport.num_vertices p.2)) =
        List.range' n (PublicTransport.num_vertices p.2) := by
      rw [List.range'_eq_map_range]
      apply List.map_congr_left
      intro i _
      simp [get_index_pt_loop]
    have h2 : List.map (fun ki : Nat × Nat => get_index_pt_loop (some ki.1) ki.2 n (p :: l))
        (l.flatMap (fun p => (List.range (PublicTransport.num_vertices p.2)).map
          (fun i => (p.1, i)))) =
        List.map (fun ki : Nat × Nat =>
          get_index_pt_loop (some ki.1) ki.2 (n + PublicTransport.num_vertices p.2) l)
        (l.flatMap (fun p => (List.range (PublicTransport.num_vertices p.2)).map
          (fun i => (p.1, i)))) := by
      apply List.map_congr_left
      intro ki hki
      simp only [List.mem_flatMap, List.mem_map, List.mem_range] at hki
      obtain ⟨q, hq, i, -, rfl⟩ := hki
      have hne : p.1 ≠ q.1 := fun h => hnd.1 (h ▸ List.mem_map.mpr ⟨q, hq, rfl⟩)
      simp [get_index_pt_loop, hne]
    rw [h1, h2, ih _ hnd.2]
    rw [show (PublicTransport.num_vertices p.2 +
        (l.map (fun it => PublicTransport.num_vertices it.2)).sum) =
      (l.map (fun it => PublicTransport.num_vertices it.2)).sum +
        PublicTransport.num_vertices p.2 by omega]
    rw [← List.range'_append]
    simp

/-- The POIs of a map with one element per key, taken in order, get consecutive values from
    the POI loop of `get_index`, the first of them one above the start. -/
theorem get_index_poi_loop_all (l : List (Nat × POI)) (n : Nat)
    (hnd : (l.map Prod.fst).Nodup) :
    l.map (fun p => get_index_poi_loop (some p.1) n l) = List.range' (n + 1) l.length := by
  induction l generalizing n with
  | nil => simp
  | cons p l ih =>
    simp only [List.map_cons, List.nodup_cons] at hnd
    have h2 : List.map (fun q : Nat × POI => get_index_poi_loop (some q.1) n (p :: l)) l =
        List.map (fun q : Nat × POI => get_index_poi_loop (some q.1) (n + 1) l) l := by
      apply List.map_congr_left
      intro q hq
      have hne : p.1 ≠ q.1 := fun h => hnd.1 (h ▸ List.mem_map.mpr ⟨q, hq, rfl⟩)
      simp [get_index_poi_loop, hne]
    simp only [List.map_cons, List.length_cons]
    rw [h2, ih _ hnd.2]
    simp [get_index_poi_loop, List.range'_succ]

/-- The objects in which a list of vertices is stored give the values of a function of the
    vertex when, from every content of `vertex_` that satisfies an invariant, storing a
    vertex of the list keeps the invariant and gives the value of that vertex. -/
theorem assign_all_map {β : Type} (f : VertexObject → β) (h : Vertex → β)
    (Inv : VertexObject → Prop) (l : List Vertex)
    (hstep : ∀ o, Inv o → ∀ v ∈ l, Inv (o.assign v) ∧ f (o.assign v) = h v) :
    ∀ o, Inv o → (o.assign_all l).map f = l.map h := by
  induction l with
  | nil => intro o _; rfl
  | cons v l ih =>
    intro o ho
    obtain ⟨h1, h2⟩ := hstep o ho v (List.mem_cons_self _ _)
    simp only [VertexObject.assign_all, List.map_cons, h2]
    rw [ih (fun o2 ho2 w hw => hstep o2 ho2 w (List.mem_cons_of_mem _ hw)) _ h1]

/-- The objects of two lists of vertices put end to end. -/
theorem assign_all_append (o : VertexObject) (l1 l2 : List Vertex) :
    o.assign_all (l1 ++ l2) =
      o.assign_all l1 ++ (l1.foldl VertexObject.assign o).assign_all l2 := by
  induction l1 generalizing o with
  | nil => rfl
  | cons v l ih => simp [VertexObject.assign_all, ih]

/-- After a non-empty list of stops the fields `pt_graph` and `pt_vertex` of `vertex_` are
    those of the last stop of the list. -/
theorem foldl_assign_stops (l : List (Nat × Nat)) (o : VertexObject) (hl : l ≠ []) :
    ∃ ki, l.getLast? = some ki ∧
      ((l.map (fun ki => Vertex.PublicTransport ki.1 ki.2)).foldl
        VertexObject.assign o).pt_graph = some ki.1 ∧
      ((l.map (fun ki => Vertex.PublicTransport ki.1 ki.2)).foldl
        VertexObject.assign o).pt_vertex = ki.2 := by
  induction l generalizing o with
  | nil => exact absurd rfl hl
  | cons a l ih =>
    cases l with
    | nil => exact ⟨a, rfl, rfl, rfl⟩
    | cons b l =>
      obtain ⟨ki, h1, h2, h3⟩ := ih (o.assign (Vertex.PublicTransport a.1 a.2)) (by simp)
      exact ⟨ki, by rw [List.getLast?_cons_cons]; exact h1, h2, h3⟩

/-- The last element of a non-empty run of consecutive numbers. -/
theorem getLast_of_range (s n x : Nat) (h : (List.range' s n).getLast? = some x) :
    x + 1 = s + n := by
  rw [List.getLast?_eq_getElem?, List.length_range'] at h
  cases n with
  | zero => simp at h
  | succ n =>
    rw [List.getElem?_range' _ _ (by omega)] at h
    simp only [Option.some.injEq] at h
    omega

/-- Three runs of consecutive numbers put end to end. -/
theorem range_three (a b c : Nat) :
    List.range' 0 a ++ (List.range' a b ++ List.range' (a + b) c) = List.range (b + a + c) := by
  have a1 : List.range' a b ++ List.range' (a + b) c = List.range' a (c + b) := by
    have := List.range'_append a b c 1
    rw [Nat.one_mul] at this
    exact this
  have a2 : List.range' 0 a ++ List.range' a (c + b) = List.range' 0 (c + b + a) := by
    have := List.range'_append 0 a (c + b) 1
    rw [Nat.one_mul, Nat.zero_add] at this
    exact this
  rw [a1, a2, List.range_eq_range']
  congr 1
  omega

/-- On a graph whose first iterated sub-graph has a stop, the objects in which the vertices
    of section 4.1 of the specification are stored one after the other have the indices 0, 1,
    2, ... in this order: when a POI is stored, `pt_graph` and `pt_vertex` still name the last
    stop, whose descriptor the PT loop of `get_index` adds in place of the vertex count of its
    sub-graph, which makes up for the `n++` of the POI loop. -/
theorem index_of_expected_vertices (g : Graph) (p : Nat × PublicTransport.Graph)
    (o : VertexObject)
    (hpt : (g.public_transports.m_map.map Prod.fst).Nodup)
    (hpoi : (g.pois.map Prod.fst).Nodup)
    (hp : g.public_transports.iter[0]? = some p)
    (hpos : 0 < PublicTransport.num_vertices p.2) :
    (o.assign_all (expected_vertices g)).map (fun v => get_index g v) =
      List.range (num_vertices g) := by
  have hnd := iter_keys_nodup _ hpt
  have hstops : g.public_transports.iter.flatMap (fun p =>
      (List.range (PublicTransport.num_vertices p.2)).map
        (fun i => Vertex.PublicTransport p.1 i)) =
      (g.public_transports.iter.flatMap (fun p =>
        (List.range (PublicTransport.num_vertices p.2)).map (fun i => (p.1, i)))).map
        (fun ki => Vertex.PublicTransport ki.1 ki.2) := by
    rw [List.map_flatMap]
    simp only [List.map_map]
    rfl
  have hF := get_index_pt_loop_stops g.public_transports.iter (Road.num_vertices g.road) hnd
  have hsum : 0 < (g.public_transports.iter.map
      (fun it => PublicTransport.num_vertices it.2)).sum := by
    cases hl : g.public_transports.iter with
    | nil => rw [hl] at hp; simp at hp
    | cons a l =>
      rw [hl] at hp
      simp only [List.getElem?_cons_zero, Option.some.injEq] at hp
      subst hp
      simp only [List.map_cons, List.sum_cons]
      omega
  have hne : g.public_transports.iter.flatMap (fun p =>
      (List.range (PublicTransport.num_vertices p.2)).map (fun i => (p.1, i))) ≠ [] := by
    intro h
    rw [h] at hF
    simp only [List.map_nil] at hF
    have := congrArg List.length hF
    simp only [List.length_nil, List.length_range'] at this
    omega
  unfold expected_vertices
  rw [hstops, assign_all_append, assign_all_append, List.map_append, List.map_append]
  obtain ⟨ki, hlast, hk1, hk2⟩ := foldl_assign_stops _
    (List.foldl VertexObject.assign o
      ((List.range (Road.num_vertices g.road)).map (fun i => Vertex.Road g.road.addr i))) hne
  have hval : get_index_pt_loop (some ki.1) ki.2 (Road.num_vertices g.road)
      g.public_transports.iter + 1 =
      Road.num_vertices g.road +
        (g.public_transports.iter.map (fun it => PublicTransport.num_vertices it.2)).sum := by
    apply getLast_of_range
    rw [← hF, List.getLast?_map, hlast]
    rfl
  -- the road vertices
  have h1 := assign_all_map (fun v => get_index g v) (fun v => get_index g v.constructed)
    (fun _ => True)
    ((List.range (Road.num_vertices g.road)).map (fun i => Vertex.Road g.road.addr i))
    (fun o2 _ v hv => by
      simp only [List.mem_map, List.mem_range] at hv
      obtain ⟨i, -, rfl⟩ := hv
      exact ⟨trivial, by simp [get_index, VertexObject.assign, Vertex.constructed]⟩)
    o trivial
  -- the stops
  have h2 := assign_all_map (fun v => get_index g v) (fun v => get_index g v.constructed)
    (fun _ => True)
    ((g.public_transports.iter.flatMap (fun p =>
        (List.range (PublicTransport.num_vertices p.2)).map (fun i => (p.1, i)))).map
        (fun ki => Vertex.PublicTransport ki.1 ki.2))
    (fun o2 _ v hv => by
      simp only [List.mem_map] at hv
      obtain ⟨kj, -, rfl⟩ := hv
      exact ⟨trivial, by simp [get_index, VertexObject.assign, Vertex.constructed]⟩)
    (List.foldl VertexObject.assign o
      ((List.range (Road.num_vertices g.road)).map (fun i => Vertex.Road g.road.addr i)))
    trivial
  -- the POIs
  have h3 := assign_all_map (fun v => get_index g v)
    (fun v => match v with
      | .Poi key => get_index_poi_loop (some key)
          (get_index_pt_loop (some ki.1) ki.2 (Road.num_vertices g.road)
            g.public_transports.iter) g.pois
      | _ => 0)
    (fun o2 => o2.pt_graph = some ki.1 ∧ o2.pt_vertex = ki.2)
    (g.pois.map (fun q => Vertex.Poi q.1))
    (fun o2 ho2 v hv => by
      simp only [List.mem_map] at hv
      obtain ⟨q, -, rfl⟩ := hv
      refine ⟨⟨ho2.1, ho2.2⟩, ?_⟩
      simp [get_index, VertexObject.assign, ho2.1, ho2.2])
    _ ⟨hk1, hk2⟩
  rw [h1, h2, h3]
  simp only [List.map_map]
  have e1 : List.map ((fun v => get_index g v.constructed) ∘
      fun i => Vertex.Road g.road.addr i) (List.range (Road.num_vertices g.road)) =
      List.range' 0 (Road.num_vertices g.road) := by
    rw [List.range'_eq_map_range]
    apply List.map_congr_left
    intro i _
    simp [get_index_road]
  have e2 : List.map ((fun v => get_index g v.constructed) ∘
      fun ki : Nat × Nat => Vertex.PublicTransport ki.1 ki.2)
      (g.public_transports.iter.flatMap (fun p =>
        (List.range (PublicTransport.num_vertices p.2)).map (fun i => (p.1, i)))) =
      List.range' (Road.num_vertices g.road)
        (g.public_transports.iter.map (fun it => PublicTransport.num_vertices it.2)).sum := by
    rw [← hF]
    apply List.map_congr_left
    intro kj _
    simp [get_index, Vertex.constructed]
  have e3 : List.map ((fun v : Vertex => match v with
      | .Poi key => get_index_poi_loop (some key)
          (get_index_pt_loop (some ki.1) ki.2 (Road.num_vertices g.road)
            g.public_transports.iter) g.pois
      | _ => 0) ∘ fun q : Nat × POI => Vertex.Poi q.1) g.pois =
      List.range' (Road.num_vertices g.road +
        (g.public_transports.iter.map (fun it => PublicTransport.num_vertices it.2)).sum)
        g.pois.length := by
    rw [← hval, ← get_index_poi_loop_all g.pois _ hpoi]
    apply List.map_congr_left
    intro q _
    rfl
  rw [e1, e2, e3]
  unfold num_vertices
  exact range_three _ _ _

/-- X4: on a graph whose two maps hold one element per key and whose first iterated PT
    sub-graph has at least one stop, the values `get( index, *vi )` of the loop over
    `vertices( g )` are, with any fuel above `num_vertices( g )`, the numbers 0, 1, ...,
    `num_vertices( g ) - 1` in this order: the index of every vertex met by the loop is its
    position in the loop. -/
theorem index_list_eq_range (g : Graph) (p : Nat × PublicTransport.Graph) (fuel : Nat)
    (hpt : (g.public_transports.m_map.map Prod.fst).Nodup)
    (hpoi : (g.pois.map Prod.fst).Nodup)
    (hp : g.public_transports.iter[0]? = some p)
    (hpos : 0 < PublicTransport.num_vertices p.2) (hfuel : num_vertices g < fuel) :
    index_list g fuel = some (List.range (num_vertices g)) := by
  unfold index_list
  rw [vertex_object_list_eq, vertex_list_expected g p fuel hp hpos hfuel]
  exact congrArg some (index_of_expected_vertices g p _ hpt hpoi hp hpos)

/-- Witness of X4 on the graph with three road nodes, one PT stop and one POI: the indices of
    the loop are 0, 1, 2, 3, 4; the POI, met after the stop, has index 4. -/
theorem index_list_eq_range_witness :
    (graph_poi.public_transports.m_map.map Prod.fst).Nodup ∧
    (graph_poi.pois.map Prod.fst).Nodup ∧
    graph_poi.public_transports.iter[0]? = some (1, graph_poi.public_transports.deref 1) ∧
    0 < PublicTransport.num_vertices (graph_poi.public_transports.deref 1) ∧
    num_vertices graph_poi < 6 ∧
    index_list graph_poi 6 = some [0, 1, 2, 3, 4] :=
  ⟨by decide, by decide, by decide, by decide, by decide,
    index_list_eq_range graph_poi (1, graph_poi.public_transports.deref 1) 6
      (by decide) (by decide) (by decide) (by decide) (by decide)⟩

end Multimodal

end Tempus
